import Mathlib

/-!
# Verification of `pywekaclassifiers/arff.py`

A shallow embedding of the ARFF reader/writer in `src/pywekaclassifiers/arff.py`
(the single source file of the repository), together with theorems settling the
frozen claims about it.

Conventions of the embedding:
* Python strings are `List Char` (`Str` below); host helpers such as
  `str.lower`, `str.strip`, `str.split`, `str.splitlines`, `str.replace` and the
  two regular expressions used by the source are modelled as explicit
  executable functions on `Str`.
* Python `int` is `ℤ`, Python `float` and `decimal.Decimal` are `ℚ` (exact
  where the source relies on exactness; host float formatting is an
  out-of-scope collaborator per the specification and is modelled exactly only
  for integral values, which is the only case any theorem touches).
* Fallible Python code (uncaught exceptions, failed `assert`s, `KeyError`,
  `IndexError`, `TypeError`, `ValueError`) is modelled with `Except Str`.
* `print(...)` to process stdout is modelled by the `stdout` field of the
  dataset state; the open streaming sink (`self.fout`) is modelled by the
  `fout : Bool` flag plus the `foutLines` list of lines written to it.
-/

namespace PyWeka

/-- Python strings, modelled as lists of characters. -/
abbrev Str := List Char

theorem length_dropWhile_le {α : Type} (p : α → Bool) (l : List α) :
    (l.dropWhile p).length ≤ l.length := by
  induction l with
  | nil => simp [List.dropWhile]
  | cons a l ih =>
    by_cases h : p a
    · simp only [List.dropWhile, h]
      exact Nat.le_succ_of_le ih
    · simp [List.dropWhile, h]

/-- The ARFF missing marker, `MISSING = '?'` in the source. -/
def MISSING : Str := ['?']

/-- Characters treated as whitespace by Python's `str.strip`/`str.split()` and
by the regex class `\s`. -/
def pyIsSpace (c : Char) : Bool :=
  c = ' ' || c = '\t' || c = '\n' || c = '\r' || c = '\x0b' || c = '\x0c'

/-- Python `str.lower`, ASCII case only (all directive matching in the source
is over ASCII text). -/
def pyLower (s : Str) : Str := s.map Char.toLower

/-- Python `s.startswith(pre)`. -/
def pyStartswith : Str → Str → Bool
  | _, [] => true
  | [], _ :: _ => false
  | c :: s, p :: ps => c = p && pyStartswith s ps

/-- Python `s.endswith(suf)`. -/
def pyEndswith (s suf : Str) : Bool := pyStartswith s.reverse suf.reverse

/-- Python `str.strip()` with no argument (strip whitespace on both sides). -/
def pystrip (s : Str) : Str :=
  ((s.dropWhile pyIsSpace).reverse.dropWhile pyIsSpace).reverse

/-- Python `s.split(sep)` for a one-character separator `sep`:
keeps empty pieces, as Python does. -/
def pySplitChar (sep : Char) : Str → List Str
  | [] => [[]]
  | c :: rest =>
    if c = sep then [] :: pySplitChar sep rest
    else
      match pySplitChar sep rest with
      | [] => [[c]]
      | p :: ps => (c :: p) :: ps

/-- Python `s.split()` with no argument: split on whitespace runs, dropping
empty pieces (single accumulator pass). -/
def pySplitWsAux : Str → Str → List Str
  | acc, [] => if acc = [] then [] else [acc.reverse]
  | acc, c :: r =>
    if pyIsSpace c then
      if acc = [] then pySplitWsAux [] r else acc.reverse :: pySplitWsAux [] r
    else
      pySplitWsAux (c :: acc) r

def pySplitWs (s : Str) : List Str := pySplitWsAux [] s

/-- Python `s.replace(old, new)`: leftmost, non-overlapping, driven by a fuel
bounded by the string length so the recursion is structural.  The source only
calls it with non-empty `old`. -/
def pyReplaceF : ℕ → Str → Str → Str → Str
  | 0, s, _, _ => s
  | f + 1, s, old, new =>
    match s with
    | [] => []
    | c :: r =>
      if old ≠ [] ∧ pyStartswith (c :: r) old then
        new ++ pyReplaceF f ((c :: r).drop old.length) old new
      else
        c :: pyReplaceF f r old new

def pyReplace (s old new : Str) : Str := pyReplaceF (s.length + 1) s old new

/-- Python `needle in hay` for strings: substring containment. -/
def strContains (hay needle : Str) : Bool :=
  hay.tails.any (fun t => pyStartswith t needle)

/-- The characters at which Python `str.splitlines` breaks a line: `\n`,
`\r`, `\v`, `\f`, the file/group/record separators, NEL, LINE SEPARATOR and
PARAGRAPH SEPARATOR. -/
def isLineBreak (c : Char) : Bool :=
  c = '\n' || c = '\r' || c = '\x0b' || c = '\x0c' || c = '\x1c' ||
  c = '\x1d' || c = '\x1e' || c = '\x85' || c = '\u2028' || c = '\u2029'

/-- Splitting pass of `splitlines`, run after every `\r\n` pair has been
fused into `\n`: breaks at each line-break character, and a terminal break
produces no trailing empty line. -/
def splitlinesGo : List Char → Str → List Str
  | acc, [] => if acc = [] then [] else [acc.reverse]
  | acc, c :: rest =>
    if isLineBreak c then acc.reverse :: splitlinesGo [] rest
    else splitlinesGo (c :: acc) rest

/-- Python `str.splitlines`: `\r\n` counts as a single boundary (occurrences
cannot overlap, so fusing them into `\n` first is faithful), and every other
line-break character breaks on its own. -/
def splitlines (s : Str) : List Str :=
  splitlinesGo [] (pyReplace s ['\r', '\n'] ['\n'])

/-- Decimal digit to character. -/
def digitChar (d : ℕ) : Char :=
  Char.ofNat ('0'.toNat + d)

/-- Decimal digits of `n`, least significant first (`fuel`-driven so the kernel
can evaluate it). -/
def natDigitsRev : ℕ → ℕ → List ℕ
  | 0, _ => []
  | _ + 1, 0 => []
  | fuel + 1, n => n % 10 :: natDigitsRev fuel (n / 10)

/-- Host decimal rendering of a natural number, as Python's `str` produces it. -/
def natToStr (n : ℕ) : Str :=
  if n = 0 then ['0'] else ((natDigitsRev (n + 1) n).map digitChar).reverse

/-- Host decimal rendering of a Python `int` (`str(i)`). -/
def intToStr (i : ℤ) : Str :=
  if i < 0 then '-' :: natToStr i.natAbs else natToStr i.toNat

/-- Value of a decimal digit character. -/
def charVal (c : Char) : ℕ := c.toNat - '0'.toNat

/-- Natural-number value of a digit string (helper for `int(...)`). -/
def parseNatAcc (a : ℕ) : Str → ℕ
  | [] => a
  | c :: r => parseNatAcc (10 * a + charVal c) r

/-- Python `int(s)` on a string: optional surrounding whitespace, optional
sign, then one or more decimal digits; anything else raises `ValueError`. -/
def parseIntPy (s0 : Str) : Except Str ℤ :=
  let s := pystrip s0
  let core : Str → Except Str ℕ := fun ds =>
    if ds ≠ [] ∧ ds.all Char.isDigit then Except.ok (parseNatAcc 0 ds)
    else Except.error ("ValueError: invalid literal for int: ".toList ++ s0)
  match s with
  | '-' :: ds => (core ds).map (fun n => -(n : ℤ))
  | '+' :: ds => (core ds).map (fun n => (n : ℤ))
  | ds => (core ds).map (fun n => (n : ℤ))

/-- Python `float(s)` on a string, for plain decimal literals
`[sign] digits [. digits]`; other host-accepted forms (exponents, `inf`, …)
never arise in the claims and are rejected. -/
def parseFloatPy (s0 : Str) : Except Str ℚ :=
  let s := pystrip s0
  let core : Str → Except Str ℚ := fun ds =>
    let ip := ds.takeWhile Char.isDigit
    let rest := ds.dropWhile Char.isDigit
    match rest with
    | [] =>
      if ip ≠ [] then Except.ok ((parseNatAcc 0 ip : ℕ) : ℚ)
      else Except.error ("ValueError: could not convert string to float: ".toList ++ s0)
    | '.' :: fp =>
      if (ip ≠ [] ∨ fp ≠ []) ∧ fp.all Char.isDigit then
        Except.ok (((parseNatAcc 0 ip : ℕ) : ℚ) +
          ((parseNatAcc 0 fp : ℕ) : ℚ) / ((10 : ℚ) ^ fp.length))
      else Except.error ("ValueError: could not convert string to float: ".toList ++ s0)
    | _ => Except.error ("ValueError: could not convert string to float: ".toList ++ s0)
  match s with
  | '-' :: ds => (core ds).map (fun q => -q)
  | '+' :: ds => core ds
  | ds => core ds

/-- Truncation toward zero, as Python `int(float)` does. -/
def ratTrunc (q : ℚ) : ℤ :=
  if q < 0 then -((-q).floor) else q.floor

/-! ## Python scalar payloads -/

/-- A raw Python scalar as it appears in payloads and rows: `int`, `float`,
`decimal.Decimal`, or `str`.  `float` and `Decimal` are modelled as exact
rationals. -/
inductive PyVal
  | int (i : ℤ)
  | float (q : ℚ)
  | dec (q : ℚ)
  | str (s : Str)
deriving DecidableEq, Repr

/-- Python `==` between raw scalars: numeric kinds compare by value across
`int`/`float`/`Decimal`; strings compare as text; numeric vs string is `False`. -/
def PyVal.eq : PyVal → PyVal → Bool
  | .int a, .int b => a = b
  | .int a, .float b => (a : ℚ) = b
  | .int a, .dec b => (a : ℚ) = b
  | .float a, .int b => a = (b : ℚ)
  | .float a, .float b => a = b
  | .float a, .dec b => a = b
  | .dec a, .int b => a = (b : ℚ)
  | .dec a, .float b => a = b
  | .dec a, .dec b => a = b
  | .str a, .str b => a = b
  | .str _, _ => false
  | _, .str _ => false

/-- Whether a raw scalar `== MISSING` (`'?'`) in Python. -/
def PyVal.isMissing (p : PyVal) : Bool := PyVal.eq p (.str MISSING)

/-- Python `int(v)` over a raw scalar (`ValueError` on a non-numeric string,
truncation on `float`/`Decimal`). -/
def pyInt : PyVal → Except Str ℤ
  | .int i => Except.ok i
  | .float q => Except.ok (ratTrunc q)
  | .dec q => Except.ok (ratTrunc q)
  | .str s => parseIntPy s

/-- Python `float(v)` over a raw scalar. -/
def pyFloat : PyVal → Except Str ℚ
  | .int i => Except.ok (i : ℚ)
  | .float q => Except.ok q
  | .dec q => Except.ok q
  | .str s => parseFloatPy s

/-- Modelled from the spec: host decimal/float-to-string formatting is an
out-of-scope collaborator (spec section 1).  It is modelled exactly for
integers and for integral floats (Python renders `5.0` as `"5.0"`); the
non-integral rendering below is a stand-in no theorem depends on. -/
def ratToStr (q : ℚ) : Str :=
  if q.den = 1 then intToStr q.num ++ ".0".toList
  else intToStr q.num ++ ['/'] ++ natToStr q.den

/-- Python `str(v)` over a raw scalar. -/
def pyStr : PyVal → Str
  | .int i => intToStr i
  | .float q => ratToStr q
  | .dec q => ratToStr q
  | .str s => s

/-! ## Attribute types (`TYPE_*` constants) -/

/-- The attribute-type strings of the source (`TYPE_INTEGER`, … ).  `real` is
kept distinct from `numeric`, as in the source, where `TYPE_REAL` is a separate
string constant normalised to `numeric` only by the attribute parser. -/
inductive AType
  | integer
  | numeric
  | real
  | string
  | nominal
  | date
deriving DecidableEq, Repr

/-- `TYPES` from the source (note: it does not include `real`). -/
def TYPES : List AType := [.integer, .numeric, .string, .nominal, .date]

/-- `NUMERIC_TYPES` from the source. -/
def NUMERIC_TYPES : List AType := [.integer, .numeric, .real]

/-- Rendering of a type constant, for warning/error text. -/
def AType.toStr : AType → Str
  | .integer => "integer".toList
  | .numeric => "numeric".toList
  | .real => "real".toList
  | .string => "string".toList
  | .nominal => "nominal".toList
  | .date => "date".toList

/-! ## The `Value` class hierarchy -/

/-- The `Value` subclass a tagged scalar belongs to (`Integer`, `Numeric`,
`String`, `Nominal`, `Date`). -/
inductive VKind
  | integer
  | numeric
  | string
  | nominal
  | date
deriving DecidableEq, Repr

/-- The `c_type` class attribute of each `Value` subclass. -/
def VKind.cType : VKind → AType
  | .integer => .integer
  | .numeric => .numeric
  | .string => .string
  | .nominal => .nominal
  | .date => .date

/-- A `Value` instance: the subclass tag, the raw payload stored in
`self.value`, and the `cls` (class-attribute) flag. -/
structure Value where
  kind : VKind
  value : PyVal
  cls : Bool
deriving DecidableEq, Repr

/-- `Value.__eq__`: two `Value` objects compare by `self.value == other.value`
alone (the subclass and the `cls` flag are ignored). -/
def valueEq (a b : Value) : Bool := PyVal.eq a.value b.value

/-- `Integer.__init__`: unless the payload `== MISSING`, it is converted with
`int(v)` (which may raise `ValueError`). -/
def mkInteger (v : PyVal) (cls : Bool) : Except Str Value :=
  if v.isMissing then Except.ok ⟨.integer, v, cls⟩
  else (pyInt v).map (fun i => ⟨.integer, .int i, cls⟩)

/-- `Numeric.__init__`: unless the payload `== MISSING`, it is converted with
`float(v)`. -/
def mkNumeric (v : PyVal) (cls : Bool) : Except Str Value :=
  if v.isMissing then Except.ok ⟨.numeric, v, cls⟩
  else (pyFloat v).map (fun q => ⟨.numeric, .float q, cls⟩)

/-- `String.__init__`: the payload is always coerced with `str(v)`;
never fails. -/
def mkString (v : PyVal) (cls : Bool) : Value :=
  ⟨.string, .str (pyStr v), cls⟩

/-- `Nominal.__init__`: stores the payload unchanged. -/
def mkNominal (v : PyVal) (cls : Bool) : Value := ⟨.nominal, v, cls⟩

/-- `Date.__init__`: stores the payload unchanged. -/
def mkDate (v : PyVal) (cls : Bool) : Value := ⟨.date, v, cls⟩

/-- `TYPE_TO_CLASS`: maps a type constant to the constructor of the matching
`Value` subclass.  Indexing with a key outside the table (`None` in the
source's `append`) raises `KeyError`; see `typeToClass?`. -/
def typeToClass : AType → PyVal → Bool → Except Str Value
  | .integer => mkInteger
  | .numeric => mkNumeric
  | .real => mkNumeric
  | .string => fun v c => Except.ok (mkString v c)
  | .nominal => fun v c => Except.ok (mkNominal v c)
  | .date => fun v c => Except.ok (mkDate v c)

/-- `TYPE_TO_CLASS[t]` where `t` may be `None` (absent key raises `KeyError`). -/
def typeToClass? : Option AType → Except Str (PyVal → Bool → Except Str Value)
  | some t => Except.ok (typeToClass t)
  | none => Except.error ("KeyError: None".toList)

/-! ## `wrap_value` -/

/-- An object appearing in a row: either a `Value` instance or a raw scalar. -/
inductive PyObj
  | val (v : Value)
  | raw (p : PyVal)
deriving DecidableEq, Repr

/-- Python `==` between row objects.  `Value.__eq__` returns `NotImplemented`
against a non-`Value`, and the raw scalar types do the same against a `Value`,
so those comparisons fall back to identity and are `False` here. -/
def pyObjEq : PyObj → PyObj → Bool
  | .val a, .val b => valueEq a b
  | .raw a, .raw b => PyVal.eq a b
  | _, _ => false

/-- Whether a row object `== MISSING`. -/
def PyObj.isMissing : PyObj → Bool
  | .val v => PyVal.eq v.value (.str MISSING)
  | .raw p => p.isMissing

/-- `wrap_value(v)`: pass a `Value` through; the missing marker and any other
string become `Str(...)`; otherwise try `Num`, then `Int`, then `Date`,
keeping the first constructor that does not raise `ValueError`.  Falling off
the end returns Python `None`, modelled as `Option.none`. -/
def wrap_value : PyObj → Option Value
  | .val v => some v
  | .raw p =>
    if PyVal.eq p (.str MISSING) then some (mkString p false)
    else
      match p with
      | .str s => some (mkString (.str s) false)
      | _ =>
        match mkNumeric p false with
        | .ok v => some v
        | .error _ =>
          match mkInteger p false with
          | .ok v => some v
          | .error _ =>
            some (mkDate p false)

/-! ## Dataset state (`ArffFile`) -/

/-- Per-attribute extra data stored in `attribute_data`: Python `None`, a
nominal value collection, or a date pattern string. -/
inductive AttrData
  | pynone
  | nomset (vs : List PyVal)
  | datefmt (s : Str)
deriving DecidableEq, Repr

/-- A stored data row: the positional (list) shape or the name-keyed (dict)
shape.  Dicts are association lists in Python insertion order with unique
keys. -/
inductive Row
  | lst (l : List PyObj)
  | dct (d : List (Str × PyObj))
deriving DecidableEq, Repr

/-- `self.comment` is a list of lines while parsing comments and a joined
string afterwards. -/
inductive CommentSt
  | lst (ls : List Str)
  | strg (s : Str)
deriving DecidableEq, Repr

/-- The parser state machine's state. -/
inductive PState
  | comment
  | in_header
  | data
deriving DecidableEq, Repr

/-- The `ArffFile` object.  File-handle bookkeeping (`_filename`, `fout_fn`)
is out of scope; the open stream is the flag `fout` plus the list `foutLines`
of lines written to it, and process stdout is the `stdout` list. -/
structure ArffFile where
  relation : Str := []
  attributes : List Str := []
  attribute_types : List (Str × AType) := []
  attribute_data : List (Str × AttrData) := []
  comment : CommentSt := .lst []
  data : List Row := []
  lineno : ℕ := 0
  fout : Bool := false
  foutLines : List Str := []
  stdout : List Str := []
  class_attr_name : Option Str := none
  state : PState := .comment
deriving DecidableEq, Repr

/-- Dictionary lookup (`d.get(k)` / `k in d`). -/
def dlookup {α : Type} : List (Str × α) → Str → Option α
  | [], _ => none
  | (k, v) :: r, key => if k = key then some v else dlookup r key

/-- Dictionary assignment `d[k] = v`: updates in place, or appends a new key
at the end, as Python insertion order does. -/
def dset {α : Type} : List (Str × α) → Str → α → List (Str × α)
  | [], key, v => [(key, v)]
  | (k, w) :: r, key, v =>
    if k = key then (k, v) :: r else (k, w) :: dset r key v

/-- `del d[k]`.  The source always guards deletion with `if k in line`, so a
missing key is a no-op here. -/
def ddel {α : Type} : List (Str × α) → Str → List (Str × α)
  | [], _ => []
  | (k, v) :: r, key => if k = key then r else (k, v) :: ddel r key

/-- `dict(zip(ks, vs))`: pairs in order, a duplicate key overwriting in
place. -/
def dictFromZip (ks : List Str) (vs : List PyObj) : List (Str × PyObj) :=
  (List.zip ks vs).foldl (fun d kv => dset d kv.1 kv.2) []

/-- `Except.ok` on `some`, `KeyError` on `none` (Python `d[k]`). -/
def getOrKeyError {α : Type} (o : Option α) : Except Str α :=
  match o with
  | some v => Except.ok v
  | none => Except.error ("KeyError".toList)

/-! ## Writer -/

/-- The two row encodings (`FORMATS`). -/
inductive Fmt
  | dense
  | sparse
deriving DecidableEq, Repr

/-- `DEFAULT_DATE_FORMAT` from the source. -/
def DEFAULT_DATE_FORMAT : Str := "yyyy-MM-dd HH:mm:ss".toList

/-- `convert_weka_to_py_date_pattern`: sequential `str.replace` of the Weka
tokens by `strftime` tokens. -/
def convert_weka_to_py_date_pattern (p : Str) : Str :=
  let p := pyReplace p "yyyy".toList "%Y".toList
  let p := pyReplace p "MM".toList "%m".toList
  let p := pyReplace p "dd".toList "%d".toList
  let p := pyReplace p "HH".toList "%H".toList
  let p := pyReplace p "mm".toList "%M".toList
  pyReplace p "ss".toList "%S".toList

/-- Modelled from the spec: the free-text date parser (`dateutil.parser.parse`)
composed with `strftime` is an out-of-scope collaborator (spec sections 1 and
6); spec section 8 fixes its behaviour on text already in the attribute's
pattern: the token is emitted unchanged.  It is modelled as the identity on
the raw text; no theorem in this file depends on any other case. -/
def dateNormalizeFormat (_pattern raw : Str) : Str := raw

/-- `repr` of a raw scalar (used by `str(value_instance)`, which falls back to
`Value.__repr__ = repr(self.value)`).  The string case quotes; escapes inside
the text are not modelled (never reached by a theorem). -/
def reprPyVal : PyVal → Str
  | .int i => intToStr i
  | .float q => ratToStr q
  | .dec q => ratToStr q
  | .str s => '\'' :: s ++ ['\'']

/-- Python `str(obj)` on a row object. -/
def pyObjStr : PyObj → Str
  | .raw p => pyStr p
  | .val v => reprPyVal v.value

/-- `ArffFile.esc`: wrap in single quotes, then collapse `''` to `'`. -/
def esc (s : Str) : Str :=
  pyReplace ('\'' :: s ++ ['\'']) ['\'', '\''] ['\'']

/-- `smart_quote` from `write_line`: a string containing a space and not
already starting with `"` is wrapped in double quotes. -/
def smartQuote (v : PyVal) : PyVal :=
  match v with
  | .str s =>
    if strContains s [' '] ∧ s.head? ≠ some '"' then .str ('"' :: s ++ ['"'])
    else .str s
  | p => p

/-- Python `sorted` over a nominal value collection.  The source only sorts
collections of strings (parse builds them from text); code-point
lexicographic order on the rendered text coincides with Python's string
order there. -/
def lexLt : Str → Str → Bool
  | [], [] => false
  | [], _ :: _ => true
  | _ :: _, [] => false
  | a :: as, b :: bs =>
    if a.toNat < b.toNat then true
    else if b.toNat < a.toNat then false
    else lexLt as bs

def insertSorted (x : PyVal) : List PyVal → List PyVal
  | [] => [x]
  | y :: r =>
    if lexLt (pyStr y) (pyStr x) then y :: insertSorted x r else x :: y :: r

def sortPyVals (l : List PyVal) : List PyVal :=
  l.foldl (fun acc x => insertSorted x acc) []

/-- The collection iterated by `map(str, self.attribute_data[name])` in the
sparse writer's nominal-membership test: a nominal collection maps its
elements through `str`; `None` is not iterable (`TypeError`); a string
iterates its characters as one-character strings. -/
def memberStrs : AttrData → Except Str (List Str)
  | .nomset vs => Except.ok (vs.map pyStr)
  | .pynone => Except.error ("TypeError: NoneType is not iterable".toList)
  | .datefmt s => Except.ok (s.map (fun c => [c]))

/-- The per-entry wrapping applied when `write_line` converts a positional row
into a dict (`arff.py` lines 443-462): `Value`s pass through; the missing
marker and each raw scalar are wrapped by the subclass declared for the
attribute; an undeclared attribute raises `Exception('Unknown type: None')`. -/
def wrapForAttr (a : ArffFile) (k : Str) (obj : PyObj) : Except Str PyObj :=
  match obj with
  | .val _ => Except.ok obj
  | .raw p =>
    if p.isMissing then Except.ok (.val (mkString p false))
    else
      match dlookup a.attribute_types k with
      | some .numeric | some .real => (mkNumeric p false).map .val
      | some .string => Except.ok (.val (mkString p false))
      | some .integer => (mkInteger p false).map .val
      | some .nominal => Except.ok (.val (mkNominal p false))
      | some .date => Except.ok (.val (mkDate p false))
      | none => Except.error ("Exception: Unknown type: None".toList)

/-- The positional-to-dict conversion of `write_line`'s sparse branch. -/
def convertRow (a : ArffFile) (d : List (Str × PyObj)) :
    Except Str (List (Str × PyObj)) :=
  d.foldlM (fun acc kv => (wrapForAttr a kv.1 kv.2).map (fun o => acc ++ [(kv.1, o)])) []

/-- Value resolution in the sparse writer's per-attribute loop (`arff.py`
lines 466-482): missing collapses to the marker; `String` values are
double-quoted; `Date` values are normalised and formatted via the external
date collaborator; other `Value`s unwrap; raw scalars stay as they are. -/
def resolveValue (a : ArffFile) (name : Str) (v : PyObj) : Except Str PyVal :=
  if (pyObjEq v (.raw (.str MISSING)) ||
      (match v with | .val vv => vv.value.isMissing | .raw _ => false)) then
    Except.ok (.str MISSING)
  else
    match v with
    | .val vv =>
      match vv.kind with
      | .string => Except.ok (.str ('"' :: pyStr vv.value ++ ['"']))
      | .date => do
        let fmt ←
          match dlookup a.attribute_data name with
          | none => Except.ok DEFAULT_DATE_FORMAT
          | some (.datefmt s) => Except.ok s
          | some .pynone => Except.error ("AttributeError: NoneType has no attribute replace".toList)
          | some (.nomset _) => Except.error ("AttributeError: list has no attribute replace".toList)
        match vv.value with
        | .str s => Except.ok (.str (dateNormalizeFormat (convert_weka_to_py_date_pattern fmt) s))
        | _ => Except.error ("AssertionError: date payload is not a date/datetime".toList)
      | _ => Except.ok vv.value
    | .raw p => Except.ok p

/-- Whether the sparse writer keeps the column for `name` whose resolved
value is `rv` (`arff.py` line 484, with its left-to-right short-circuit and
possible `KeyError`/`TypeError`). -/
def keepColumn (a : ArffFile) (name : Str) (rv : PyVal) : Except Str Bool :=
  if ¬ rv.isMissing then do
    let t ← getOrKeyError (dlookup a.attribute_types name)
    if t = .nominal then do
      let dat ← getOrKeyError (dlookup a.attribute_data name)
      let members ← memberStrs dat
      pure (members.contains (pyStr rv))
    else
      pure true
  else
    pure true

/-- The per-attribute loop of the sparse branch of `write_line` (`arff.py`
lines 464-487), over the remaining attributes with their enumeration index. -/
def sparseTokensGo (a : ArffFile) (d : List (Str × PyObj)) :
    ℕ → List Str → List Str → Except Str (List Str)
  | _, [], line => Except.ok line
  | i, name :: rest, line =>
    match dlookup d name with
    | none => sparseTokensGo a d (i + 1) rest line
    | some v => do
      let rv ← resolveValue a name v
      let keep ← keepColumn a name rv
      let line' := if keep then line ++ [natToStr i ++ ' ' :: pyStr (smartQuote rv)] else line
      sparseTokensGo a d (i + 1) rest line'

/-- The token list built by the sparse branch of `write_line`: one
`"<index> <value>"` token per surviving column. -/
def sparseTokens (a : ArffFile) (d : List (Str × PyObj)) : Except Str (List Str) :=
  sparseTokensGo a d 0 a.attributes []

/-- The token list built by the dense branch of `write_line` (`arff.py`
lines 426-436). -/
def denseTokens (a : ArffFile) (l : List PyObj) : Except Str (List PyObj) :=
  (List.zip l a.attributes).foldlM
    (fun acc ev => do
      let t ← getOrKeyError (dlookup a.attribute_types ev.2)
      if t ∈ NUMERIC_TYPES then
        pure (acc ++ [PyObj.raw (.str (pyObjStr ev.1))])
      else if t = .string then
        match ev.1 with
        | .raw (.str s) => pure (acc ++ [PyObj.raw (.str (esc s))])
        | _ => Except.error ("TypeError: cannot concatenate str and non-str".toList)
      else if t = .nominal then
        pure (acc ++ [ev.1])
      else
        Except.error ("Exception: Type ".toList ++ t.toStr ++ " not supported for writing!".toList))
    []

/-- `ArffFile.write_line`: one data row to its textual form.  `Except.ok none`
is the Python `return None` of the sparse branch (row dropped). -/
def write_line (a : ArffFile) (d : Row) (fmt : Fmt) : Except Str (Option Str) :=
  match fmt with
  | .dense =>
    match d with
    | .dct _ => Except.error ("AssertionError: dense dict rows are NotImplemented".toList)
    | .lst l =>
      (denseTokens a l).map (fun toks =>
        some (List.intercalate [','] (toks.map pyObjStr)))
  | .sparse => do
    let d' ←
      match d with
      | .lst l => convertRow a (dictFromZip a.attributes l)
      | .dct dd => Except.ok dd
    let toks ← sparseTokens a d'
    if toks.length = 1 ∧ strContains (toks.getLast?.getD []) MISSING then
      return none
    else if toks = [] then
      return none
    else
      return some ('{' :: List.intercalate (", ".toList) toks ++ ['}'])

/-- Truthiness test the callers apply to `write_line`'s result before
printing: `None` and the empty string are not written. -/
def emittedOf (r : Except Str (Option Str)) : List Str :=
  match r with
  | .ok (some t) => if t ≠ [] then [t] else []
  | _ => []

/-- `'%s' % data` for the date branch of `write_attributes`: formatting
`None` yields the text `None`; a pattern formats as itself.  (A nominal
collection would render in Python list syntax; stand-in text, never
reached by a theorem.) -/
def attrDataPercentS : Option AttrData → Str
  | none => DEFAULT_DATE_FORMAT
  | some .pynone => "None".toList
  | some (.datefmt s) => s
  | some (.nomset _) => "<list>".toList

/-- `ArffFile.write_attributes`: one `@attribute` line per attribute in schema
order. -/
def write_attributes (a : ArffFile) : Except Str (List Str) :=
  a.attributes.foldlM
    (fun acc name => do
      let t ← getOrKeyError (dlookup a.attribute_types name)
      match t with
      | .integer =>
        pure (acc ++ ["@attribute ".toList ++ esc name ++ " integer".toList])
      | .numeric | .real =>
        pure (acc ++ ["@attribute ".toList ++ esc name ++ " numeric".toList])
      | .string =>
        pure (acc ++ ["@attribute ".toList ++ esc name ++ " string".toList])
      | .nominal => do
        let dat ← getOrKeyError (dlookup a.attribute_data name)
        let vals ←
          match dat with
          | .nomset vs => Except.ok (sortPyVals (vs.filter (fun v => ¬ PyVal.eq v (.str MISSING))))
          | .pynone => Except.error ("TypeError: NoneType is not iterable".toList)
          | .datefmt s => Except.ok (sortPyVals ((s.filter (· ≠ '?')).map (fun c => PyVal.str [c])))
        pure (acc ++ ["@attribute ".toList ++ esc name ++ (' ' :: '{' ::
          List.intercalate [','] (vals.map pyStr)) ++ ['}']])
      | .date =>
        pure (acc ++ ["@attribute ".toList ++ esc name ++ " date \"".toList ++
          attrDataPercentS (dlookup a.attribute_data name) ++ ['"']]))
    []

/-- `'\n'.join(self.comment)`: over the line list while in comment state, and
over the characters of the joined string afterwards (Python joins any
iterable of strings). -/
def joinComment : CommentSt → Str
  | .lst ls => List.intercalate ['\n'] ls
  | .strg s => List.intercalate ['\n'] (s.map (fun c => [c]))

/-- Join written lines, each terminated by `'\n'` as `print` does. -/
def unlines : List Str → Str
  | [] => []
  | l :: r => l ++ '\n' :: unlines r

/-- The row loop of `ArffFile.write`: each row's `write_line` output is
printed when truthy; a raised error aborts the write. -/
def writeRows (a : ArffFile) (fmt : Fmt) : List Row → Except Str (List Str)
  | [] => Except.ok []
  | d :: rest => do
    let ls ← write_line a d fmt
    let tail ← writeRows a fmt rest
    match ls with
    | some t => if t ≠ [] then pure (t :: tail) else pure tail
    | none => pure tail

/-- `ArffFile.write`: header (comment, relation, attributes) unless
`data_only`, then `@data` and the rows unless `schema_only`.  Returns the
`StringIO` contents. -/
def write (a : ArffFile) (fmt : Fmt) (schema_only data_only : Bool) :
    Except Str Str := do
  if schema_only ∧ data_only then
    Except.error ("AssertionError: Make up your mind.".toList)
  else
    let headerLines ←
      if ¬ data_only then do
        let attrLines ← write_attributes a
        pure (("% ".toList ++ pyReplace (joinComment a.comment) ['\n'] ('\n' :: "% ".toList)) ::
          ("@relation ".toList ++ a.relation) :: attrLines)
      else
        pure []
    let dataLines ←
      if ¬ schema_only then do
        let rowLines ← writeRows a fmt a.data
        pure ("@data".toList :: rowLines)
      else
        pure []
    return unlines (headerLines ++ dataLines)

/-! ## Parser -/

/-- `Exception.ok` on `some`, `IndexError` on `none` (Python `l[i]`). -/
def getOrIndexError {α : Type} (o : Option α) : Except Str α :=
  match o with
  | some v => Except.ok v
  | none => Except.error ("IndexError".toList)

/-- A quote character for `STRIP_QUOTES_REGEX` and the sparse value
quote-stripping test. -/
def isQuoteChar (c : Char) : Bool := c = '\'' || c = '"'

/-- `STRIP_QUOTES_REGEX.sub('', s)`: remove one leading and one trailing
quote character, if present. -/
def stripQuotes (s : Str) : Str :=
  let s1 :=
    match s with
    | c :: r => if isQuoteChar c then r else s
    | [] => []
  match s1.getLast? with
  | some c => if isQuoteChar c then s1.dropLast else s1
  | none => s1

/-- First character of the identifier alternative of the attribute-line
regex (`[a-zA-Z_]`). -/
def isIdentStart (c : Char) : Bool := c.isAlpha || c = '_'

/-- Continuation characters of the identifier alternative
(`[a-zA-Z0-9_\-\[\]]`). -/
def isIdentCont (c : Char) : Bool :=
  c.isAlphanum || c = '_' || c = '-' || c = '[' || c = ']'

/-- `re.findall` of the attribute-line pattern
`[a-zA-Z_][a-zA-Z0-9_\-\[\]]*|\{[^\}]*\}|\'[^\']+\'|\"[^\"]+\"`:
left-to-right scan; at each position the alternatives are tried in order,
each greedy; on failure the scan advances one character. -/
def findTokensF : ℕ → Str → List Str
  | 0, _ => []
  | _ + 1, [] => []
  | f + 1, c :: rest =>
    if isIdentStart c then
      (c :: rest.takeWhile isIdentCont) :: findTokensF f (rest.dropWhile isIdentCont)
    else if c = '{' then
      if rest.dropWhile (· ≠ '}') = [] then findTokensF f rest
      else ('{' :: rest.takeWhile (· ≠ '}') ++ ['}']) ::
        findTokensF f ((rest.dropWhile (· ≠ '}')).drop 1)
    else if c = '\'' then
      if rest.takeWhile (· ≠ '\'') = [] ∨ rest.dropWhile (· ≠ '\'') = [] then
        findTokensF f rest
      else
        ('\'' :: rest.takeWhile (· ≠ '\'') ++ ['\'']) ::
          findTokensF f ((rest.dropWhile (· ≠ '\'')).drop 1)
    else if c = '"' then
      if rest.takeWhile (· ≠ '"') = [] ∨ rest.dropWhile (· ≠ '"') = [] then
        findTokensF f rest
      else
        ('"' :: rest.takeWhile (· ≠ '"') ++ ['"']) ::
          findTokensF f ((rest.dropWhile (· ≠ '"')).drop 1)
    else
      findTokensF f rest

def findTokens (s : Str) : List Str := findTokensF (s.length + 1) s

/-- `ArffFile.define_attribute`. -/
def define_attribute (a : ArffFile) (name : Str) (atype : AType) (data : AttrData) :
    Except Str ArffFile :=
  let a1 := { a with attributes := a.attributes ++ [name] }
  if atype ∈ TYPES then
    Except.ok { a1 with
      attribute_types := dset a1.attribute_types name atype,
      attribute_data := dset a1.attribute_data name data }
  else
    Except.error ("AssertionError: Unknown type ".toList ++ atype.toStr)

/-- `ArffFile.__parse_attribute`. -/
def parse_attribute (a : ArffFile) (l : Str) : Except Str ArffFile := do
  let toks := (findTokens l).map pystrip
  let name0 ← getOrIndexError (toks.get? 1)
  let name := stripQuotes name0
  let atype ← getOrIndexError (toks.get? 2)
  if atype = "integer".toList then
    define_attribute a name .integer .pynone
  else if atype = "real".toList ∨ atype = "numeric".toList then
    define_attribute a name .numeric .pynone
  else if atype = "string".toList then
    define_attribute a name .string .pynone
  else if atype = "date".toList then
    let data :=
      if toks.length ≥ 4 then AttrData.datefmt (stripQuotes ((toks.get? 3).getD []))
      else AttrData.pynone
    define_attribute a name .date data
  else if atype.head? = some '{' ∧ atype.getLast? = some '}' then
    let values := (pySplitChar ',' ((atype.drop 1).dropLast)).map pystrip
    define_attribute a name .nominal (.nomset (values.map PyVal.str))
  else
    Except.error ("NotImplementedError: Unsupported type".toList)

/-- `ArffFile.__parse_relation`: second whitespace-separated token. -/
def parse_relation (a : ArffFile) (l : Str) : Except Str ArffFile :=
  match (pySplitWs l).get? 1 with
  | some r => Except.ok { a with relation := r }
  | none => Except.error ("IndexError".toList)

/-- `re.split(r'(?<!\\),', s)`: split on commas not preceded by a
backslash. -/
def splitEscCommaAux : Str → Str → List Str
  | acc, [] => [acc.reverse]
  | acc, ',' :: r =>
    if acc.head? = some '\\' then splitEscCommaAux (',' :: acc) r
    else acc.reverse :: splitEscCommaAux [] r
  | acc, c :: r => splitEscCommaAux (c :: acc) r

def splitEscComma (s : Str) : List Str := splitEscCommaAux [] s

/-- `re.findall(r'(^[0-9]+)\s+(.*)$', part)[0]`: leading digits, a whitespace
run, then the rest; `none` when the pattern does not match. -/
def matchIndexValue (s : Str) : Option (Str × Str) :=
  let ds := s.takeWhile Char.isDigit
  let r := s.dropWhile Char.isDigit
  if ds = [] then none
  else
    let ws := r.takeWhile pyIsSpace
    let v := r.dropWhile pyIsSpace
    if ws = [] then none else some (ds, v)

/-- One `<index> <value>` piece of a sparse row (`arff.py` lines 622-633). -/
def parseSparsePart (a : ArffFile) (dline : List (Str × PyObj)) (part : Str) :
    Except Str (List (Str × PyObj)) := do
  match matchIndexValue (pystrip part) with
  | none => Except.error ("IndexError: sparse part does not match".toList)
  | some (ds, value0) =>
    let index := parseNatAcc 0 ds
    let value :=
      match value0.head?, value0.getLast? with
      | some h, some t =>
        if h = t ∧ isQuoteChar h then (value0.drop 1).dropLast else value0
      | _, _ => value0
    let name ← getOrIndexError (a.attributes.get? index)
    let t ← getOrKeyError (dlookup a.attribute_types name)
    let v ←
      if value = MISSING then Except.ok (mkString (.str value) false)
      else typeToClass t (.str value) false
    Except.ok (dset dline name (.val v))

/-- The input shapes `_parse_data` accepts: a text line (from the parser), or
a list/dict row (from `append`). -/
inductive PData
  | text (s : Str)
  | row (r : Row)
deriving DecidableEq, Repr

/-- Set equality of string lists, as `set(...) == set(...)` compares. -/
def sameSet (xs ys : List Str) : Bool :=
  xs.all (fun x => ys.contains x) && ys.all (fun y => xs.contains y)

/-- The dense-row count-mismatch warning text (`arff.py` line 652), naming
the current line number, the field count and the attribute count. -/
def warnCountMismatch (lineno flen alen : ℕ) : Str :=
  "Warning: line ".toList ++ natToStr lineno ++ " contains ".toList ++
    natToStr flen ++ " values but it should contain ".toList ++
    natToStr alen ++ " values".toList

/-- `Decimal(str(v))` of the dense numeric branch: exact decimal parse of the
rendered text (`InvalidOperation` on failure, fatal like any exception). -/
def decimalOfStr (s : Str) : Except Str PyVal :=
  (parseFloatPy s).map .dec

/-- Membership `v in self.attribute_data[n]` for the dense nominal branch:
Python `in` over the stored collection (`==`-based), `TypeError` on `None`. -/
def nominalMember (v : PyObj) : AttrData → Except Str Bool
  | .nomset vs => Except.ok (vs.any (fun e => pyObjEq v (.raw e)))
  | .pynone => Except.error ("TypeError: argument of type NoneType is not iterable".toList)
  | .datefmt s =>
    match v with
    | .raw (.str sv) => Except.ok (strContains s sv)
    | _ => Except.error ("TypeError: in <string> requires string".toList)

/-- One cell of the dense type-dispatch loop (`arff.py` lines 656-670),
returning the entries appended to `datum` (note: a non-missing `date` cell
matches no branch and contributes nothing). -/
def parseDenseCell (a : ArffFile) (n : Str) (v : PyObj) : Except Str (List PyObj) := do
  let at0 ← getOrKeyError (dlookup a.attribute_types n)
  if pyObjEq v (.raw (.str MISSING)) then
    Except.ok [v]
  else if at0 = .integer then
    match v with
    | .raw p => (pyInt p).map (fun i => [PyObj.raw (.int i)])
    | .val _ => Except.error ("TypeError: int() argument must not be a Value".toList)
  else if at0 = .numeric ∨ at0 = .real then
    (decimalOfStr (pyObjStr v)).map (fun d => [PyObj.raw d])
  else if at0 = .string then
    Except.ok [v]
  else if at0 = .nominal then do
    let dat ← getOrKeyError (dlookup a.attribute_data n)
    let mem ← nominalMember v dat
    if mem then Except.ok [v]
    else Except.error ("Exception: Incorrect value for nominal attribute".toList)
  else
    Except.ok []

/-- The tail of `_parse_data` shared by all dense inputs: count check with
non-fatal warning, the type-dispatch loop, then stream-write or in-memory
append. -/
def finishDense (a : ArffFile) (l : List PyObj) : Except Str ArffFile := do
  if l.length ≠ a.attributes.length then
    Except.ok { a with
      stdout := a.stdout ++ [warnCountMismatch a.lineno l.length a.attributes.length] }
  else do
    let datum ← (List.zip a.attributes l).foldlM
      (fun acc nv => (parseDenseCell a nv.1 nv.2).map (fun e => acc ++ e)) []
    if a.fout then do
      let ls ← write_line a (.lst datum) .sparse
      Except.ok { a with foutLines := a.foutLines ++ emittedOf (.ok ls) }
    else
      Except.ok { a with data := a.data ++ [Row.lst datum] }

/-- `ArffFile._parse_data`. -/
def parse_data (a : ArffFile) (input : PData) : Except Str ArffFile := do
  match input with
  | .text l0 =>
    let l := pystrip l0
    if pyStartswith l ['{'] then
      if ¬ pyEndswith l ['}'] then
        Except.error ("AssertionError: Malformed sparse data line".toList)
      else if a.fout then
        Except.error ("AssertionError: sparse parse while streaming is NotImplemented".toList)
      else do
        let parts := splitEscComma ((l.drop 1).dropLast)
        let dline ← parts.foldlM (parseSparsePart a) []
        Except.ok { a with data := a.data ++ [Row.dct dline] }
    else
      finishDense a (((pySplitChar ',' l).map pystrip).map (fun s => PyObj.raw (.str s)))
  | .row (.dct d) =>
    if d.length ≠ a.attributes.length then
      Except.error ("AssertionError: Sparse data not supported.".toList)
    else if ¬ sameSet (d.map (fun kv => esc kv.1)) (a.attributes.map esc) then
      Except.error ("AssertionError: feature name sets differ".toList)
    else do
      let l ← a.attributes.mapM (fun n => getOrKeyError (dlookup d n))
      finishDense a l
  | .row (.lst l) => finishDense a l

/-- The header-state dispatch of `parseline`: three independent prefix tests
over the lowercased line. -/
def headerStep (a : ArffFile) (l : Str) : Except Str ArffFile := do
  let ll := pyLower l
  let a1 ← if pyStartswith ll "@relation ".toList then parse_relation a l else Except.ok a
  let a2 ← if pyStartswith ll "@attribute ".toList then parse_attribute a1 l else Except.ok a1
  if pyStartswith ll "@data".toList then Except.ok { a2 with state := .data }
  else Except.ok a2

/-- `ArffFile.parseline`: the `comment → in_header → data` state machine.  In
comment state, a non-comment line joins the buffered comment and is
re-dispatched into the header state (which is exactly `headerStep`). -/
def parseline (a : ArffFile) (l : Str) : Except Str ArffFile :=
  match a.state with
  | .comment =>
    if l ≠ [] ∧ l.head? = some '%' then
      match a.comment with
      | .lst ls => Except.ok { a with comment := .lst (ls ++ [l.drop 2]) }
      | .strg _ => Except.error ("AttributeError: str object has no attribute append".toList)
    else
      headerStep { a with comment := .strg (joinComment a.comment), state := .in_header } l
  | .in_header => headerStep a l
  | .data =>
    if l ≠ [] ∧ l.head? ≠ some '%' then parse_data a (.text l)
    else Except.ok a

/-- The line loop of `ArffFile.parse`, including the `schema_only` early
stop. -/
def parseLoop (schema_only : Bool) : ArffFile → List Str → Except Str ArffFile
  | a, [] => Except.ok a
  | a, l :: rest => do
    let a1 ← parseline a l
    let a2 := { a1 with lineno := a1.lineno + 1 }
    if schema_only ∧ a2.state = .data then Except.ok a2
    else parseLoop schema_only a2 rest

/-- A fresh `ArffFile()` (the constructor with `clear()`). -/
def ArffFile.empty : ArffFile := {}

/-- `ArffFile.parse`. -/
def parse (s : Str) (schema_only : Bool) : Except Str ArffFile :=
  parseLoop schema_only { ArffFile.empty with state := .comment, lineno := 1 } (splitlines s)

/-! ## `append` (streaming / schema evolution) -/

/-- Rendering of `prior_type` in the debug print of `append`. -/
def optATypeStr : Option AType → Str
  | none => "None".toList
  | some t => t.toStr

/-- The `print('prior_type:', prior_type, k, v)` debug line of `append`. -/
def debugPriorType (prior_type : Option AType) (k : Str) (p : PyVal) : Str :=
  "prior_type: ".toList ++ optATypeStr prior_type ++ ' ' :: k ++ ' ' :: pyStr p

/-- Membership `p in collection` for a raw payload against stored attribute
data (used by the nominal branches of `append`). -/
def attrDataMemberVal (p : PyVal) : AttrData → Except Str Bool
  | .nomset vs => Except.ok (vs.any (fun e => PyVal.eq p e))
  | .pynone => Except.error ("TypeError: argument of type NoneType is not iterable".toList)
  | .datefmt s =>
    match p with
    | .str sv => Except.ok (strContains s sv)
    | _ => Except.error ("TypeError: in <string> requires string".toList)

/-- The accumulator threaded through the item loop of `append`: the (possibly
trimmed) row dict, the mutated dataset, and the `schema_change` flag. -/
abbrev AppendAcc := List (Str × PyObj) × ArffFile × Bool

/-- `prior_type = self.attribute_types.get(k, v.c_type if isinstance(v, Value)
else None)` (`arff.py` line 720). -/
def priorTypeOf (st : ArffFile) (k : Str) (v0 : PyObj) : Option AType :=
  match dlookup st.attribute_types k with
  | some t => some t
  | none => match v0 with | .val vv => some vv.kind.cType | .raw _ => none

/-- `if not isinstance(v, Value): ...` (`arff.py` lines 721-726): the missing
marker becomes `Str`, any other raw scalar is printed in a debug line and
wrapped by `TYPE_TO_CLASS[prior_type]` (a `KeyError` when `prior_type` is
`None`, or the constructor's own error). -/
def appendWrap (st0 : ArffFile) (prior_type : Option AType) (k : Str) (v0 : PyObj) :
    Except Str (Value × ArffFile) :=
  match v0 with
  | .val vv => Except.ok (vv, st0)
  | .raw p =>
    if p.isMissing then Except.ok (mkString p false, st0)
    else do
      let stp := { st0 with stdout := st0.stdout ++ [debugPriorType prior_type k p] }
      let ctor ← typeToClass? prior_type
      let vv ← ctor p false
      Except.ok (vv, stp)

/-- `if k not in self.attribute_types:` (`arff.py` lines 730-739): stream mode
deletes the field; memory mode declares the attribute and flags the schema
change. -/
def appendDeclare (k : Str) (v : Value) : AppendAcc → AppendAcc
  | (line, st, sc) =>
    if (dlookup st.attribute_types k).isNone then
      if st.fout then (ddel line k, st, sc)
      else
        (line,
          { st with
            attribute_types := dset st.attribute_types k v.kind.cType,
            attributes := st.attributes ++ [k] },
          true)
    else (line, st, sc)

/-- `if isinstance(v, Nominal):` (`arff.py` lines 740-754): stream mode
deletes undeclared or out-of-set fields; memory mode `setdefault`s the value
collection and adds the value, flagging the schema change. -/
def appendNominal (k : Str) (v : Value) : AppendAcc → Except Str AppendAcc
  | (line, st, sc) =>
    if v.kind = .nominal then
      if st.fout then
        if ¬ st.attributes.contains k then Except.ok (ddel line k, st, sc)
        else do
          let dat ← getOrKeyError (dlookup st.attribute_data k)
          let mem ← attrDataMemberVal v.value dat
          if ¬ mem then Except.ok (ddel line k, st, sc)
          else Except.ok (line, st, sc)
      else
        -- `setdefault(k, set())` stores the present collection (or an empty
        -- set), and `attribute_data[k]` is read back for the membership test.
        match dlookup st.attribute_data k with
        | none =>
          Except.ok (line,
            { st with attribute_data := (dset (dset st.attribute_data k (.nomset [])) k (.nomset ([] ++ [v.value]))) },
            true)
        | some (.nomset vs) =>
          if ¬ vs.any (fun e => PyVal.eq v.value e) then
            Except.ok (line,
              { st with attribute_data := (dset (dset st.attribute_data k (.nomset vs)) k (.nomset (vs ++ [v.value]))) },
              true)
          else
            Except.ok (line,
              { st with attribute_data := dset st.attribute_data k (.nomset vs) }, sc)
        | some .pynone =>
          Except.error ("TypeError: argument of type NoneType is not iterable".toList)
        | some (.datefmt s) =>
          match v.value with
          | .str sv =>
            if strContains s sv then
              Except.ok (line,
                { st with attribute_data := dset st.attribute_data k (.datefmt s) }, sc)
            else Except.error ("AttributeError: str object has no attribute add".toList)
          | _ => Except.error ("TypeError: in <string> requires string".toList)
    else Except.ok (line, st, sc)

/-- `if v.cls:` (`arff.py` lines 755-760): the first designation fixes
`class_attr_name`; a different later designation is a failed assert. -/
def appendCls (k : Str) (v : Value) (st : ArffFile) : Except Str ArffFile :=
  if v.cls then
    match st.class_attr_name with
    | none => Except.ok { st with class_attr_name := some k }
    | some c =>
      if c = k then Except.ok st
      else Except.error ("AssertionError: class attribute already set".toList)
  else Except.ok st

/-- `if self.class_attr_name: try: remove/append except ValueError: pass`
(`arff.py` lines 762-769): move the class attribute to the end when it is
truthy and present. -/
def appendReorder (st : ArffFile) : ArffFile :=
  match st.class_attr_name with
  | some c =>
    if c ≠ [] ∧ st.attributes.contains c then
      { st with attributes := st.attributes.erase c ++ [c] }
    else st
  | none => st

/-- One iteration of the `for k, v in list(line.items())` loop of
`ArffFile.append` (`arff.py` lines 719-769), in source order: `prior_type`
lookup, wrapping of non-`Value`s (with the debug print), the type-consistency
assert, the undeclared-attribute block, the `Nominal` block, the class-flag
block, and the class-attribute reorder. -/
def appendItem (acc : AppendAcc) (k : Str) (v0 : PyObj) : Except Str AppendAcc := do
  let wv ← appendWrap acc.2.1 (priorTypeOf acc.2.1 k v0) k v0
  -- `if v.value != MISSING: assert prior_type == v.c_type`
  if ¬ wv.1.value.isMissing ∧ priorTypeOf acc.2.1 k v0 ≠ some wv.1.kind.cType then
    Except.error ("AssertionError: attribute type conflicts with declared type".toList)
  else do
    let acc3 ← appendNominal k wv.1 (appendDeclare k wv.1 (acc.1, wv.2, acc.2.2))
    let st4 ← appendCls k wv.1 acc3.2.1
    Except.ok (acc3.1, appendReorder st4, acc3.2.2)

/-- The item loop of `append` over the `list(line.items())` snapshot. -/
def appendLoop (st : ArffFile) (d : List (Str × PyObj)) : Except Str AppendAcc :=
  d.foldlM (fun acc kv => appendItem acc kv.1 kv.2) (d, st, false)

/-- `ArffFile.append`. -/
def append (a : ArffFile) (input : PData) (schema_only update_schema : Bool) :
    Except Str ArffFile := do
  match input with
  | .row (.dct d) => do
    let (line, st, schema_change) ←
      if update_schema then appendLoop a d else Except.ok (d, a, false)
    if schema_change ∧ st.fout then
      Except.error ("AssertionError: schema change while streaming".toList)
    else if ¬ schema_only then
      if st.fout then do
        let ls ← write_line st (.dct line) .sparse
        Except.ok { st with foutLines := st.foutLines ++ emittedOf (.ok ls) }
      else
        Except.ok { st with data := st.data ++ [Row.dct line] }
    else
      Except.ok st
  | .row (.lst l) =>
    if l.length ≠ a.attributes.length then
      Except.error ("AssertionError: row length differs from attribute count".toList)
    else
      parse_data a (.row (.lst l))
  | .text s =>
    if s.length ≠ a.attributes.length then
      Except.error ("AssertionError: row length differs from attribute count".toList)
    else
      parse_data a (.text s)

/-! ## Claim theorems -/

/-- **C7, counterexample.**  The claim says an integer-looking *string*
becomes a Numeric-kind `Value`.  In the source, `isinstance(v, basestring)`
short-circuits to `Str(v)` before `Num` is ever tried: `wrap_value("5")` is a
String-kind `Value`, although `"5"` parses as an integer. -/
theorem wrap_value_integer_string_is_String :
    parseIntPy ("5".toList) = Except.ok 5 ∧
    (wrap_value (.raw (.str ("5".toList)))).map Value.kind = some VKind.string ∧
    (wrap_value (.raw (.str ("5".toList)))).map Value.kind ≠ some VKind.numeric := by
  refine ⟨rfl, rfl, by decide⟩

/-- **C7, amended.**  Every string input (the missing marker included, and
integer-looking strings in particular) is wrapped as a String-kind `Value`;
the Numeric-then-Integer-then-Date attempt order applies only to non-string,
non-`Value` scalars, so a Python `int` input becomes a Numeric-kind value
(`float(v)` succeeds first), never an Integer-kind one. -/
theorem wrap_value_inference_order :
    (∀ s : Str, wrap_value (.raw (.str s)) = some (mkString (.str s) false)) ∧
    (∀ i : ℤ, wrap_value (.raw (.int i)) = some ⟨.numeric, .float (i : ℚ), false⟩) ∧
    (∀ q : ℚ, wrap_value (.raw (.float q)) = some ⟨.numeric, .float q, false⟩) := by
  refine ⟨fun s => ?_, fun i => rfl, fun q => rfl⟩
  by_cases hm : PyVal.eq (.str s) (.str MISSING) = true
  · simp [wrap_value, hm]
  · simp [wrap_value, hm]

/-- **C10.**  `Value.__eq__` compares `self.value == other.value` only:
the subclass tag and the `cls` flag are ignored, and in particular
`Integer(1, cls=True) == Numeric(1.0, cls=False)` holds. -/
theorem value_eq_ignores_kind_and_cls :
    (∀ a b : Value, valueEq a b = PyVal.eq a.value b.value) ∧
    (∀ (k1 k2 : VKind) (p1 p2 : PyVal) (c1 c2 : Bool),
      valueEq ⟨k1, p1, c1⟩ ⟨k2, p2, c2⟩ = PyVal.eq p1 p2) ∧
    mkInteger (.int 1) true = Except.ok ⟨.integer, .int 1, true⟩ ∧
    mkNumeric (.float 1) false = Except.ok ⟨.numeric, .float 1, false⟩ ∧
    valueEq ⟨.integer, .int 1, true⟩ ⟨.numeric, .float 1, false⟩ = true := by
  refine ⟨fun a b => rfl, fun _ _ _ _ _ _ => rfl, rfl, rfl, by decide⟩

/-- **C9.**  A date attribute declared without a pattern stores `None` in
`attribute_data`; because the key exists, `attribute_data.get(a,
DEFAULT_DATE_FORMAT)` in `write_attributes` never falls back to the default,
and the emitted directive quotes the text `None` instead of the default
pattern — contradicting the evident intent of passing `DEFAULT_DATE_FORMAT`
as the `get` default. -/
theorem date_default_pattern_not_used :
    (do
      let a ← parse ("@attribute d date".toList) false
      write_attributes a) =
      Except.ok [("@attribute ".toList ++ esc ("d".toList) ++ " date \"None\"".toList)] ∧
    attrDataPercentS (some .pynone) ≠ DEFAULT_DATE_FORMAT ∧
    attrDataPercentS none = DEFAULT_DATE_FORMAT := by
  refine ⟨rfl, by decide, rfl⟩

/-- **C5.**  A dense data line whose comma-separated field count differs from
the attribute count makes `_parse_data` return successfully with the dataset
unchanged except for one stdout warning naming the line number and both
counts; no row is added and the parse is not aborted. -/
theorem dense_count_mismatch_warns (a : ArffFile) (l0 : Str)
    (hd : pyStartswith (pystrip l0) ['{'] = false)
    (hc : (pySplitChar ',' (pystrip l0)).length ≠ a.attributes.length) :
    parse_data a (.text l0) = Except.ok { a with
      stdout := a.stdout ++
        [warnCountMismatch a.lineno (pySplitChar ',' (pystrip l0)).length
          a.attributes.length] } := by
  unfold parse_data
  simp only [hd, Bool.false_eq_true, if_false]
  unfold finishDense
  simp [hc]

/-- State for the C5 witness: two attributes, current line number 7. -/
def c5state : ArffFile :=
  { attributes := ["a".toList, "b".toList],
    attribute_types := [("a".toList, .numeric), ("b".toList, .numeric)],
    attribute_data := [("a".toList, .pynone), ("b".toList, .pynone)],
    lineno := 7 }

theorem dense_count_mismatch_warns_witness :
    pyStartswith (pystrip ("1,2,3".toList)) ['{'] = false ∧
    (pySplitChar ',' (pystrip ("1,2,3".toList))).length ≠ c5state.attributes.length ∧
    parse_data c5state (.text ("1,2,3".toList)) = Except.ok { c5state with
      stdout := c5state.stdout ++
        [warnCountMismatch c5state.lineno
          (pySplitChar ',' (pystrip ("1,2,3".toList))).length
          c5state.attributes.length] } :=
  ⟨rfl, by decide, dense_count_mismatch_warns c5state _ rfl (by decide)⟩

/-- State for the C6 and C8 counterexamples. -/
def c6state : ArffFile :=
  { attributes := ["a".toList],
    attribute_types := [("a".toList, .string)],
    attribute_data := [("a".toList, .pynone)] }

/-- **C6, counterexample.**  The drop test of the sparse writer is
`MISSING in line[-1]` — a *substring* test on the whole token.  For the row
`{a: String("a?b")}` the single surviving token is `0 "a?b"`, whose value is
not the missing marker, yet `write_line` returns no line: the claim's
"exactly when ... the only surviving token's value is the missing marker" is
false. -/
theorem write_line_drops_question_mark_token :
    write_line c6state (.dct [("a".toList, .val ⟨.string, .str ("a?b".toList), false⟩)]) .sparse =
      Except.ok none ∧
    sparseTokens c6state [("a".toList, .val ⟨.string, .str ("a?b".toList), false⟩)] =
      Except.ok [('0' :: ' ' :: "\"a?b\"".toList)] ∧
    ("\"a?b\"".toList : Str) ≠ MISSING := by
  refine ⟨rfl, rfl, by decide⟩

/-- Reduction of `write_line` on a dict row in sparse format to its token
computation followed by the drop test (definitional). -/
theorem write_line_dct_sparse (a : ArffFile) (d : List (Str × PyObj)) :
    write_line a (.dct d) .sparse =
      Except.bind (sparseTokens a d) (fun toks =>
        if toks.length = 1 ∧ strContains (toks.getLast?.getD []) MISSING = true then
          Except.ok none
        else if toks = [] then Except.ok none
        else Except.ok (some ('{' :: List.intercalate (", ".toList) toks ++ ['}']))) :=
  rfl

/-- **C6, amended.**  `write_line` in sparse format returns no line exactly
when, after filtering, zero column tokens remain, or exactly one token
survives and that token *contains the missing marker as a substring*
(`MISSING in line[-1]` is Python substring containment, so a value merely
containing `?` also suppresses the line); in every other case it returns the
brace-wrapped, comma-joined token line. -/
theorem write_line_sparse_drop_condition (a : ArffFile) (d : List (Str × PyObj))
    (toks : List Str) (h : sparseTokens a d = Except.ok toks) :
    write_line a (.dct d) .sparse =
      Except.ok
        (if toks = [] ∨ (toks.length = 1 ∧ strContains (toks.getLast?.getD []) MISSING)
         then none
         else some ('{' :: List.intercalate (", ".toList) toks ++ ['}'])) := by
  rw [write_line_dct_sparse, h]
  show (if toks.length = 1 ∧ strContains (toks.getLast?.getD []) MISSING = true then
          Except.ok none
        else if toks = [] then Except.ok (none : Option Str)
        else Except.ok (some ('{' :: List.intercalate (", ".toList) toks ++ ['}']))) = _
  by_cases h1 : toks.length = 1 ∧ strContains (toks.getLast?.getD []) MISSING = true
  · have hne : ¬ toks = [] := by
      intro he
      rw [he] at h1
      simp at h1
    simp [h1, hne]
  · by_cases h2 : toks = []
    · simp only [h1, if_false, h2, if_true, eq_self_iff_true, List.length_nil]
      simp
    · have : ¬ (toks = [] ∨ (toks.length = 1 ∧ strContains (toks.getLast?.getD []) MISSING = true)) := by
        intro hc
        rcases hc with hc | hc
        · exact h2 hc
        · exact h1 hc
      simp [h1, h2, this]

theorem write_line_sparse_drop_condition_witness :
    sparseTokens c6state [("a".toList, .val ⟨.string, .str ("x y".toList), false⟩)] =
      Except.ok [('0' :: ' ' :: "\"x y\"".toList)] ∧
    write_line c6state (.dct [("a".toList, .val ⟨.string, .str ("x y".toList), false⟩)]) .sparse =
      Except.ok
        (if ([('0' :: ' ' :: "\"x y\"".toList)] : List Str) = [] ∨
            (([('0' :: ' ' :: "\"x y\"".toList)] : List Str).length = 1 ∧
              strContains (([('0' :: ' ' :: "\"x y\"".toList)] : List Str).getLast?.getD []) MISSING)
         then none
         else some ('{' :: List.intercalate (", ".toList) [('0' :: ' ' :: "\"x y\"".toList)] ++ ['}'])) :=
  ⟨rfl, write_line_sparse_drop_condition c6state _ _ rfl⟩

/-- Whether an `Except` computation succeeded. -/
def exOk {α : Type} : Except Str α → Bool
  | .ok _ => true
  | .error _ => false

theorem dlookup_ddel_ne {α : Type} (d : List (Str × α)) (k n : Str) (h : n ≠ k) :
    dlookup (ddel d k) n = dlookup d n := by
  induction d with
  | nil => rfl
  | cons kv r ih =>
    obtain ⟨k', v⟩ := kv
    by_cases hk : k' = k
    · simp [ddel, hk, dlookup, Ne.symm h]
    · by_cases hn : k' = n
      · simp [ddel, hk, dlookup, hn, h]
      · simp [ddel, hk, dlookup, hn, ih]

theorem dlookup_eq_none {α : Type} (d : List (Str × α)) (k : Str) :
    dlookup d k = none ↔ k ∉ d.map Prod.fst := by
  induction d with
  | nil => simp [dlookup]
  | cons kv r ih =>
    obtain ⟨k', v⟩ := kv
    simp only [dlookup, List.map_cons, List.mem_cons]
    by_cases hk : k' = k
    · rw [if_pos hk]
      constructor
      · intro h
        cases h
      · intro h
        exact absurd (Or.inl hk.symm) h
    · rw [if_neg hk, ih]
      constructor
      · intro h hm
        rcases hm with hm | hm
        · exact hk hm.symm
        · exact h hm
      · intro h hm
        exact h (Or.inr hm)

theorem dlookup_ddel_self {α : Type} (d : List (Str × α)) (k : Str)
    (h : (d.map Prod.fst).Nodup) : dlookup (ddel d k) k = none := by
  induction d with
  | nil => rfl
  | cons kv r ih =>
    obtain ⟨k', v⟩ := kv
    simp only [List.map_cons, List.nodup_cons] at h
    by_cases hk : k' = k
    · have hnm : k ∉ r.map Prod.fst := hk ▸ h.1
      simp [ddel, hk, (dlookup_eq_none r k).mpr hnm]
    · simp [ddel, hk, dlookup, ih h.2]

/-- Deleting a key whose column the sparse writer would in any case filter out
(`keepColumn` is `False` at its resolved value) does not change the token
list. -/
theorem sparseTokensGo_ddel (a : ArffFile) (d : List (Str × PyObj)) (name : Str)
    (v : PyObj) (rv : PyVal)
    (hnod : (d.map Prod.fst).Nodup)
    (hv : dlookup d name = some v)
    (hres : resolveValue a name v = Except.ok rv)
    (hkeep : keepColumn a name rv = Except.ok false) :
    ∀ (attrs : List Str) (i : ℕ) (line : List Str),
      sparseTokensGo a d i attrs line = sparseTokensGo a (ddel d name) i attrs line := by
  intro attrs
  induction attrs with
  | nil => intro i line; rfl
  | cons n rest ih =>
    intro i line
    by_cases hn : n = name
    · subst hn
      rw [sparseTokensGo, sparseTokensGo, hv, dlookup_ddel_self d n hnod]
      show (do
        let rv' ← resolveValue a n v
        let keep ← keepColumn a n rv'
        sparseTokensGo a d (i + 1) rest
          (if keep then line ++ [natToStr i ++ ' ' :: pyStr (smartQuote rv')] else line)) = _
      rw [hres]
      show (do
        let keep ← keepColumn a n rv
        sparseTokensGo a d (i + 1) rest
          (if keep then line ++ [natToStr i ++ ' ' :: pyStr (smartQuote rv)] else line)) = _
      rw [hkeep]
      show sparseTokensGo a d (i + 1) rest line = _
      exact ih (i + 1) line
    · rw [sparseTokensGo, sparseTokensGo, dlookup_ddel_ne d name n hn]
      cases dlookup d n with
      | none => exact ih (i + 1) line
      | some v' =>
        show (do
            let rv' ← resolveValue a n v'
            let keep ← keepColumn a n rv'
            sparseTokensGo a d (i + 1) rest
              (if keep then line ++ [natToStr i ++ ' ' :: pyStr (smartQuote rv')] else line)) =
          (do
            let rv' ← resolveValue a n v'
            let keep ← keepColumn a n rv'
            sparseTokensGo a (ddel d name) (i + 1) rest
              (if keep then line ++ [natToStr i ++ ' ' :: pyStr (smartQuote rv')] else line))
        cases resolveValue a n v' with
        | error e => rfl
        | ok rv' =>
          show (do
              let keep ← keepColumn a n rv'
              sparseTokensGo a d (i + 1) rest
                (if keep then line ++ [natToStr i ++ ' ' :: pyStr (smartQuote rv')] else line)) =
            (do
              let keep ← keepColumn a n rv'
              sparseTokensGo a (ddel d name) (i + 1) rest
                (if keep then line ++ [natToStr i ++ ' ' :: pyStr (smartQuote rv')] else line))
          cases keepColumn a n rv' with
          | error e => rfl
          | ok keep =>
            show sparseTokensGo a d (i + 1) rest
                (if keep then line ++ [natToStr i ++ ' ' :: pyStr (smartQuote rv')] else line) =
              sparseTokensGo a (ddel d name) (i + 1) rest
                (if keep then line ++ [natToStr i ++ ' ' :: pyStr (smartQuote rv')] else line)
            exact ih (i + 1) _

/-- **C4.**  For a Nominal attribute, sparse-writing a row whose (non-missing)
value for that attribute resolves outside the declared value set produces the
same row text as if the column were absent (the column is omitted), and the
write does not raise: dropping is by `pass`, never an error.  The hypotheses
name the out-of-set condition exactly as the source tests it
(`str(v) not in map(str, self.attribute_data[name])`) and require the rest of
the row to be writable, which the final `sparseTokens` hypothesis expresses. -/
theorem nominal_out_of_set_column_omitted (a : ArffFile) (d : List (Str × PyObj))
    (name : Str) (v : PyObj) (rv : PyVal) (vs : List PyVal) (toks : List Str)
    (hnod : (d.map Prod.fst).Nodup)
    (ht : dlookup a.attribute_types name = some .nominal)
    (hdat : dlookup a.attribute_data name = some (.nomset vs))
    (hv : dlookup d name = some v)
    (hres : resolveValue a name v = Except.ok rv)
    (hmiss : rv.isMissing = false)
    (hout : pyStr rv ∉ vs.map pyStr)
    (hrest : sparseTokens a (ddel d name) = Except.ok toks) :
    write_line a (.dct d) .sparse = write_line a (.dct (ddel d name)) .sparse ∧
    exOk (write_line a (.dct d) .sparse) = true := by
  have hkeep : keepColumn a name rv = Except.ok false := by
    unfold keepColumn
    simp [hmiss, ht, hdat, getOrKeyError, memberStrs, hout]
    show Except.ok (decide (pyStr rv ∈ List.map pyStr vs)) = Except.ok false
    simp [hout]
  have heq : write_line a (.dct d) .sparse = write_line a (.dct (ddel d name)) .sparse := by
    rw [write_line_dct_sparse, write_line_dct_sparse]
    unfold sparseTokens
    rw [sparseTokensGo_ddel a d name v rv hnod hv hres hkeep]
  refine ⟨heq, ?_⟩
  rw [heq, write_line_dct_sparse, hrest]
  show exOk
    (if toks.length = 1 ∧ strContains (toks.getLast?.getD []) MISSING = true then
      Except.ok none
    else if toks = [] then Except.ok none
    else Except.ok (some ('{' :: List.intercalate (", ".toList) toks ++ ['}']))) = true
  split
  · rfl
  · split
    · rfl
    · rfl

/-- State for the C4 witness: a numeric attribute `a` and a nominal attribute
`b` with declared values `x`, `y`. -/
def c4state : ArffFile :=
  { attributes := ["a".toList, "b".toList],
    attribute_types := [("a".toList, .numeric), ("b".toList, .nominal)],
    attribute_data :=
      [("a".toList, .pynone),
       ("b".toList, .nomset [.str ("x".toList), .str ("y".toList)])] }

/-- Row for the C4 witness: `b` carries the undeclared nominal value `z`. -/
def c4row : List (Str × PyObj) :=
  [("a".toList, .val ⟨.numeric, .float 2, false⟩),
   ("b".toList, .val ⟨.nominal, .str ("z".toList), false⟩)]

theorem nominal_out_of_set_column_omitted_witness :
    dlookup c4state.attribute_types ("b".toList) = some .nominal ∧
    resolveValue c4state ("b".toList) (.val ⟨.nominal, .str ("z".toList), false⟩) =
      Except.ok (.str ("z".toList)) ∧
    (write_line c4state (.dct c4row) .sparse =
      write_line c4state (.dct (ddel c4row ("b".toList))) .sparse ∧
     exOk (write_line c4state (.dct c4row) .sparse) = true) :=
  ⟨rfl, rfl,
    nominal_out_of_set_column_omitted c4state c4row ("b".toList)
      (.val ⟨.nominal, .str ("z".toList), false⟩) (.str ("z".toList))
      [.str ("x".toList), .str ("y".toList)]
      [('0' :: ' ' :: "2.0".toList)]
      (by decide) rfl rfl rfl rfl rfl (by decide) rfl⟩

theorem ddel_not_mem {α : Type} (d : List (Str × α)) (k : Str)
    (h : k ∉ d.map Prod.fst) : ddel d k = d := by
  induction d with
  | nil => rfl
  | cons kv r ih =>
    obtain ⟨k', v⟩ := kv
    simp only [List.map_cons, List.mem_cons] at h
    push_neg at h
    have hne : ¬ k' = k := fun he => h.1 he.symm
    simp [ddel, hne, ih h.2]

theorem ddel_keys_sublist {α : Type} (d : List (Str × α)) (k : Str) :
    List.Sublist ((ddel d k).map Prod.fst) (d.map Prod.fst) := by
  induction d with
  | nil => simp [ddel]
  | cons kv r ih =>
    obtain ⟨k', v⟩ := kv
    by_cases hk : k' = k
    · simp only [ddel, if_pos hk, List.map_cons]
      exact List.Sublist.cons _ (List.Sublist.refl _)
    · simp only [ddel, if_neg hk, List.map_cons]
      exact List.Sublist.cons₂ _ ih

theorem ddel_keys_nodup {α : Type} (d : List (Str × α)) (k : Str)
    (h : (d.map Prod.fst).Nodup) : ((ddel d k).map Prod.fst).Nodup :=
  h.sublist (ddel_keys_sublist d k)

theorem not_mem_ddel_keys {α : Type} (d : List (Str × α)) (k : Str)
    (h : (d.map Prod.fst).Nodup) : k ∉ (ddel d k).map Prod.fst :=
  (dlookup_eq_none (ddel d k) k).mp (dlookup_ddel_self d k h)

theorem ddel_ddel_self {α : Type} (d : List (Str × α)) (k : Str)
    (h : (d.map Prod.fst).Nodup) : ddel (ddel d k) k = ddel d k :=
  ddel_not_mem _ _ (not_mem_ddel_keys d k h)

/-- Whether a streaming `append` keeps the field `(k, v)`: the attribute must
be declared, and a Nominal value must be `==`-member of the declared set
(`arff.py` lines 730-735 and 740-749 delete every other field). -/
def keepStream (a : ArffFile) (k : Str) (v : PyObj) : Bool :=
  match v with
  | .val V =>
    match dlookup a.attribute_types k with
    | none => false
    | some _ =>
      if V.kind = .nominal then
        match dlookup a.attribute_data k with
        | some (.nomset vs) => vs.any (fun e => PyVal.eq V.value e)
        | _ => false
      else true
  | .raw _ => false

/-- A row field benign for the amended streaming claim: a `Value` with the
class flag clear whose kind agrees with the declared type (or whose payload is
the missing marker), Nominal kinds appearing only on attributes declared
nominal with an actual value collection. -/
def GoodStreamField (a : ArffFile) (k : Str) (v : PyObj) : Prop :=
  ∃ V, v = .val V ∧ V.cls = false ∧
    (∀ t, dlookup a.attribute_types k = some t →
      (V.kind.cType = t ∨ V.value.isMissing = true) ∧
      (V.kind = .nominal → t = .nominal ∧
        ∃ vs, dlookup a.attribute_data k = some (.nomset vs)))

/-- One streaming `appendItem` on a benign field: the dataset is returned
unchanged, `schema_change` stays clear, and the field is deleted from the row
exactly when `keepStream` rejects it. -/
theorem appendItem_stream (a : ArffFile) (hfout : a.fout = true)
    (hcan : a.class_attr_name = none)
    (hco : ∀ k, (dlookup a.attribute_types k).isSome = true ↔ k ∈ a.attributes)
    (line : List (Str × PyObj)) (hnl : (line.map Prod.fst).Nodup)
    (k : Str) (v : PyObj) (hg : GoodStreamField a k v) :
    appendItem (line, a, false) k v =
      Except.ok ((if keepStream a k v then line else ddel line k), a, false) := by
  obtain ⟨V, rfl, hcls, hdecl⟩ := hg
  have hclsr : appendCls k V a = Except.ok a := by
    simp [appendCls, hcls]
  have hre : appendReorder a = a := by
    simp [appendReorder, hcan]
  unfold appendItem
  show (do
      let wv ← appendWrap a (priorTypeOf a k (.val V)) k (.val V)
      if ¬ wv.1.value.isMissing ∧ priorTypeOf a k (.val V) ≠ some wv.1.kind.cType then
        Except.error ("AssertionError: attribute type conflicts with declared type".toList)
      else do
        let acc2 := appendDeclare k wv.1 (line, wv.2, false)
        let acc3 ← appendNominal k wv.1 acc2
        let st4 ← appendCls k wv.1 acc3.2.1
        Except.ok (acc3.1, appendReorder st4, acc3.2.2)) = _
  rw [show appendWrap a (priorTypeOf a k (.val V)) k (.val V) = Except.ok (V, a) from rfl]
  show (if ¬ V.value.isMissing ∧ priorTypeOf a k (.val V) ≠ some V.kind.cType then
        Except.error ("AssertionError: attribute type conflicts with declared type".toList)
      else do
        let acc3 ← appendNominal k V (appendDeclare k V (line, a, false))
        let st4 ← appendCls k V acc3.2.1
        Except.ok (acc3.1, appendReorder st4, acc3.2.2)) = _
  cases hdl : dlookup a.attribute_types k with
  | none =>
    have hprior : priorTypeOf a k (.val V) = some V.kind.cType := by
      simp [priorTypeOf, hdl]
    have hpass : ¬ (¬ V.value.isMissing = true ∧
        priorTypeOf a k (.val V) ≠ some V.kind.cType) := by
      intro hc
      exact hc.2 (by rw [hprior])
    rw [if_neg hpass]
    have hnm : k ∉ a.attributes := by
      intro hm
      have h1 := (hco k).mpr hm
      rw [hdl] at h1
      exact Bool.noConfusion h1
    have hnc : a.attributes.contains k = false := by
      cases hc : a.attributes.contains k
      · rfl
      · exact absurd (List.mem_of_elem_eq_true hc) hnm
    have hdecl2 : appendDeclare k V (line, a, false) = (ddel line k, a, false) := by
      simp [appendDeclare, hdl, hfout]
    rw [hdecl2]
    have hnom : appendNominal k V (ddel line k, a, false) =
        Except.ok (ddel line k, a, false) := by
      by_cases hkind : V.kind = .nominal
      · simp [appendNominal, hkind, hfout, hnc, ddel_ddel_self line k hnl]
        intro hm
        exact absurd hm hnm
      · simp [appendNominal, hkind]
    rw [hnom]
    show (do
        let st4 ← appendCls k V a
        Except.ok ((ddel line k, a, false).1, appendReorder st4, (ddel line k, a, false).2.2)) = _
    rw [hclsr]
    show Except.ok (ddel line k, appendReorder a, false) = _
    rw [hre]
    have hks : keepStream a k (.val V) = false := by
      simp [keepStream, hdl]
    rw [hks]
    rfl
  | some t =>
    obtain ⟨hkt, hnomi⟩ := hdecl t hdl
    have hprior : priorTypeOf a k (.val V) = some t := by
      simp [priorTypeOf, hdl]
    have hpass : ¬ (¬ V.value.isMissing = true ∧
        priorTypeOf a k (.val V) ≠ some V.kind.cType) := by
      intro hc
      rcases hkt with hkt | hkt
      · exact hc.2 (by rw [hprior, hkt])
      · exact hc.1 hkt
    rw [if_neg hpass]
    have hmem : k ∈ a.attributes := (hco k).mp (by rw [hdl]; rfl)
    have hcont : a.attributes.contains k = true := List.elem_eq_true_of_mem hmem
    have hdecl2 : appendDeclare k V (line, a, false) = (line, a, false) := by
      simp [appendDeclare, hdl]
    rw [hdecl2]
    by_cases hkind : V.kind = .nominal
    · obtain ⟨hteq, vs, hvs⟩ := hnomi hkind
      have hnom : appendNominal k V (line, a, false) =
          Except.ok ((if vs.any (fun e => PyVal.eq V.value e) then line else ddel line k),
            a, false) := by
        simp only [appendNominal, hkind, if_pos rfl, hfout, if_pos rfl, hcont, hvs,
          getOrKeyError, attrDataMemberVal]
        by_cases hmv : (vs.any (fun e => PyVal.eq V.value e)) = true
        · show (if ¬ (vs.any fun e => PyVal.eq V.value e) = true then
              Except.ok (ddel line k, a, false)
            else Except.ok (line, a, false) : Except Str AppendAcc) = _
          simp [hmv]
        · show (if ¬ (vs.any fun e => PyVal.eq V.value e) = true then
              Except.ok (ddel line k, a, false)
            else Except.ok (line, a, false) : Except Str AppendAcc) = _
          simp [hmv]
      rw [hnom]
      show (do
          let st4 ← appendCls k V a
          Except.ok ((if vs.any (fun e => PyVal.eq V.value e) then line else ddel line k),
            appendReorder st4, false)) = _
      rw [hclsr]
      show Except.ok ((if vs.any (fun e => PyVal.eq V.value e) then line else ddel line k),
        appendReorder a, false) = _
      rw [hre]
      have hks : keepStream a k (.val V) =
          (vs.any (fun e => PyVal.eq V.value e)) := by
        simp [keepStream, hdl, hkind, hvs]
      rw [hks]
    · have hnom : appendNominal k V (line, a, false) = Except.ok (line, a, false) := by
        simp [appendNominal, hkind]
      rw [hnom]
      show (do
          let st4 ← appendCls k V a
          Except.ok (line, appendReorder st4, false)) = _
      rw [hclsr]
      show Except.ok (line, appendReorder a, false) = _
      rw [hre]
      have hks : keepStream a k (.val V) = true := by
        simp [keepStream, hdl, hkind]
      rw [hks]
      rfl

/-- Decidable form of `GoodStreamField`, for concrete witnesses. -/
def goodStreamFieldB (a : ArffFile) (k : Str) (v : PyObj) : Bool :=
  match v with
  | .raw _ => false
  | .val V =>
    !V.cls &&
    (match dlookup a.attribute_types k with
     | none => true
     | some t =>
       (V.kind.cType = t || V.value.isMissing) &&
       (if V.kind = .nominal then
          (t = AType.nominal) &&
            (match dlookup a.attribute_data k with
             | some (.nomset _) => true
             | _ => false)
        else true))

theorem goodStreamFieldB_good (a : ArffFile) (k : Str) (v : PyObj)
    (h : goodStreamFieldB a k v = true) : GoodStreamField a k v := by
  cases v with
  | raw p => exact absurd h (by simp [goodStreamFieldB])
  | val V =>
    unfold goodStreamFieldB at h
    rw [Bool.and_eq_true] at h
    obtain ⟨hcls, hrest⟩ := h
    refine ⟨V, rfl, by simpa using hcls, ?_⟩
    intro t ht
    rw [ht, Bool.and_eq_true] at hrest
    obtain ⟨hk, hnom⟩ := hrest
    constructor
    · have hk' : V.kind.cType = t ∨ V.value.isMissing = true := by
        simpa using hk
      exact hk'
    · intro hkd
      rw [if_pos hkd, Bool.and_eq_true] at hnom
      refine ⟨by simpa using hnom.1, ?_⟩
      have hn2 := hnom.2
      cases hdat : dlookup a.attribute_data k with
      | none =>
        rw [hdat] at hn2
        simp at hn2
      | some dv =>
        cases dv with
        | nomset vs => exact ⟨vs, rfl⟩
        | pynone =>
          rw [hdat] at hn2
          simp at hn2
        | datefmt s =>
          rw [hdat] at hn2
          simp at hn2

/-- The item loop of a streaming `append` over benign fields trims exactly the
`keepStream`-rejected fields and leaves the dataset untouched. -/
theorem appendLoop_stream_go (a : ArffFile) (hfout : a.fout = true)
    (hcan : a.class_attr_name = none)
    (hco : ∀ k, (dlookup a.attribute_types k).isSome = true ↔ k ∈ a.attributes) :
    ∀ (items line : List (Str × PyObj)),
      (line.map Prod.fst).Nodup →
      (∀ kv ∈ items, GoodStreamField a kv.1 kv.2) →
      items.foldlM (fun acc kv => appendItem acc kv.1 kv.2) (line, a, false) =
        Except.ok
          (items.foldl (fun ln kv => if keepStream a kv.1 kv.2 then ln else ddel ln kv.1)
            line, a, false) := by
  intro items
  induction items with
  | nil => intro line _ _; rfl
  | cons kv rest ih =>
    intro line hnl hgood
    rw [List.foldlM, appendItem_stream a hfout hcan hco line hnl kv.1 kv.2
      (hgood kv (List.mem_cons_self kv rest))]
    show rest.foldlM (fun acc kv => appendItem acc kv.1 kv.2)
        ((if keepStream a kv.1 kv.2 then line else ddel line kv.1), a, false) = _
    rw [ih _ (by
        by_cases hkp : keepStream a kv.1 kv.2
        · simpa [hkp] using hnl
        · simpa [hkp] using ddel_keys_nodup line kv.1 hnl)
      (fun kv' hm => hgood kv' (List.mem_cons_of_mem kv hm))]
    rw [List.foldl_cons]

theorem trimFold_cons (a : ArffFile) (k : Str) (v : PyObj) :
    ∀ (items ln : List (Str × PyObj)),
      k ∉ items.map Prod.fst →
      items.foldl (fun ln kv => if keepStream a kv.1 kv.2 then ln else ddel ln kv.1)
        ((k, v) :: ln) =
      (k, v) :: items.foldl
        (fun ln kv => if keepStream a kv.1 kv.2 then ln else ddel ln kv.1) ln := by
  intro items
  induction items with
  | nil => intro ln _; rfl
  | cons kv' rest ih =>
    intro ln hk
    simp only [List.map_cons, List.mem_cons] at hk
    push_neg at hk
    rw [List.foldl_cons, List.foldl_cons]
    by_cases hkp : keepStream a kv'.1 kv'.2
    · rw [if_pos hkp, if_pos hkp, ih ln hk.2]
    · rw [if_neg hkp, if_neg hkp]
      have hdd : ddel ((k, v) :: ln) kv'.1 = (k, v) :: ddel ln kv'.1 := by
        simp [ddel, hk.1]
      rw [hdd, ih _ hk.2]

theorem trimFold_self (a : ArffFile) :
    ∀ d : List (Str × PyObj), (d.map Prod.fst).Nodup →
      d.foldl (fun ln kv => if keepStream a kv.1 kv.2 then ln else ddel ln kv.1) d =
        d.filter (fun kv => keepStream a kv.1 kv.2) := by
  intro d
  induction d with
  | nil => intro _; rfl
  | cons kv rest ih =>
    intro hnod
    obtain ⟨k, v⟩ := kv
    simp only [List.map_cons, List.nodup_cons] at hnod
    rw [List.foldl_cons]
    by_cases hkp : keepStream a k v
    · rw [if_pos hkp, trimFold_cons a k v rest _ hnod.1, ih hnod.2]
      simp [List.filter_cons, hkp]
    · rw [if_neg hkp]
      have hdd : ddel ((k, v) :: rest) k = rest := by
        simp [ddel]
      rw [hdd, ih hnod.2]
      simp [List.filter_cons, hkp]

/-- Reduction of `append` on a dict row to its loop followed by the schema
assert and the write/store tail (definitional). -/
theorem append_dct_reduce (a : ArffFile) (d : List (Str × PyObj)) (so : Bool) :
    append a (.row (.dct d)) so true =
      Except.bind (appendLoop a d)
        (fun r =>
          match r with
          | (line, st, schema_change) =>
            if schema_change = true ∧ st.fout = true then
              Except.error ("AssertionError: schema change while streaming".toList)
            else if ¬ so = true then
              if st.fout = true then
                Except.bind (write_line st (.dct line) .sparse)
                  (fun ls =>
                    Except.ok { st with foutLines := st.foutLines ++ emittedOf (.ok ls) })
              else Except.ok { st with data := st.data ++ [Row.dct line] }
            else Except.ok st) :=
  rfl

/-- **C2, amended.**  A streaming `append` (with schema updating on) over a
name-keyed row of class-flag-free `Value`s, with no class attribute
designated: every field naming an undeclared attribute and every Nominal
field whose value is outside its declared set is removed before the row is
written; the append succeeds (it is never rejected for those reasons); and
the schema — attribute list, attribute types, nominal value sets — is
byte-identical after the append (the result state differs from the input only
in the line written to the sink).  The original claim fails for raw
(non-`Value`) undeclared fields, which crash on `TYPE_TO_CLASS[None]`, and
for class-flagged fields, which mutate `class_attr_name` and the attribute
order; the hypotheses exclude exactly those. -/
theorem streaming_append_trims_and_preserves_schema (a : ArffFile)
    (d : List (Str × PyObj)) (lineOpt : Option Str)
    (hfout : a.fout = true)
    (hcan : a.class_attr_name = none)
    (hco : ∀ k, (dlookup a.attribute_types k).isSome = true ↔ k ∈ a.attributes)
    (hnod : (d.map Prod.fst).Nodup)
    (hgood : ∀ kv ∈ d, goodStreamFieldB a kv.1 kv.2 = true)
    (hwl : write_line a (.dct (d.filter (fun kv => keepStream a kv.1 kv.2))) .sparse =
      Except.ok lineOpt) :
    append a (.row (.dct d)) false true =
      Except.ok { a with foutLines := a.foutLines ++ emittedOf (Except.ok lineOpt) } := by
  have hloop : appendLoop a d =
      Except.ok (d.filter (fun kv => keepStream a kv.1 kv.2), a, false) := by
    unfold appendLoop
    rw [appendLoop_stream_go a hfout hcan hco d d hnod
      (fun kv hm => goodStreamFieldB_good a kv.1 kv.2 (hgood kv hm))]
    rw [trimFold_self a d hnod]
  rw [append_dct_reduce, hloop]
  show (if (false = true ∧ a.fout = true) then
      Except.error ("AssertionError: schema change while streaming".toList)
    else if ¬ false = true then
      if a.fout = true then do
        let ls ← write_line a (.dct (d.filter (fun kv => keepStream a kv.1 kv.2))) .sparse
        Except.ok { a with foutLines := a.foutLines ++ emittedOf (.ok ls) }
      else
        Except.ok { a with
          data := a.data ++ [Row.dct (d.filter (fun kv => keepStream a kv.1 kv.2))] }
    else Except.ok a) = _
  rw [if_neg (by simp), if_pos (by simp), if_pos hfout, hwl]
  rfl

/-- State for the C2 counterexample and witness: streaming schema with a
string attribute `a` and a nominal attribute `b` over `x`, `y`. -/
def c2state : ArffFile :=
  { attributes := ["a".toList, "b".toList],
    attribute_types := [("a".toList, .string), ("b".toList, .nominal)],
    attribute_data :=
      [("a".toList, .pynone),
       ("b".toList, .nomset [.str ("x".toList), .str ("y".toList)])],
    fout := true }

/-- **C2, counterexample.**  A streaming append of a row whose undeclared
field holds a *raw* scalar (`{'z': 5}`) is not trimmed and does not succeed:
`prior_type` is `None`, and `TYPE_TO_CLASS[prior_type]` raises `KeyError` —
the claim's "every field naming an attribute not in the schema is removed
... the append does not fail for that reason" is false for such rows. -/
theorem streaming_append_raw_undeclared_fails :
    exOk (append c2state (.row (.dct [("z".toList, .raw (.int 5))])) false true) = false ∧
    dlookup c2state.attribute_types ("z".toList) = none := by
  refine ⟨rfl, rfl⟩

/-- Row for the C2 witness: a declared string field, an undeclared field and an
out-of-set nominal field, all `Value`s with the class flag clear. -/
def c2row : List (Str × PyObj) :=
  [("a".toList, PyObj.val ⟨.string, .str ("v".toList), false⟩),
   ("z".toList, PyObj.val ⟨.string, .str ("w".toList), false⟩),
   ("b".toList, PyObj.val ⟨.nominal, .str ("z".toList), false⟩)]

/-- The line the C2 witness expects on the sink. -/
def c2written : List Str :=
  emittedOf (Except.ok (some ('{' :: '0' :: ' ' :: "\"v\"".toList ++ ['}'])))

theorem dlookup_isSome {α : Type} (d : List (Str × α)) (k : Str) :
    (dlookup d k).isSome = true ↔ k ∈ d.map Prod.fst := by
  constructor
  · intro h
    by_contra hm
    rw [(dlookup_eq_none d k).mpr hm] at h
    cases h
  · intro hm
    cases hl : dlookup d k with
    | none => exact absurd ((dlookup_eq_none d k).mp hl) (not_not_intro hm)
    | some v => rfl

theorem streaming_append_trims_witness :
    (∀ kv ∈ c2row, goodStreamFieldB c2state kv.1 kv.2 = true) ∧
    append c2state (.row (.dct c2row)) false true =
      Except.ok { c2state with foutLines := c2state.foutLines ++ c2written } :=
  ⟨by decide,
    streaming_append_trims_and_preserves_schema c2state c2row _
      rfl rfl (fun k => dlookup_isSome c2state.attribute_types k) (by decide) (by decide) rfl⟩

theorem exceptBind_ok {α β : Type} (a : α) (f : α → Except Str β) :
    ((Except.ok a : Except Str α) >>= f) = f a := rfl

theorem exOk_false_of_error {α : Type} (e : Str) : exOk (Except.error e : Except Str α) = false := rfl

/-- State for the C8 counterexample: a single date attribute. -/
def c8state : ArffFile :=
  { attributes := ["d".toList],
    attribute_types := [("d".toList, .date)],
    attribute_data := [("d".toList, .datefmt DEFAULT_DATE_FORMAT)] }

theorem parseDenseCell_date (a : ArffFile) (n : Str) (v : PyObj)
    (ht : dlookup a.attribute_types n = some .date)
    (hm : pyObjEq v (.raw (.str MISSING)) = false) :
    parseDenseCell a n v = Except.ok [] := by
  unfold parseDenseCell
  rw [ht]
  show (if pyObjEq v (.raw (.str MISSING)) = true then Except.ok [v]
    else if (AType.date = .integer) then
      match v with
      | .raw p => (pyInt p).map (fun i => [PyObj.raw (.int i)])
      | .val _ => Except.error ("TypeError: int() argument must not be a Value".toList)
    else if (AType.date = .numeric ∨ AType.date = .real) then
      (decimalOfStr (pyObjStr v)).map (fun d => [PyObj.raw d])
    else if (AType.date = .string) then
      Except.ok [v]
    else if (AType.date = .nominal) then do
      let dat ← getOrKeyError (dlookup a.attribute_data n)
      let mem ← nominalMember v dat
      if mem then Except.ok [v]
      else Except.error ("Exception: Incorrect value for nominal attribute".toList)
    else
      Except.ok []) = Except.ok []
  rw [hm]
  simp

theorem parseDenseCell_string (a : ArffFile) (n : Str) (v : PyObj)
    (ht : dlookup a.attribute_types n = some .string) :
    parseDenseCell a n v = Except.ok [v] := by
  unfold parseDenseCell
  rw [ht]
  show (if pyObjEq v (.raw (.str MISSING)) = true then Except.ok [v]
    else if (AType.string = .integer) then
      match v with
      | .raw p => (pyInt p).map (fun i => [PyObj.raw (.int i)])
      | .val _ => Except.error ("TypeError: int() argument must not be a Value".toList)
    else if (AType.string = .numeric ∨ AType.string = .real) then
      (decimalOfStr (pyObjStr v)).map (fun d => [PyObj.raw d])
    else if (AType.string = .string) then
      Except.ok [v]
    else if (AType.string = .nominal) then do
      let dat ← getOrKeyError (dlookup a.attribute_data n)
      let mem ← nominalMember v dat
      if mem then Except.ok [v]
      else Except.error ("Exception: Incorrect value for nominal attribute".toList)
    else
      Except.ok []) = Except.ok [v]
  by_cases hmv : pyObjEq v (.raw (.str MISSING)) = true
  · rw [if_pos hmv]
  · rw [if_neg hmv]
    simp

/-- The dense type-dispatch fold over date/string cells: string cells pass
through, non-missing date cells contribute nothing. -/
theorem denseFold (a : ArffFile) :
    ∀ (zs : List (Str × PyObj)) (acc : List PyObj),
      (∀ p ∈ zs, dlookup a.attribute_types p.1 = some .date ∨
        dlookup a.attribute_types p.1 = some .string) →
      (∀ p ∈ zs, dlookup a.attribute_types p.1 = some .date →
        pyObjEq p.2 (.raw (.str MISSING)) = false) →
      zs.foldlM (fun acc nv => (parseDenseCell a nv.1 nv.2).map (fun e => acc ++ e)) acc =
        Except.ok (acc ++ (zs.filter
          (fun p => decide (dlookup a.attribute_types p.1 = some AType.string))).map Prod.snd) := by
  intro zs
  induction zs with
  | nil =>
    intro acc _ _
    show pure acc = Except.ok (acc ++ List.map Prod.snd (List.filter
      (fun p => decide (dlookup a.attribute_types p.1 = some AType.string)) []))
    rw [List.filter_nil, List.map_nil, List.append_nil]
    rfl
  | cons p zs ih =>
    intro acc htypes hnomiss
    show ((parseDenseCell a p.1 p.2).map (fun e => acc ++ e) >>=
      fun acc2 => zs.foldlM
        (fun acc nv => (parseDenseCell a nv.1 nv.2).map (fun e => acc ++ e)) acc2) = _
    rcases htypes p (List.mem_cons_self p zs) with ht | ht
    · rw [parseDenseCell_date a p.1 p.2 ht
        (hnomiss p (List.mem_cons_self p zs) ht)]
      show zs.foldlM (fun (acc : List PyObj) (nv : Str × PyObj) =>
          (parseDenseCell a nv.1 nv.2).map (fun e => acc ++ e)) (acc ++ []) = _
      rw [List.append_nil,
        ih acc (fun q hq => htypes q (List.mem_cons_of_mem p hq))
          (fun q hq => hnomiss q (List.mem_cons_of_mem p hq))]
      have hf : decide (dlookup a.attribute_types p.1 = some AType.string) = false := by
        rw [ht]
        decide
      rw [List.filter_cons, hf]
      simp
    · rw [parseDenseCell_string a p.1 p.2 ht]
      show zs.foldlM (fun (acc : List PyObj) (nv : Str × PyObj) =>
          (parseDenseCell a nv.1 nv.2).map (fun e => acc ++ e)) (acc ++ [p.2]) = _
      rw [ih (acc ++ [p.2]) (fun q hq => htypes q (List.mem_cons_of_mem p hq))
          (fun q hq => hnomiss q (List.mem_cons_of_mem p hq))]
      have hf : decide (dlookup a.attribute_types p.1 = some AType.string) = true := by
        rw [ht]
        decide
      rw [List.filter_cons, hf]
      simp

/-- **C8, amended.**  Over a date/string schema fragment, dense-parsing a row
with the correct field count stores exactly the string-cell values in order:
every non-missing date cell is dropped entirely (the type-dispatch loop has no
date branch), so the stored row has one entry per non-date attribute and never
retains the date text. -/
theorem dense_date_field_dropped (a : ArffFile) (l : List PyObj)
    (hfout : a.fout = false)
    (hlen : l.length = a.attributes.length)
    (htypes : ∀ p ∈ a.attributes.zip l, dlookup a.attribute_types p.1 = some .date ∨
      dlookup a.attribute_types p.1 = some .string)
    (hnomiss : ∀ p ∈ a.attributes.zip l, dlookup a.attribute_types p.1 = some .date →
      pyObjEq p.2 (.raw (.str MISSING)) = false) :
    parse_data a (.row (.lst l)) =
      Except.ok { a with data := a.data ++
        [Row.lst (((a.attributes.zip l).filter
          (fun p => decide (dlookup a.attribute_types p.1 = some AType.string))).map
            Prod.snd)] } := by
  show finishDense a l = _
  unfold finishDense
  rw [if_neg (not_not_intro hlen)]
  show ((a.attributes.zip l).foldlM
      (fun acc nv => (parseDenseCell a nv.1 nv.2).map (fun e => acc ++ e)) [] >>=
    fun datum =>
      if a.fout = true then do
        let ls ← write_line a (.lst datum) .sparse
        Except.ok { a with foutLines := a.foutLines ++ emittedOf (.ok ls) }
      else
        Except.ok { a with data := a.data ++ [Row.lst datum] }) = _
  rw [denseFold a (a.attributes.zip l) [] htypes hnomiss, exceptBind_ok]
  show (if a.fout = true then _ else
    Except.ok { a with data := a.data ++ [Row.lst ([] ++ ((a.attributes.zip l).filter
      (fun (p : Str × PyObj) =>
        decide (dlookup a.attribute_types p.1 = some AType.string))).map
        Prod.snd)] }) = _
  rw [if_neg (by rw [hfout]; exact Bool.false_ne_true), List.nil_append]

/-- Schema for the C8 witness: a date attribute followed by a string
attribute. -/
def c8wit : ArffFile :=
  { attributes := ["d".toList, "s".toList],
    attribute_types := [("d".toList, .date), ("s".toList, .string)],
    attribute_data := [("d".toList, .datefmt DEFAULT_DATE_FORMAT), ("s".toList, .pynone)] }

theorem dense_date_field_dropped_witness :
    parse_data c8wit (.row (.lst
        [PyObj.raw (.str ("2020-01-02".toList)), PyObj.raw (.str ("x".toList))])) =
      Except.ok { c8wit with data := [Row.lst [PyObj.raw (.str ("x".toList))]] } := by
  have h := dense_date_field_dropped c8wit
    [PyObj.raw (.str ("2020-01-02".toList)), PyObj.raw (.str ("x".toList))]
    rfl rfl (by decide) (by decide)
  exact h

/-- **C8, counterexample.**  Dense-parsing the correct-field-count line
`2020-01-02` against the one-attribute date schema stores the row `[]`: the
date field's raw text is *not* kept, and the stored row does not contain one
entry per schema attribute (the type-dispatch loop of `_parse_data` has no
`date` branch, so a non-missing date cell contributes nothing). -/
theorem dense_date_field_dropped_concrete :
    parse_data c8state (.text ("2020-01-02".toList)) =
      Except.ok { c8state with data := [Row.lst []] } ∧
    ([] : List PyObj) ≠ [PyObj.raw (.str ("2020-01-02".toList))] ∧
    ([] : List PyObj).length ≠ c8state.attributes.length := by
  refine ⟨rfl, by decide, by decide⟩

/-! ### Round-trip machinery for the amended C1 claim -/

theorem takeWhile_append_all {p : Char → Bool} :
    ∀ (l1 l2 : Str), (∀ c ∈ l1, p c = true) →
      (l1 ++ l2).takeWhile p = l1 ++ l2.takeWhile p
  | [], l2, _ => rfl
  | c :: l1, l2, h => by
    have hc : p c = true := h c (List.mem_cons_self c l1)
    show (c :: (l1 ++ l2)).takeWhile p = _
    rw [List.takeWhile_cons_of_pos hc,
      takeWhile_append_all l1 l2 (fun x hx => h x (List.mem_cons_of_mem c hx))]
    rfl

theorem dropWhile_append_all {p : Char → Bool} :
    ∀ (l1 l2 : Str), (∀ c ∈ l1, p c = true) →
      (l1 ++ l2).dropWhile p = l2.dropWhile p
  | [], l2, _ => rfl
  | c :: l1, l2, h => by
    have hc : p c = true := h c (List.mem_cons_self c l1)
    show (c :: (l1 ++ l2)).dropWhile p = _
    rw [List.dropWhile_cons_of_pos hc]
    exact dropWhile_append_all l1 l2 (fun x hx => h x (List.mem_cons_of_mem c hx))

theorem takeWhile_cons_false {p : Char → Bool} {c : Char} (l : Str) (h : p c = false) :
    (c :: l).takeWhile p = [] := by
  simp [List.takeWhile_cons, h]

theorem dropWhile_cons_false {p : Char → Bool} {c : Char} (l : Str) (h : p c = false) :
    (c :: l).dropWhile p = c :: l := by
  simp [List.dropWhile_cons, h]

/-- `pystrip` is the identity on a string whose first and last characters are
not whitespace. -/
theorem pystrip_nosp (s : Str)
    (hh : ∀ c, s.head? = some c → pyIsSpace c = false)
    (hl : ∀ c, s.getLast? = some c → pyIsSpace c = false) :
    pystrip s = s := by
  cases s with
  | nil => rfl
  | cons c r =>
    unfold pystrip
    rw [dropWhile_cons_false r (hh c rfl)]
    cases hr : (c :: r).reverse with
    | nil => exact absurd hr (by simp)
    | cons d t =>
      have hd : (c :: r).getLast? = some d := by
        rw [← List.head?_reverse, hr]
        rfl
      rw [dropWhile_cons_false t (hl d hd),
        show (d :: t) = (c :: r).reverse from hr.symm, List.reverse_reverse]

theorem pystrip_cons_space (c : Char) (s : Str) (h : pyIsSpace c = true) :
    pystrip (c :: s) = pystrip s := by
  unfold pystrip
  simp [List.dropWhile_cons, h]

theorem pyStartswith_append : ∀ (p s : Str), pyStartswith (p ++ s) p = true
  | [], s => by cases s <;> rfl
  | c :: p, s => by
    show (c = c && pyStartswith (p ++ s) p) = true
    rw [pyStartswith_append p s]
    simp

theorem pyLower_append (x y : Str) : pyLower (x ++ y) = pyLower x ++ pyLower y :=
  List.map_append _ x y

/-- Digit-string machinery: `natToStr`/`parseNatAcc` round trip. -/
theorem parseNatAcc_append (a : ℕ) :
    ∀ (l1 l2 : Str), parseNatAcc a (l1 ++ l2) = parseNatAcc (parseNatAcc a l1) l2 := by
  intro l1
  induction l1 generalizing a with
  | nil => intro l2; rfl
  | cons c l1 ih => intro l2; exact ih (10 * a + charVal c) l2

theorem natDigitsRev_lt10 : ∀ (f n : ℕ), ∀ d ∈ natDigitsRev f n, d < 10 := by
  intro f
  induction f with
  | zero => intro n d hd; cases hd
  | succ f ih =>
    intro n d hd
    cases n with
    | zero => cases hd
    | succ m =>
      rcases List.mem_cons.mp hd with h | h
      · rw [h]; exact Nat.mod_lt _ (by omega)
      · exact ih _ d h

theorem charVal_digitChar (d : ℕ) (h : d < 10) : charVal (digitChar d) = d := by
  interval_cases d <;> rfl

theorem isDigit_digitChar (d : ℕ) (h : d < 10) : (digitChar d).isDigit = true := by
  interval_cases d <;> rfl

theorem parseNat_rev_digits :
    ∀ (f n a : ℕ), n < 10 ^ f →
      parseNatAcc a ((natDigitsRev f n).map digitChar).reverse =
        a * 10 ^ (natDigitsRev f n).length + n := by
  intro f
  induction f with
  | zero =>
    intro n a h
    rw [pow_zero] at h
    have hn : n = 0 := by omega
    subst hn
    show a = a * 10 ^ (0 : ℕ) + 0
    simp
  | succ f ih =>
    intro n a h
    cases n with
    | zero =>
      show a = a * 10 ^ (0 : ℕ) + 0
      simp
    | succ m =>
      have hrec : natDigitsRev (f + 1) (m + 1) =
          (m + 1) % 10 :: natDigitsRev f ((m + 1) / 10) := rfl
      rw [hrec, List.map_cons, List.reverse_cons, parseNatAcc_append]
      have hlt : (m + 1) / 10 < 10 ^ f := by
        have h10 : (10 : ℕ) ^ (f + 1) = 10 ^ f * 10 := pow_succ 10 f
        rw [h10] at h
        omega
      rw [ih ((m + 1) / 10) a hlt]
      have hone : ∀ (X : ℕ) (c : Char), parseNatAcc X [c] = 10 * X + charVal c :=
        fun X c => rfl
      rw [hone, charVal_digitChar _ (Nat.mod_lt _ (by omega)), List.length_cons, pow_succ,
        ← mul_assoc]
      generalize a * 10 ^ (natDigitsRev f ((m + 1) / 10)).length = Y
      omega

theorem parseNatAcc_natToStr (n : ℕ) : parseNatAcc 0 (natToStr n) = n := by
  by_cases h : n = 0
  · subst h; rfl
  · unfold natToStr
    rw [if_neg h]
    have hb : n < 10 ^ (n + 1) := by
      calc n < 10 ^ n := Nat.lt_pow_self (by omega) n
      _ ≤ 10 ^ (n + 1) := Nat.pow_le_pow_right (by omega) (by omega)
    rw [parseNat_rev_digits (n + 1) n 0 hb]
    simp

theorem natToStr_all_digits (n : ℕ) : ∀ c ∈ natToStr n, c.isDigit = true := by
  intro c hc
  unfold natToStr at hc
  by_cases h : n = 0
  · rw [if_pos h] at hc
    rcases List.mem_singleton.mp hc with rfl
    rfl
  · rw [if_neg h] at hc
    rw [List.mem_reverse] at hc
    obtain ⟨d, hd, rfl⟩ := List.mem_map.mp hc
    exact isDigit_digitChar d (natDigitsRev_lt10 _ _ d hd)

theorem natToStr_ne_nil (n : ℕ) : natToStr n ≠ [] := by
  unfold natToStr
  by_cases h : n = 0
  · rw [if_pos h]; simp
  · rw [if_neg h]
    simp only [ne_eq, List.reverse_eq_nil_iff, List.map_eq_nil_iff]
    cases n with
    | zero => exact absurd rfl h
    | succ m => exact fun hc => by cases hc
theorem digit_not_space (c : Char) (h : c.isDigit = true) : pyIsSpace c = false := by
  by_contra hs
  rw [Bool.not_eq_false] at hs
  unfold pyIsSpace at hs
  unfold Char.isDigit at h
  have hd : ((((c = ' ' ∨ c = '\t') ∨ c = '\n') ∨ c = '\x0d') ∨ c = '\x0b') ∨
      c = '\x0c' := by
    simpa [decide_eq_true_eq] using hs
  rcases hd with ((((h1 | h1) | h1) | h1) | h1) | h1 <;> subst h1 <;> cases h

theorem isLineBreak_digit (c : Char) (h : c.isDigit = true) : isLineBreak c = false := by
  by_contra hs
  rw [Bool.not_eq_false] at hs
  unfold isLineBreak at hs
  unfold Char.isDigit at h
  have hd : ((((((((c = '\n' ∨ c = '\x0d') ∨ c = '\x0b') ∨ c = '\x0c') ∨ c = '\x1c') ∨
      c = '\x1d') ∨ c = '\x1e') ∨ c = '\x85') ∨ c = '\u2028') ∨ c = '\u2029' := by
    simpa [decide_eq_true_eq] using hs
  rcases hd with ((((((((h1 | h1) | h1) | h1) | h1) | h1) | h1) | h1) | h1) | h1 <;>
    subst h1 <;> cases h

theorem getLast?_mem_list {α : Type} {l : List α} {a : α} (h : l.getLast? = some a) :
    a ∈ l := by
  rcases List.mem_getLast?_eq_getLast h with ⟨hne, heq⟩
  exact heq ▸ List.getLast_mem hne

theorem pystrip_digits (s : Str) (hd : ∀ c ∈ s, c.isDigit = true) : pystrip s = s := by
  apply pystrip_nosp
  · intro c hc
    exact digit_not_space c (hd c (by
      cases s with
      | nil => cases hc
      | cons x r => exact (Option.some.inj hc) ▸ List.mem_cons_self x r))
  · intro c hc
    exact digit_not_space c (hd c (getLast?_mem_list hc))

theorem digit_ne_dash (c : Char) (h : c.isDigit = true) : c ≠ '-' := by
  intro he
  subst he
  cases h

theorem digit_ne_plus (c : Char) (h : c.isDigit = true) : c ≠ '+' := by
  intro he
  subst he
  cases h

/-- `int(s)` on a pure digit string. -/
theorem parseIntPy_digits (s : Str) (hne : s ≠ []) (hd : ∀ c ∈ s, c.isDigit = true) :
    parseIntPy s = Except.ok ((parseNatAcc 0 s : ℕ) : ℤ) := by
  unfold parseIntPy
  rw [pystrip_digits s hd]
  have hall : s.all Char.isDigit = true := List.all_eq_true.mpr hd
  dsimp only
  cases s with
  | nil => exact absurd rfl hne
  | cons c r =>
    have hc := hd c (List.mem_cons_self c r)
    split
    · rename_i ds heq
      exact absurd (List.cons.inj heq).1 (digit_ne_dash c hc)
    · rename_i ds heq
      exact absurd (List.cons.inj heq).1 (digit_ne_plus c hc)
    · rename_i ds h1 h2
      rw [if_pos ⟨hne, hall⟩]
      rfl

theorem natToStr_head_digit (n : ℕ) :
    ∀ c, (natToStr n).head? = some c → c.isDigit = true := by
  intro c hc
  apply natToStr_all_digits n
  cases hn : natToStr n with
  | nil => rw [hn] at hc; cases hc
  | cons x r =>
    rw [hn] at hc
    exact (Option.some.inj hc) ▸ List.mem_cons_self x r

theorem parseIntPy_intToStr (i : ℤ) : parseIntPy (intToStr i) = Except.ok i := by
  unfold intToStr
  by_cases hneg : i < 0
  · rw [if_pos hneg]
    unfold parseIntPy
    have hstrip : pystrip ('-' :: natToStr i.natAbs) = '-' :: natToStr i.natAbs := by
      apply pystrip_nosp
      · intro c hc
        rw [show c = '-' from Option.some.inj hc.symm]
        rfl
      · intro c hc
        apply digit_not_space
        apply natToStr_all_digits i.natAbs
        have hgl : ('-' :: natToStr i.natAbs).getLast? = (natToStr i.natAbs).getLast? := by
          cases hnn : natToStr i.natAbs with
          | nil => exact absurd hnn (natToStr_ne_nil _)
          | cons x r => exact List.getLast?_cons_cons
        rw [hgl] at hc
        exact getLast?_mem_list hc
    rw [hstrip]
    have hall : (natToStr i.natAbs).all Char.isDigit = true :=
      List.all_eq_true.mpr (natToStr_all_digits _)
    show ((if natToStr i.natAbs ≠ [] ∧ (natToStr i.natAbs).all Char.isDigit = true then
        Except.ok (parseNatAcc 0 (natToStr i.natAbs))
      else Except.error (("ValueError: invalid literal for int: ").toList ++
        '-' :: natToStr i.natAbs)).map (fun n => -(n : ℤ))) = Except.ok i
    rw [if_pos ⟨natToStr_ne_nil _, hall⟩, parseNatAcc_natToStr]
    show Except.ok (-(i.natAbs : ℤ)) = Except.ok i
    congr 1
    omega
  · rw [if_neg hneg]
    rw [parseIntPy_digits _ (natToStr_ne_nil _) (natToStr_all_digits _),
      parseNatAcc_natToStr]
    congr 1
    omega

theorem intToStr_chars (i : ℤ) : ∀ c ∈ intToStr i, c.isDigit = true ∨ c = '-' := by
  intro c hc
  unfold intToStr at hc
  by_cases hneg : i < 0
  · rw [if_pos hneg] at hc
    rcases List.mem_cons.mp hc with h | h
    · exact Or.inr h
    · exact Or.inl (natToStr_all_digits _ c h)
  · rw [if_neg hneg] at hc
    exact Or.inl (natToStr_all_digits _ c hc)

theorem strContains_cons (c : Char) (r nd : Str) :
    strContains (c :: r) nd = (pyStartswith (c :: r) nd || strContains r nd) := by
  unfold strContains
  rw [List.tails_cons]
  rfl

theorem strContains_single : ∀ (t : Str) (c : Char), strContains t [c] = t.contains c := by
  intro t c
  induction t with
  | nil => rfl
  | cons x r ih =>
    rw [strContains_cons, ih]
    have hps : ∀ (l : Str), pyStartswith l [] = true := fun l => by cases l <;> rfl
    have h1 : pyStartswith (x :: r) [c] = decide (x = c) := by
      show (decide (x = c) && pyStartswith r []) = decide (x = c)
      rw [hps r, Bool.and_true]
    rw [h1, List.contains_cons]
    by_cases hxc : x = c
    · subst hxc
      simp
    · have hcx : ¬ c = x := fun h => hxc h.symm
      simp [hxc, hcx]

theorem pyReplace_no_occur : ∀ (f : ℕ) (s old new : Str),
    strContains s old = false → pyReplaceF f s old new = s := by
  intro f
  induction f with
  | zero => intro s _ _ _; rfl
  | succ f ih =>
    intro s old new h
    cases s with
    | nil => rfl
    | cons c r =>
      rw [strContains_cons] at h
      rcases Bool.or_eq_false_iff.mp h with ⟨h1, h2⟩
      show (if old ≠ [] ∧ pyStartswith (c :: r) old = true then _ else
        c :: pyReplaceF f r old new) = c :: r
      rw [if_neg (fun hx => by rw [h1] at hx; exact Bool.false_ne_true hx.2)]
      rw [ih r old new h2]

theorem strContains_qq : ∀ (n : Str), '\'' ∉ n →
    strContains (n ++ ['\'']) ['\'', '\''] = false := by
  intro n
  induction n with
  | nil => intro _; rfl
  | cons c r ih =>
    intro h
    have hc : c ≠ '\'' := fun he => h (he ▸ List.mem_cons_self c r)
    show strContains (c :: (r ++ ['\''])) ['\'', '\''] = false
    rw [strContains_cons]
    apply Bool.or_eq_false_iff.mpr
    constructor
    · show (decide (c = '\'') && pyStartswith (r ++ ['\'']) ['\'']) = false
      rw [decide_eq_false hc]
      rfl
    · exact ih (fun hm => h (List.mem_cons_of_mem c hm))

/-- For a nonempty quote-free name, `esc` just wraps it in single quotes. -/
theorem esc_safe (n : Str) (hne : n ≠ []) (hq : '\'' ∉ n) :
    esc n = '\'' :: n ++ ['\''] := by
  unfold esc
  apply pyReplace_no_occur
  cases n with
  | nil => exact absurd rfl hne
  | cons c r =>
    have hc : c ≠ '\'' := fun he => hq (he ▸ List.mem_cons_self c r)
    rw [List.cons_append, strContains_cons]
    apply Bool.or_eq_false_iff.mpr
    constructor
    · show (true && (decide (c = '\'') && pyStartswith (r ++ ['\'']) [])) = false
      rw [decide_eq_false hc]
      rfl
    · exact strContains_qq (c :: r) hq

theorem length_drop_le_self {α : Type} (n : ℕ) (l : List α) :
    (l.drop n).length ≤ l.length := by
  rw [List.length_drop]
  omega

theorem findTokensF_fuel : ∀ (f1 : ℕ) (s : Str) (f2 : ℕ), s.length < f1 → s.length < f2 →
    findTokensF f1 s = findTokensF f2 s := by
  intro f1
  induction f1 with
  | zero => intro s f2 h1 _; exact absurd h1 (Nat.not_lt_zero _)
  | succ f ih =>
    intro s f2 h1 h2
    cases f2 with
    | zero => exact absurd h2 (Nat.not_lt_zero _)
    | succ f2' =>
      cases s with
      | nil => rfl
      | cons c rest =>
        have hr1 : rest.length < f := by simpa using h1
        have hr2 : rest.length < f2' := by simpa using h2
        show (if isIdentStart c = true then
            (c :: rest.takeWhile isIdentCont) :: findTokensF f (rest.dropWhile isIdentCont)
          else if c = '{' then
            if rest.dropWhile (· ≠ '}') = [] then findTokensF f rest
            else ('{' :: rest.takeWhile (· ≠ '}') ++ ['}']) ::
              findTokensF f ((rest.dropWhile (· ≠ '}')).drop 1)
          else if c = '\'' then
            if rest.takeWhile (· ≠ '\'') = [] ∨ rest.dropWhile (· ≠ '\'') = [] then
              findTokensF f rest
            else ('\'' :: rest.takeWhile (· ≠ '\'') ++ ['\'']) ::
              findTokensF f ((rest.dropWhile (· ≠ '\'')).drop 1)
          else if c = '"' then
            if rest.takeWhile (· ≠ '"') = [] ∨ rest.dropWhile (· ≠ '"') = [] then
              findTokensF f rest
            else ('"' :: rest.takeWhile (· ≠ '"') ++ ['"']) ::
              findTokensF f ((rest.dropWhile (· ≠ '"')).drop 1)
          else findTokensF f rest) =
          (if isIdentStart c = true then
            (c :: rest.takeWhile isIdentCont) :: findTokensF f2' (rest.dropWhile isIdentCont)
          else if c = '{' then
            if rest.dropWhile (· ≠ '}') = [] then findTokensF f2' rest
            else ('{' :: rest.takeWhile (· ≠ '}') ++ ['}']) ::
              findTokensF f2' ((rest.dropWhile (· ≠ '}')).drop 1)
          else if c = '\'' then
            if rest.takeWhile (· ≠ '\'') = [] ∨ rest.dropWhile (· ≠ '\'') = [] then
              findTokensF f2' rest
            else ('\'' :: rest.takeWhile (· ≠ '\'') ++ ['\'']) ::
              findTokensF f2' ((rest.dropWhile (· ≠ '\'')).drop 1)
          else if c = '"' then
            if rest.takeWhile (· ≠ '"') = [] ∨ rest.dropWhile (· ≠ '"') = [] then
              findTokensF f2' rest
            else ('"' :: rest.takeWhile (· ≠ '"') ++ ['"']) ::
              findTokensF f2' ((rest.dropWhile (· ≠ '"')).drop 1)
          else findTokensF f2' rest)
        have hdw : ∀ (p : Char → Bool), (rest.dropWhile p).length ≤ rest.length :=
          fun p => length_dropWhile_le p rest
        have hdwd : ∀ (p : Char → Bool), ((rest.dropWhile p).drop 1).length ≤ rest.length :=
          fun p => le_trans (length_drop_le_self 1 (rest.dropWhile p)) (hdw p)
        by_cases hident : isIdentStart c = true
        · rw [if_pos hident, if_pos hident]
          exact congrArg _ (ih _ f2' (lt_of_le_of_lt (hdw _) hr1)
            (lt_of_le_of_lt (hdw _) hr2))
        · rw [if_neg hident, if_neg hident]
          by_cases hbr : c = '{'
          · rw [if_pos hbr, if_pos hbr]
            by_cases hdz : rest.dropWhile (· ≠ '}') = []
            · rw [if_pos hdz, if_pos hdz]
              exact ih rest f2' hr1 hr2
            · rw [if_neg hdz, if_neg hdz]
              exact congrArg _ (ih _ f2' (lt_of_le_of_lt (hdwd _) hr1)
                (lt_of_le_of_lt (hdwd _) hr2))
          · rw [if_neg hbr, if_neg hbr]
            by_cases hq1 : c = '\''
            · rw [if_pos hq1, if_pos hq1]
              by_cases hdz : rest.takeWhile (· ≠ '\'') = [] ∨ rest.dropWhile (· ≠ '\'') = []
              · rw [if_pos hdz, if_pos hdz]
                exact ih rest f2' hr1 hr2
              · rw [if_neg hdz, if_neg hdz]
                exact congrArg _ (ih _ f2' (lt_of_le_of_lt (hdwd _) hr1)
                  (lt_of_le_of_lt (hdwd _) hr2))
            · rw [if_neg hq1, if_neg hq1]
              by_cases hq2 : c = '"'
              · rw [if_pos hq2, if_pos hq2]
                by_cases hdz : rest.takeWhile (· ≠ '"') = [] ∨ rest.dropWhile (· ≠ '"') = []
                · rw [if_pos hdz, if_pos hdz]
                  exact ih rest f2' hr1 hr2
                · rw [if_neg hdz, if_neg hdz]
                  exact congrArg _ (ih _ f2' (lt_of_le_of_lt (hdwd _) hr1)
                    (lt_of_le_of_lt (hdwd _) hr2))
              · rw [if_neg hq2, if_neg hq2]
                exact ih rest f2' hr1 hr2

/-- Scanner step: a character matching no alternative is skipped. -/
theorem findTokens_skip (c : Char) (rest : Str) (h1 : isIdentStart c = false)
    (h2 : c ≠ '{') (h3 : c ≠ '\'') (h4 : c ≠ '"') :
    findTokens (c :: rest) = findTokens rest := by
  show findTokensF (rest.length + 1 + 1) (c :: rest) = findTokensF (rest.length + 1) rest
  show (if isIdentStart c = true then _ else if c = '{' then _ else if c = '\'' then _
    else if c = '"' then _ else findTokensF (rest.length + 1) rest) = _
  rw [if_neg (by rw [h1]; exact Bool.false_ne_true), if_neg h2, if_neg h3, if_neg h4]

/-- Scanner step: an identifier run. -/
theorem findTokens_ident (c : Char) (rest : Str) (h : isIdentStart c = true) :
    findTokens (c :: rest) =
      (c :: rest.takeWhile isIdentCont) :: findTokens (rest.dropWhile isIdentCont) := by
  show findTokensF (rest.length + 1 + 1) (c :: rest) = _
  show (if isIdentStart c = true then
      (c :: rest.takeWhile isIdentCont) ::
        findTokensF (rest.length + 1) (rest.dropWhile isIdentCont)
    else _) = _
  rw [if_pos h]
  exact congrArg _ (findTokensF_fuel _ _ _
    (Nat.lt_succ_of_le (length_dropWhile_le _ rest)) (Nat.lt_succ_self _))

/-- Scanner step: a single-quoted token. -/
theorem findTokens_quote (rest : Str) (h1 : rest.takeWhile (· ≠ '\'') ≠ [])
    (h2 : rest.dropWhile (· ≠ '\'') ≠ []) :
    findTokens ('\'' :: rest) =
      ('\'' :: rest.takeWhile (· ≠ '\'') ++ ['\'']) ::
        findTokens ((rest.dropWhile (· ≠ '\'')).drop 1) := by
  show findTokensF (rest.length + 1 + 1) ('\'' :: rest) = _
  show (if isIdentStart '\'' = true then _ else if '\'' = '{' then _
    else if '\'' = '\'' then
      if rest.takeWhile (· ≠ '\'') = [] ∨ rest.dropWhile (· ≠ '\'') = [] then
        findTokensF (rest.length + 1) rest
      else ('\'' :: rest.takeWhile (· ≠ '\'') ++ ['\'']) ::
        findTokensF (rest.length + 1) ((rest.dropWhile (· ≠ '\'')).drop 1)
    else _) = _
  rw [if_neg (by exact Bool.false_ne_true), if_neg (by decide), if_pos rfl,
    if_neg (by rintro (h | h); exacts [h1 h, h2 h])]
  refine congrArg _ (findTokensF_fuel _ _ _ ?_ (Nat.lt_succ_self _))
  exact Nat.lt_succ_of_le (le_trans
    (length_drop_le_self 1 (rest.dropWhile (· ≠ '\'')))
    (length_dropWhile_le _ rest))

/-- The `@attribute` line the writer emits for a quote-free name and an
integer/string type. -/
def c1TypeWord : AType → Str
  | .integer => "integer".toList
  | _ => "string".toList

def c1AttrLine (n : Str) (t : AType) : Str :=
  "@attribute ".toList ++ (('\'' :: n) ++ ['\'']) ++ (' ' :: c1TypeWord t)

theorem findTokens_attr_line (n : Str) (w : Str) (hn : n ≠ []) (hq : '\'' ∉ n)
    (hw : findTokens w = [w]) :
    findTokens ("@attribute ".toList ++ (('\'' :: n) ++ ['\'']) ++ (' ' :: w)) =
      ["attribute".toList, ('\'' :: n) ++ ['\''], w] := by
  rw [List.append_assoc]
  show findTokens ('@' :: ("attribute ".toList ++ ((('\'' :: n) ++ ['\'']) ++ (' ' :: w)))) = _
  rw [findTokens_skip '@' _ (by decide) (by decide) (by decide) (by decide)]
  show findTokens ('a' :: ("ttribute ".toList ++ ((('\'' :: n) ++ ['\'']) ++ (' ' :: w)))) = _
  rw [findTokens_ident 'a' _ (by decide)]
  have hre : "ttribute ".toList ++ ((('\'' :: n) ++ ['\'']) ++ (' ' :: w)) =
      "ttribute".toList ++ (' ' :: ((('\'' :: n) ++ ['\'']) ++ (' ' :: w))) := by
    show ("ttribute".toList ++ [' ']) ++ ((('\'' :: n) ++ ['\'']) ++ (' ' :: w)) = _
    rw [List.append_assoc]
    rfl
  rw [hre, takeWhile_append_all _ _ (by decide), dropWhile_append_all _ _ (by decide),
    takeWhile_cons_false _ (by decide), dropWhile_cons_false _ (by decide),
    List.append_nil]
  rw [findTokens_skip ' ' _ (by decide) (by decide) (by decide) (by decide)]
  have hre2 : (('\'' :: n) ++ ['\'']) ++ (' ' :: w) = '\'' :: (n ++ ('\'' :: ' ' :: w)) := by
    simp
  rw [hre2]
  have hnq : ∀ c ∈ n, (fun x => decide (x ≠ '\'')) c = true :=
    fun c hc => decide_eq_true (fun he => hq (he ▸ hc))
  have htw : (n ++ ('\'' :: ' ' :: w)).takeWhile (fun x => decide (x ≠ '\'')) = n := by
    rw [takeWhile_append_all _ _ hnq, takeWhile_cons_false _ (by decide), List.append_nil]
  have hdw : (n ++ ('\'' :: ' ' :: w)).dropWhile (fun x => decide (x ≠ '\'')) =
      '\'' :: ' ' :: w := by
    rw [dropWhile_append_all _ _ hnq, dropWhile_cons_false _ (by decide)]
  rw [findTokens_quote _ (by rw [htw]; exact hn) (by rw [hdw]; exact List.cons_ne_nil _ _),
    htw, hdw]
  show (("attribute".toList : Str) :: (('\'' :: n) ++ ['\'']) :: findTokens (' ' :: w)) = _
  rw [findTokens_skip ' ' _ (by decide) (by decide) (by decide) (by decide), hw]

theorem pystrip_quoted (n : Str) : pystrip (('\'' :: n) ++ ['\'']) = ('\'' :: n) ++ ['\''] := by
  apply pystrip_nosp
  · intro c hc
    have : c = '\'' := by
      rw [show (('\'' :: n) ++ ['\'']) = '\'' :: (n ++ ['\'']) from rfl] at hc
      exact (Option.some.inj hc).symm
    rw [this]
    rfl
  · intro c hc
    rw [List.getLast?_concat] at hc
    rw [(Option.some.inj hc).symm]
    rfl

theorem stripQuotes_quoted (n : Str) : stripQuotes (('\'' :: n) ++ ['\'']) = n := by
  show (match (n ++ ['\'']).getLast? with
    | some c => if isQuoteChar c = true then (n ++ ['\'']).dropLast else n ++ ['\'']
    | none => n ++ ['\'']) = n
  rw [List.getLast?_concat]
  show (n ++ ['\'']).dropLast = n
  exact List.dropLast_concat

theorem pySplitWsAux_nosp : ∀ (r acc : Str), (∀ c ∈ r, pyIsSpace c = false) →
    (acc ≠ [] ∨ r ≠ []) → pySplitWsAux acc r = [acc.reverse ++ r] := by
  intro r
  induction r with
  | nil =>
    intro acc _ hne
    have hacc : acc ≠ [] := by
      rcases hne with h | h
      · exact h
      · exact absurd rfl h
    show (if acc = [] then [] else [acc.reverse]) = [acc.reverse ++ []]
    rw [if_neg hacc, List.append_nil]
  | cons c r ih =>
    intro acc hs _
    have hc : pyIsSpace c = false := hs c (List.mem_cons_self c r)
    show (if pyIsSpace c = true then _ else pySplitWsAux (c :: acc) r) = _
    rw [if_neg (by rw [hc]; exact Bool.false_ne_true)]
    rw [ih (c :: acc) (fun x hx => hs x (List.mem_cons_of_mem c hx))
      (Or.inl (List.cons_ne_nil c acc))]
    rw [List.reverse_cons, List.append_assoc]
    rfl

theorem parse_relation_c1 (a : ArffFile) (r : Str) (hr : r ≠ [])
    (hs : ∀ c ∈ r, pyIsSpace c = false) :
    parse_relation a ("@relation ".toList ++ r) = Except.ok { a with relation := r } := by
  have h1 : pySplitWs ("@relation ".toList ++ r) =
      "@relation".toList :: pySplitWsAux [] r := rfl
  have hsplit : pySplitWs ("@relation ".toList ++ r) = ["@relation".toList, r] := by
    rw [h1, pySplitWsAux_nosp r [] hs (Or.inr hr)]
    rfl
  unfold parse_relation
  rw [hsplit]
  rfl

theorem startswith_rel (s : Str) :
    pyStartswith (pyLower ("@relation ".toList ++ s)) ("@relation ".toList) = true := by
  rw [pyLower_append]
  exact pyStartswith_append _ _

theorem rel_not_attr (s : Str) :
    pyStartswith (pyLower ("@relation ".toList ++ s)) ("@attribute ".toList) = false := by
  rw [pyLower_append]
  rfl

theorem rel_not_data (s : Str) :
    pyStartswith (pyLower ("@relation ".toList ++ s)) ("@data".toList) = false := by
  rw [pyLower_append]
  rfl

theorem attr_not_rel (s : Str) :
    pyStartswith (pyLower ("@attribute ".toList ++ s)) ("@relation ".toList) = false := by
  rw [pyLower_append]
  rfl

theorem startswith_attr (s : Str) :
    pyStartswith (pyLower ("@attribute ".toList ++ s)) ("@attribute ".toList) = true := by
  rw [pyLower_append]
  exact pyStartswith_append _ _

theorem attr_not_data (s : Str) :
    pyStartswith (pyLower ("@attribute ".toList ++ s)) ("@data".toList) = false := by
  rw [pyLower_append]
  rfl

theorem headerStep_rel (a : ArffFile) (r : Str) (hr : r ≠ [])
    (hs : ∀ c ∈ r, pyIsSpace c = false) :
    headerStep a ("@relation ".toList ++ r) = Except.ok { a with relation := r } := by
  simp only [headerStep]
  rw [startswith_rel r, rel_not_attr r, rel_not_data r, parse_relation_c1 a r hr hs]
  rfl

/-- The state `define_attribute` produces for a fresh attribute. -/
def c1DefAttr (a : ArffFile) (n : Str) (t : AType) : ArffFile :=
  { a with attributes := a.attributes ++ [n], attribute_types := dset a.attribute_types n t, attribute_data := dset a.attribute_data n .pynone }

theorem parse_attribute_c1 (a : ArffFile) (n : Str) (t : AType) (hn : n ≠ [])
    (hq : '\'' ∉ n) (ht : t = .integer ∨ t = .string) :
    parse_attribute a (c1AttrLine n t) = Except.ok (c1DefAttr a n t) := by
  have hw : findTokens (c1TypeWord t) = [c1TypeWord t] := by
    rcases ht with h | h <;> rw [h] <;> rfl
  have htk : findTokens (c1AttrLine n t) =
      ["attribute".toList, ('\'' :: n) ++ ['\''], c1TypeWord t] :=
    findTokens_attr_line n (c1TypeWord t) hn hq hw
  have hmap : (findTokens (c1AttrLine n t)).map pystrip =
      ["attribute".toList, ('\'' :: n) ++ ['\''], c1TypeWord t] := by
    rw [htk, List.map_cons, List.map_cons, List.map_cons, List.map_nil, pystrip_quoted]
    rcases ht with h | h <;> rw [h] <;> rfl
  unfold parse_attribute
  rw [hmap]
  rcases ht with h | h <;> subst h
  · show define_attribute a (stripQuotes (('\'' :: n) ++ ['\''])) .integer .pynone = _
    rw [stripQuotes_quoted]
    rfl
  · show define_attribute a (stripQuotes (('\'' :: n) ++ ['\''])) .string .pynone = _
    rw [stripQuotes_quoted]
    rfl

theorem c1DefAttr_fields (a : ArffFile) (n : Str) (t : AType) :
    (c1DefAttr a n t).attributes = a.attributes ++ [n] ∧
    (c1DefAttr a n t).attribute_types = dset a.attribute_types n t ∧
    (c1DefAttr a n t).state = a.state ∧
    (c1DefAttr a n t).relation = a.relation ∧
    (c1DefAttr a n t).data = a.data ∧
    (c1DefAttr a n t).fout = a.fout ∧
    (c1DefAttr a n t).comment = a.comment :=
  ⟨rfl, rfl, rfl, rfl, rfl, rfl, rfl⟩

theorem headerStep_attr (a : ArffFile) (n : Str) (t : AType) (hn : n ≠ [])
    (hq : '\'' ∉ n) (ht : t = .integer ∨ t = .string) :
    headerStep a (c1AttrLine n t) = Except.ok (c1DefAttr a n t) := by
  have hassoc : c1AttrLine n t =
      "@attribute ".toList ++ ((('\'' :: n) ++ ['\'']) ++ (' ' :: c1TypeWord t)) := by
    unfold c1AttrLine
    rw [List.append_assoc]
  simp only [headerStep]
  rw [hassoc, attr_not_rel _, startswith_attr _, attr_not_data _]
  show (parse_attribute a ("@attribute ".toList ++
      ((('\'' :: n) ++ ['\'']) ++ (' ' :: c1TypeWord t))) >>= fun a2 => Except.ok a2) =
    Except.ok (c1DefAttr a n t)
  rw [← hassoc, parse_attribute_c1 a n t hn hq ht]
  rfl

theorem headerStep_data (a : ArffFile) :
    headerStep a ("@data".toList) = Except.ok { a with state := .data } := rfl

theorem parseline_in_header (a : ArffFile) (l : Str) (hst : a.state = .in_header) :
    parseline a l = headerStep a l := by
  unfold parseline
  rw [hst]

theorem parseline_comment_off (a : ArffFile) (l : Str) (hst : a.state = .comment)
    (hhead : l.head? ≠ some '%') :
    parseline a l =
      headerStep { a with comment := .strg (joinComment a.comment), state := .in_header } l := by
  unfold parseline
  rw [hst]
  show (if l ≠ [] ∧ l.head? = some '%' then _ else
    headerStep { a with comment := .strg (joinComment a.comment), state := .in_header } l) = _
  rw [if_neg (fun h => hhead h.2)]

theorem parseline_data_state (a : ArffFile) (l : Str) (hst : a.state = .data)
    (hne : l ≠ []) (hhead : l.head? ≠ some '%') :
    parseline a l = parse_data a (.text l) := by
  unfold parseline
  rw [hst]
  show (if l ≠ [] ∧ l.head? ≠ some '%' then parse_data a (.text l) else Except.ok a) = _
  rw [if_pos ⟨hne, hhead⟩]

theorem parseLoop_cons (a : ArffFile) (l : Str) (rest : List Str) :
    parseLoop false a (l :: rest) =
      (parseline a l) >>= fun a1 => parseLoop false { a1 with lineno := a1.lineno + 1 } rest :=
  rfl

/-- The text the sparse writer emits for a benign cell. -/
def c1CellStr : PyObj → Str
  | .val ⟨.integer, .int k, _⟩ => intToStr k
  | .val ⟨.string, .str s, _⟩ => ('"' :: s) ++ ['"']
  | _ => []

/-- A benign row cell for the amended C1 claim: a class-flag-free `Value`
whose payload matches the declared integer/string type, string payloads free
of the characters that the sparse line format reserves and of every
line-break character that `str.splitlines` would split at. -/
def GoodCell : AType → PyObj → Prop
  | .integer, v => ∃ k : ℤ, v = .val ⟨.integer, .int k, false⟩
  | .string, v => ∃ s : Str, v = .val ⟨.string, .str s, false⟩ ∧ ',' ∉ s ∧
      (∀ c ∈ s, isLineBreak c = false) ∧ '?' ∉ s
  | _, _ => False

/-- The `<index> <value>` tokens of a benign row, in schema order. -/
def c1Toks : ℕ → List (Str × PyObj) → List Str
  | _, [] => []
  | i, e :: rest => (natToStr i ++ ' ' :: c1CellStr e.2) :: c1Toks (i + 1) rest

theorem dlookup_self_of_nodup {α : Type} :
    ∀ (d : List (Str × α)), (d.map Prod.fst).Nodup → ∀ e ∈ d, dlookup d e.1 = some e.2 := by
  intro d
  induction d with
  | nil => intro _ e he; cases he
  | cons kv rest ih =>
    intro hnod e he
    rw [List.map_cons, List.nodup_cons] at hnod
    rcases List.mem_cons.mp he with h | h
    · subst h
      show (if e.1 = e.1 then some e.2 else dlookup rest e.1) = some e.2
      simp
    · have hne : kv.1 ≠ e.1 := by
        intro hx
        exact hnod.1 (hx ▸ List.mem_map.mpr ⟨e, h, rfl⟩)
      show (if kv.1 = e.1 then some kv.2 else dlookup rest e.1) = some e.2
      rw [if_neg hne]
      exact ih hnod.2 e h

theorem sparseTokensGo_c1 (a : ArffFile) (d : List (Str × PyObj)) :
    ∀ (suffix : List (Str × PyObj)) (i : ℕ) (line : List Str),
      (∀ e ∈ suffix, dlookup d e.1 = some e.2 ∧
        ∃ t, dlookup a.attribute_types e.1 = some t ∧ GoodCell t e.2) →
      sparseTokensGo a d i (suffix.map Prod.fst) line =
        Except.ok (line ++ c1Toks i suffix) := by
  intro suffix
  induction suffix with
  | nil =>
    intro i line _
    show Except.ok line = Except.ok (line ++ [])
    rw [List.append_nil]
  | cons e rest ih =>
    intro i line hg
    obtain ⟨hl, t, ht, hcell⟩ := hg e (List.mem_cons_self e rest)
    have hrest := fun e2 he2 => hg e2 (List.mem_cons_of_mem e he2)
    have hT : c1Toks i (e :: rest) =
        (natToStr i ++ ' ' :: c1CellStr e.2) :: c1Toks (i + 1) rest := rfl
    rw [hT]
    show (match dlookup d e.1 with
      | none => sparseTokensGo a d (i + 1) (rest.map Prod.fst) line
      | some v => do
        let rv ← resolveValue a e.1 v
        let keep ← keepColumn a e.1 rv
        sparseTokensGo a d (i + 1) (rest.map Prod.fst)
          (if keep then line ++ [natToStr i ++ ' ' :: pyStr (smartQuote rv)] else line)) =
      Except.ok (line ++ (natToStr i ++ ' ' :: c1CellStr e.2) :: c1Toks (i + 1) rest)
    rw [hl]
    cases t with
    | integer =>
      obtain ⟨k, hv⟩ := hcell
      rw [hv]
      have hres : resolveValue a e.1 (.val ⟨.integer, .int k, false⟩) =
          Except.ok (.int k) := rfl
      have hkeep : keepColumn a e.1 (.int k) = Except.ok true := by
        show (getOrKeyError (dlookup a.attribute_types e.1) >>= fun t =>
          if t = AType.nominal then do
            let dat ← getOrKeyError (dlookup a.attribute_data e.1)
            let members ← memberStrs dat
            pure (members.contains (pyStr (.int k)))
          else pure true) = Except.ok true
        rw [ht]
        rfl
      show (resolveValue a e.1 (.val ⟨.integer, .int k, false⟩) >>= fun rv =>
        keepColumn a e.1 rv >>= fun keep =>
        sparseTokensGo a d (i + 1) (rest.map Prod.fst)
          (if keep then line ++ [natToStr i ++ ' ' :: pyStr (smartQuote rv)] else line)) = _
      rw [hres, exceptBind_ok]
      show (keepColumn a e.1 (.int k) >>= fun keep =>
        sparseTokensGo a d (i + 1) (rest.map Prod.fst)
          (if keep then line ++ [natToStr i ++ ' ' :: pyStr (smartQuote (.int k))]
           else line)) = _
      rw [hkeep, exceptBind_ok]
      show sparseTokensGo a d (i + 1) (rest.map Prod.fst)
        (line ++ [natToStr i ++ ' ' :: intToStr k]) = _
      rw [ih (i + 1) _ hrest]
      rw [List.append_assoc]
      rfl
    | string =>
      obtain ⟨sv, hv, hns1, hns2, hns3⟩ := hcell
      rw [hv]
      have hsne : sv ≠ MISSING := by
        intro hx
        exact hns3 (hx ▸ List.mem_singleton.mpr rfl)
      have hm : PyVal.eq (.str sv) (.str MISSING) = false := by
        show decide (sv = MISSING) = false
        exact decide_eq_false hsne
      have hres : resolveValue a e.1 (.val ⟨.string, .str sv, false⟩) =
          Except.ok (.str (('"' :: sv) ++ ['"'])) := by
        show (if (false || PyVal.eq (.str sv) (.str MISSING)) = true then
            (Except.ok (PyVal.str MISSING) : Except Str PyVal)
          else Except.ok (PyVal.str (('"' :: pyStr (PyVal.str sv)) ++ ['"']))) =
          Except.ok (PyVal.str (('"' :: sv) ++ ['"']))
        rw [hm]
        rfl
      have hbigne : ('"' :: sv) ++ ['"'] ≠ MISSING := by
        intro hx
        rw [List.cons_append] at hx
        injection hx with h1 _
        exact absurd h1 (by decide)
      have hmiss2 : PyVal.isMissing (.str (('"' :: sv) ++ ['"'])) = false := by
        show decide (('"' :: sv) ++ ['"'] = MISSING) = false
        exact decide_eq_false hbigne
      have hkeep : keepColumn a e.1 (.str (('"' :: sv) ++ ['"'])) = Except.ok true := by
        show (if ¬ PyVal.isMissing (.str (('"' :: sv) ++ ['"'])) = true then
            (getOrKeyError (dlookup a.attribute_types e.1) >>= fun t =>
              if t = AType.nominal then do
                let dat ← getOrKeyError (dlookup a.attribute_data e.1)
                let members ← memberStrs dat
                pure (members.contains (pyStr (.str (('"' :: sv) ++ ['"']))))
              else pure true)
          else pure true) = Except.ok true
        rw [hmiss2, ht]
        rfl
      have hsq : pyStr (smartQuote (.str (('"' :: sv) ++ ['"']))) = ('"' :: sv) ++ ['"'] := by
        show pyStr (if strContains (('"' :: sv) ++ ['"']) [' '] = true ∧
            (('"' :: sv) ++ ['"']).head? ≠ some '"' then
            PyVal.str (('"' :: (('"' :: sv) ++ ['"'])) ++ ['"'])
          else PyVal.str (('"' :: sv) ++ ['"'])) = ('"' :: sv) ++ ['"']
        rw [if_neg (fun h => h.2 rfl)]
        rfl
      show (resolveValue a e.1 (.val ⟨.string, .str sv, false⟩) >>= fun rv =>
        keepColumn a e.1 rv >>= fun keep =>
        sparseTokensGo a d (i + 1) (rest.map Prod.fst)
          (if keep then line ++ [natToStr i ++ ' ' :: pyStr (smartQuote rv)] else line)) = _
      rw [hres, exceptBind_ok]
      show (keepColumn a e.1 (.str (('"' :: sv) ++ ['"'])) >>= fun keep =>
        sparseTokensGo a d (i + 1) (rest.map Prod.fst)
          (if keep then
            line ++ [natToStr i ++ ' ' :: pyStr (smartQuote (.str (('"' :: sv) ++ ['"'])))]
           else line)) = _
      rw [hkeep, exceptBind_ok]
      show sparseTokensGo a d (i + 1) (rest.map Prod.fst)
        (line ++ [natToStr i ++ ' ' :: pyStr (smartQuote (.str (('"' :: sv) ++ ['"'])))]) = _
      rw [hsq, ih (i + 1) _ hrest]
      rw [List.append_assoc]
      rfl
    | numeric => cases hcell
    | real => cases hcell
    | nominal => cases hcell
    | date => cases hcell

theorem digit_ne_qmark (c : Char) (h : c.isDigit = true) : c ≠ '?' := by
  intro he
  subst he
  cases h

theorem c1Toks_no_qmark :
    ∀ (entries : List (Str × PyObj)) (i : ℕ),
      (∀ e ∈ entries, ∃ t, GoodCell t e.2) →
      ∀ tok ∈ c1Toks i entries, '?' ∉ tok := by
  intro entries
  induction entries with
  | nil => intro i _ tok htok; cases htok
  | cons e rest ih =>
    intro i hg tok htok
    rcases List.mem_cons.mp htok with h | h
    · subst h
      intro hmem
      rcases List.mem_append.mp hmem with h1 | h1
      · exact absurd (natToStr_all_digits i '?' h1) (by decide)
      · rcases List.mem_cons.mp h1 with h2 | h2
        · exact absurd h2 (by decide)
        · obtain ⟨t, hcell⟩ := hg e (List.mem_cons_self e rest)
          cases t with
          | integer =>
            obtain ⟨k, hv⟩ := hcell
            rw [hv] at h2
            rcases intToStr_chars k '?' h2 with hd | hd
            · exact absurd hd (by decide)
            · exact absurd hd (by decide)
          | string =>
            obtain ⟨sv, hv, _, _, hq⟩ := hcell
            rw [hv] at h2
            show False
            have h3 : '?' ∈ ('"' :: sv) ++ ['"'] := h2
            rcases List.mem_append.mp h3 with h4 | h4
            · rcases List.mem_cons.mp h4 with h5 | h5
              · exact absurd h5 (by decide)
              · exact hq h5
            · rcases List.mem_singleton.mp h4 with h5
              exact absurd h5 (by decide)
          | numeric => cases hcell
          | real => cases hcell
          | nominal => cases hcell
          | date => cases hcell
    · exact ih (i + 1) (fun e2 he2 => hg e2 (List.mem_cons_of_mem e he2)) tok h

theorem contains_eq_false_of_not_mem {c : Char} {l : Str} (h : c ∉ l) :
    l.contains c = false := by
  cases hc : l.contains c
  · rfl
  · exact absurd (List.mem_of_elem_eq_true hc) h

theorem write_line_c1 (a : ArffFile) (d : List (Str × PyObj))
    (hne : d ≠ [])
    (hmap : d.map Prod.fst = a.attributes)
    (hnod : (d.map Prod.fst).Nodup)
    (hg : ∀ e ∈ d, ∃ t, dlookup a.attribute_types e.1 = some t ∧ GoodCell t e.2) :
    write_line a (.dct d) .sparse =
      Except.ok (some (('{' :: List.intercalate (", ".toList) (c1Toks 0 d)) ++ ['}'])) := by
  have htoks : sparseTokens a d = Except.ok (c1Toks 0 d) := by
    unfold sparseTokens
    rw [← hmap,
      sparseTokensGo_c1 a d d 0 [] (fun e he => ⟨dlookup_self_of_nodup d hnod e he, hg e he⟩)]
    rfl
  have hqfree : ∀ tok ∈ c1Toks 0 d, '?' ∉ tok :=
    c1Toks_no_qmark d 0 (fun e he => (hg e he).elim (fun t ht => ⟨t, ht.2⟩))
  have hncond1 : ¬ ((c1Toks 0 d).length = 1 ∧
      strContains ((c1Toks 0 d).getLast?.getD []) MISSING = true) := by
    rintro ⟨h1, h2⟩
    cases hts : c1Toks 0 d with
    | nil => rw [hts] at h1; cases h1
    | cons tok rest =>
      rw [hts] at h1 h2
      cases rest with
      | cons _ _ => simp at h1
      | nil =>
        have hlast : ([tok] : List Str).getLast?.getD [] = tok := rfl
        rw [hlast] at h2
        rw [show MISSING = ['?'] from rfl, strContains_single tok '?',
          contains_eq_false_of_not_mem (hqfree tok (hts ▸ List.mem_cons_self tok []))] at h2
        cases h2
  have hncond2 : ¬ (c1Toks 0 d = []) := by
    cases d with
    | nil => exact absurd rfl hne
    | cons e rest => exact fun h => by cases h
  show (sparseTokens a d >>= fun toks =>
    if toks.length = 1 ∧ strContains (toks.getLast?.getD []) MISSING = true then
      Except.ok none
    else if toks = [] then Except.ok none
    else Except.ok (some (('{' :: List.intercalate (", ".toList) toks) ++ ['}']))) = _
  rw [htoks, exceptBind_ok]
  show (if (c1Toks 0 d).length = 1 ∧
      strContains ((c1Toks 0 d).getLast?.getD []) MISSING = true then
      Except.ok none
    else if c1Toks 0 d = [] then Except.ok none
    else Except.ok (some (('{' :: List.intercalate (", ".toList) (c1Toks 0 d)) ++ ['}']))) = _
  rw [if_neg hncond1, if_neg hncond2]

/-- A benign dict row for the amended C1 claim. -/
def GoodRow (a : ArffFile) (row : Row) : Prop :=
  ∃ d, row = Row.dct d ∧ d ≠ [] ∧ d.map Prod.fst = a.attributes ∧
    ∀ e ∈ d, ∃ t, dlookup a.attribute_types e.1 = some t ∧ GoodCell t e.2

/-- The sparse line the writer emits for a benign row. -/
def c1RowLine : Row → Str
  | .dct d => ('{' :: List.intercalate (", ".toList) (c1Toks 0 d)) ++ ['}']
  | .lst _ => []

theorem writeRows_c1 (a : ArffFile) (hnod : a.attributes.Nodup) :
    ∀ rows, (∀ row ∈ rows, GoodRow a row) →
      writeRows a .sparse rows = Except.ok (rows.map c1RowLine) := by
  intro rows
  induction rows with
  | nil => intro _; rfl
  | cons row rest ih =>
    intro hg
    obtain ⟨d, hrow, hne, hmap, hcells⟩ := hg row (List.mem_cons_self row rest)
    have hwl := write_line_c1 a d hne hmap (hmap ▸ hnod) hcells
    show (write_line a row .sparse >>= fun ls =>
      writeRows a .sparse rest >>= fun tail =>
      match ls with
      | some t => if t ≠ [] then pure (t :: tail) else pure tail
      | none => pure tail) = _
    rw [hrow]
    rw [hwl, exceptBind_ok, ih (fun r hr => hg r (List.mem_cons_of_mem row hr)),
      exceptBind_ok]
    show (if (('{' :: List.intercalate (", ".toList) (c1Toks 0 d)) ++ ['}']) ≠ [] then
        (pure ((('{' :: List.intercalate (", ".toList) (c1Toks 0 d)) ++ ['}']) ::
          rest.map c1RowLine) : Except Str (List Str))
      else pure (rest.map c1RowLine)) =
      Except.ok (c1RowLine (.dct d) :: rest.map c1RowLine)
    rw [if_pos (by rw [List.cons_append]; exact List.cons_ne_nil _ _)]
    rfl

theorem write_attributes_c1 (a : ArffFile)
    (hg : ∀ n ∈ a.attributes, n ≠ [] ∧ '\'' ∉ n ∧
      (dlookup a.attribute_types n = some .integer ∨
       dlookup a.attribute_types n = some .string)) :
    write_attributes a = Except.ok (a.attributes.map (fun n =>
      c1AttrLine n ((dlookup a.attribute_types n).getD .integer))) := by
  have main : ∀ (ns : List Str) (acc : List Str),
      (∀ n ∈ ns, n ≠ [] ∧ '\'' ∉ n ∧
        (dlookup a.attribute_types n = some .integer ∨
         dlookup a.attribute_types n = some .string)) →
      ns.foldlM (fun acc name => do
        let t ← getOrKeyError (dlookup a.attribute_types name)
        match t with
        | .integer =>
          pure (acc ++ ["@attribute ".toList ++ esc name ++ " integer".toList])
        | .numeric | .real =>
          pure (acc ++ ["@attribute ".toList ++ esc name ++ " numeric".toList])
        | .string =>
          pure (acc ++ ["@attribute ".toList ++ esc name ++ " string".toList])
        | .nominal => do
          let dat ← getOrKeyError (dlookup a.attribute_data name)
          let vals ←
            match dat with
            | .nomset vs =>
              Except.ok (sortPyVals (vs.filter (fun v => ¬ PyVal.eq v (.str MISSING))))
            | .pynone => Except.error ("TypeError: NoneType is not iterable".toList)
            | .datefmt s =>
              Except.ok (sortPyVals ((s.filter (· ≠ '?')).map (fun c => PyVal.str [c])))
          pure (acc ++ ["@attribute ".toList ++ esc name ++ (' ' :: '{' ::
            List.intercalate [','] (vals.map pyStr)) ++ ['}']])
        | .date =>
          pure (acc ++ ["@attribute ".toList ++ esc name ++ " date \"".toList ++
            attrDataPercentS (dlookup a.attribute_data name) ++ ['"']])) acc =
        Except.ok (acc ++ ns.map (fun n =>
          c1AttrLine n ((dlookup a.attribute_types n).getD .integer))) := by
    intro ns
    induction ns with
    | nil =>
      intro acc _
      show Except.ok acc = Except.ok (acc ++ [])
      rw [List.append_nil]
    | cons n rest ih =>
      intro acc hga
      obtain ⟨hne, hq, hty⟩ := hga n (List.mem_cons_self n rest)
      rcases hty with hty | hty
      · rw [List.foldlM_cons]
        rw [hty]
        show (rest.foldlM _
          (acc ++ ["@attribute ".toList ++ esc n ++ " integer".toList])) = _
        rw [ih _ (fun n2 hn2 => hga n2 (List.mem_cons_of_mem n hn2)),
          esc_safe n hne hq]
        rw [List.map_cons, hty]
        show Except.ok ((acc ++ [_]) ++ _) = _
        rw [List.append_assoc]
        rfl
      · rw [List.foldlM_cons]
        rw [hty]
        show (rest.foldlM _
          (acc ++ ["@attribute ".toList ++ esc n ++ " string".toList])) = _
        rw [ih _ (fun n2 hn2 => hga n2 (List.mem_cons_of_mem n hn2)),
          esc_safe n hne hq]
        rw [List.map_cons, hty]
        show Except.ok ((acc ++ [_]) ++ _) = _
        rw [List.append_assoc]
        rfl
  exact main a.attributes [] hg

theorem write_c1 (a : ArffFile)
    (hcom : a.comment = .lst [])
    (hattrs : ∀ n ∈ a.attributes, n ≠ [] ∧ '\'' ∉ n ∧
      (dlookup a.attribute_types n = some .integer ∨
       dlookup a.attribute_types n = some .string))
    (hnod : a.attributes.Nodup)
    (hrows : ∀ row ∈ a.data, GoodRow a row) :
    write a .sparse false false = Except.ok (unlines (
      ("% ".toList) :: ("@relation ".toList ++ a.relation) ::
        (a.attributes.map (fun n =>
          c1AttrLine n ((dlookup a.attribute_types n).getD .integer)) ++
          ("@data".toList :: a.data.map c1RowLine)))) := by
  simp only [write]
  rw [hcom, write_attributes_c1 a hattrs, writeRows_c1 a hnod a.data hrows]
  rfl

theorem unlines_ne_nil (l : Str) (ls : List Str) : unlines (l :: ls) ≠ [] := by
  show l ++ '\n' :: unlines ls ≠ []
  simp

theorem pySplitChar_nosep (sep : Char) :
    ∀ (l t : Str), sep ∉ l → pySplitChar sep (l ++ sep :: t) = l :: pySplitChar sep t := by
  intro l
  induction l with
  | nil =>
    intro t _
    show (if sep = sep then [] :: pySplitChar sep t else _) = [] :: pySplitChar sep t
    rw [if_pos rfl]
  | cons c l ih =>
    intro t hmem
    have hc : c ≠ sep := fun he => hmem (he ▸ List.mem_cons_self c l)
    show (if c = sep then [] :: pySplitChar sep (l ++ sep :: t)
      else match pySplitChar sep (l ++ sep :: t) with
      | [] => [[c]]
      | p :: ps => (c :: p) :: ps) = (c :: l) :: pySplitChar sep t
    rw [if_neg hc, ih t (fun hm => hmem (List.mem_cons_of_mem c hm))]

theorem pySplitChar_unlines :
    ∀ (ls : List Str), (∀ l ∈ ls, '\n' ∉ l) →
      pySplitChar '\n' (unlines ls) = ls ++ [[]] := by
  intro ls
  induction ls with
  | nil => intro _; rfl
  | cons l rest ih =>
    intro h
    show pySplitChar '\n' (l ++ '\n' :: unlines rest) = _
    rw [pySplitChar_nosep '\n' l (unlines rest) (h l (List.mem_cons_self l rest)),
      ih (fun l2 h2 => h l2 (List.mem_cons_of_mem l h2))]
    rfl

theorem getLast?_append_right (x y : Str) (h : y ≠ []) :
    (x ++ y).getLast? = y.getLast? := by
  rw [← List.head?_reverse, ← List.head?_reverse, List.reverse_append]
  cases hy : y.reverse with
  | nil => exact absurd (List.reverse_eq_nil_iff.mp hy) h
  | cons a t => rfl

theorem getLast?_unlines : ∀ (ls : List Str) (l : Str),
    (unlines (l :: ls)).getLast? = some '\n' := by
  intro ls
  induction ls with
  | nil =>
    intro l
    show (l ++ ['\n']).getLast? = some '\n'
    rw [List.getLast?_concat]
  | cons l2 rest ih =>
    intro l
    show (l ++ '\n' :: unlines (l2 :: rest)).getLast? = some '\n'
    rw [getLast?_append_right l _ (List.cons_ne_nil _ _),
      show ('\n' :: unlines (l2 :: rest)) = ['\n'] ++ unlines (l2 :: rest) from rfl,
      getLast?_append_right _ _ (unlines_ne_nil l2 rest)]
    exact ih l2

theorem strContains_crlf (s : Str) (h : '\r' ∉ s) :
    strContains s ['\r', '\n'] = false := by
  induction s with
  | nil => rfl
  | cons c r ih =>
    rw [strContains_cons]
    have hc : c ≠ '\r' := fun he => h (he ▸ List.mem_cons_self c r)
    have h1 : pyStartswith (c :: r) ['\r', '\n'] = false := by
      show (decide (c = '\r') && pyStartswith r ['\n']) = false
      rw [decide_eq_false hc, Bool.false_and]
    rw [h1, ih (fun hm => h (List.mem_cons_of_mem c hm))]
    rfl

theorem unlines_no_cr (ls : List Str)
    (h : ∀ l ∈ ls, ∀ c ∈ l, isLineBreak c = false) : '\r' ∉ unlines ls := by
  induction ls with
  | nil => intro hm; cases hm
  | cons l rest ih =>
    intro hm
    have hm2 : '\r' ∈ l ++ '\n' :: unlines rest := hm
    rcases List.mem_append.mp hm2 with h1 | h1
    · exact absurd (h l (List.mem_cons_self l rest) '\r' h1) (by decide)
    · rcases List.mem_cons.mp h1 with h2 | h2
      · exact absurd h2 (by decide)
      · exact ih (fun l2 hl2 => h l2 (List.mem_cons_of_mem l hl2)) h2

theorem splitlinesGo_cons (acc : List Char) (c : Char) (rest : Str) :
    splitlinesGo acc (c :: rest) =
      if isLineBreak c then acc.reverse :: splitlinesGo [] rest
      else splitlinesGo (c :: acc) rest := rfl

theorem splitlinesGo_append : ∀ (l : Str) (acc : List Char) (rest : Str),
    (∀ c ∈ l, isLineBreak c = false) →
    splitlinesGo acc (l ++ rest) = splitlinesGo (l.reverse ++ acc) rest := by
  intro l
  induction l with
  | nil => intro acc rest _; rfl
  | cons c r ih =>
    intro acc rest h
    have hc : isLineBreak c = false := h c (List.mem_cons_self c r)
    show (if isLineBreak c then acc.reverse :: splitlinesGo [] (r ++ rest)
      else splitlinesGo (c :: acc) (r ++ rest)) = _
    rw [hc]
    show splitlinesGo (c :: acc) (r ++ rest) = _
    rw [ih (c :: acc) rest (fun d hd => h d (List.mem_cons_of_mem c hd))]
    rw [show (c :: r).reverse ++ acc = r.reverse ++ (c :: acc) from by simp]

theorem splitlinesGo_unlines : ∀ (ls : List Str),
    (∀ l ∈ ls, ∀ c ∈ l, isLineBreak c = false) →
    splitlinesGo [] (unlines ls) = ls := by
  intro ls
  induction ls with
  | nil => intro _; rfl
  | cons l rest ih =>
    intro h
    show splitlinesGo [] (l ++ '\n' :: unlines rest) = l :: rest
    rw [splitlinesGo_append l [] ('\n' :: unlines rest) (h l (List.mem_cons_self l rest)),
      splitlinesGo_cons, if_pos (show isLineBreak '\n' = true from rfl),
      List.append_nil, List.reverse_reverse,
      ih (fun l2 hl2 => h l2 (List.mem_cons_of_mem l hl2))]

theorem splitlines_unlines (ls : List Str) (_hne : ls ≠ [])
    (h : ∀ l ∈ ls, ∀ c ∈ l, isLineBreak c = false) :
    splitlines (unlines ls) = ls := by
  unfold splitlines
  rw [show pyReplace (unlines ls) ['\r', '\n'] ['\n'] = unlines ls from
    pyReplace_no_occur _ _ _ _ (strContains_crlf _ (unlines_no_cr ls h))]
  exact splitlinesGo_unlines ls h

theorem splitEscCommaAux_cons (acc : Str) (c : Char) (r : Str) :
    splitEscCommaAux acc (c :: r) =
      if c = ',' then
        (if acc.head? = some '\\' then splitEscCommaAux (',' :: acc) r
         else acc.reverse :: splitEscCommaAux [] r)
      else splitEscCommaAux (c :: acc) r := by
  by_cases hc : c = ','
  · subst hc
    rw [if_pos rfl]
    rfl
  · rw [if_neg hc]
    unfold splitEscCommaAux
    split
    · rename_i heq
      cases heq
    · rename_i heq
      injection heq with h1 _
      exact absurd h1 hc
    · rename_i hnc heq
      injection heq with h1 h3
      subst h1
      subst h3
      exact splitEscCommaAux.eq_def _ _

theorem splitEscCommaAux_last : ∀ (t acc : Str), ',' ∉ t →
    splitEscCommaAux acc t = [acc.reverse ++ t] := by
  intro t
  induction t with
  | nil =>
    intro acc _
    show [acc.reverse] = [acc.reverse ++ []]
    rw [List.append_nil]
  | cons c r ih =>
    intro acc hmem
    have hc : c ≠ ',' := fun he => hmem (he ▸ List.mem_cons_self c r)
    rw [splitEscCommaAux_cons, if_neg hc,
      ih (c :: acc) (fun hm => hmem (List.mem_cons_of_mem c hm)),
      List.reverse_cons, List.append_assoc]
    rfl

theorem splitEscCommaAux_token : ∀ (t acc rest : Str), ',' ∉ t →
    (t.reverse ++ acc).head? ≠ some '\\' →
    splitEscCommaAux acc (t ++ ',' :: rest) =
      (acc.reverse ++ t) :: splitEscCommaAux [] rest := by
  intro t
  induction t with
  | nil =>
    intro acc rest _ hbs
    show splitEscCommaAux acc (',' :: rest) = (acc.reverse ++ []) :: splitEscCommaAux [] rest
    rw [splitEscCommaAux_cons, if_pos rfl, if_neg (by simpa using hbs), List.append_nil]
  | cons c t ih =>
    intro acc rest hmem hbs
    have hc : c ≠ ',' := fun he => hmem (he ▸ List.mem_cons_self c t)
    show splitEscCommaAux acc (c :: (t ++ ',' :: rest)) = _
    rw [splitEscCommaAux_cons, if_neg hc]
    have hbs2 : (t.reverse ++ (c :: acc)).head? ≠ some '\\' := by
      have he : t.reverse ++ (c :: acc) = (c :: t).reverse ++ acc := by
        rw [List.reverse_cons, List.append_assoc]
        rfl
      rw [he]
      exact hbs
    rw [ih (c :: acc) rest (fun hm => hmem (List.mem_cons_of_mem c hm)) hbs2,
      List.reverse_cons, List.append_assoc]
    rfl

theorem intercalate_cons2 (s x y : Str) (l : List Str) :
    List.intercalate s (x :: y :: l) = x ++ (s ++ List.intercalate s (y :: l)) := rfl

theorem splitEscCommaAux_int : ∀ (rest : List Str) (t0 acc : Str),
    ',' ∉ t0 → (t0.reverse ++ acc).head? ≠ some '\\' →
    (∀ tk ∈ rest, ',' ∉ tk ∧ tk.getLast? ≠ some '\\' ∧ tk ≠ []) →
    splitEscCommaAux acc (List.intercalate (", ".toList) (t0 :: rest)) =
      (acc.reverse ++ t0) :: rest.map (fun tk => ' ' :: tk) := by
  intro rest
  induction rest with
  | nil =>
    intro t0 acc hc _ _
    have hint : List.intercalate (", ".toList) [t0] = t0 := by
      show t0 ++ [] = t0
      rw [List.append_nil]
    rw [hint, splitEscCommaAux_last t0 acc hc]
    rfl
  | cons t1 rest ih =>
    intro t0 acc hc hbs hg
    rw [intercalate_cons2]
    show splitEscCommaAux acc (t0 ++ (',' :: ' ' ::
      List.intercalate (", ".toList) (t1 :: rest))) = _
    rw [splitEscCommaAux_token t0 acc _ hc hbs]
    obtain ⟨hc1, hbs1, hne1⟩ := hg t1 (List.mem_cons_self t1 rest)
    have hstep : splitEscCommaAux [] (' ' :: List.intercalate (", ".toList) (t1 :: rest)) =
        splitEscCommaAux [' '] (List.intercalate (", ".toList) (t1 :: rest)) := by
      rw [splitEscCommaAux_cons, if_neg (by decide)]
    have hbs2 : (t1.reverse ++ [' ']).head? ≠ some '\\' := by
      cases ht1 : t1.reverse with
      | nil => exact absurd (List.reverse_eq_nil_iff.mp ht1) hne1
      | cons a r =>
        show some a ≠ some '\\'
        intro hx
        apply hbs1
        rw [← List.head?_reverse, ht1]
        exact hx
    rw [hstep, ih t1 [' '] hc1 hbs2 (fun tk hm => hg tk (List.mem_cons_of_mem t1 hm))]
    rfl

theorem dset_append {α : Type} :
    ∀ (d : List (Str × α)) (k : Str) (v : α), dlookup d k = none →
      dset d k v = d ++ [(k, v)] := by
  intro d
  induction d with
  | nil => intro k v _; rfl
  | cons e rest ih =>
    intro k v h
    have hne : e.1 ≠ k := by
      intro hx
      have : dlookup (e :: rest) k = some e.2 := by
        show (if e.1 = k then some e.2 else dlookup rest k) = some e.2
        rw [if_pos hx]
      rw [this] at h
      cases h
    have hrest : dlookup rest k = none := by
      have h2 : dlookup (e :: rest) k = dlookup rest k := by
        show (if e.1 = k then some e.2 else dlookup rest k) = dlookup rest k
        rw [if_neg hne]
      rw [← h2]
      exact h
    show (if e.1 = k then (e.1, v) :: rest else e :: dset rest k v) = (e :: rest) ++ [(k, v)]
    rw [if_neg hne, ih k v hrest]
    rfl

theorem dlookup_append_none {α : Type} :
    ∀ (d1 d2 : List (Str × α)) (k : Str), dlookup d1 k = none →
      dlookup (d1 ++ d2) k = dlookup d2 k := by
  intro d1
  induction d1 with
  | nil => intro d2 k _; rfl
  | cons e rest ih =>
    intro d2 k h
    have hne : e.1 ≠ k := by
      intro hx
      have : dlookup (e :: rest) k = some e.2 := by
        show (if e.1 = k then some e.2 else dlookup rest k) = some e.2
        rw [if_pos hx]
      rw [this] at h
      cases h
    have hrest : dlookup rest k = none := by
      have h2 : dlookup (e :: rest) k = dlookup rest k := by
        show (if e.1 = k then some e.2 else dlookup rest k) = dlookup rest k
        rw [if_neg hne]
      rw [← h2]
      exact h
    show (if e.1 = k then some e.2 else dlookup (rest ++ d2) k) = dlookup d2 k
    rw [if_neg hne]
    exact ih d2 k hrest

theorem parseSparsePart_strip (a' : ArffFile) (dl : List (Str × PyObj)) (p : Str) :
    parseSparsePart a' dl (' ' :: p) = parseSparsePart a' dl p := by
  unfold parseSparsePart
  rw [pystrip_cons_space ' ' p rfl]

theorem matchIndexValue_tok (i : ℕ) (val : Str)
    (hv : ∀ c, val.head? = some c → pyIsSpace c = false) :
    matchIndexValue (natToStr i ++ ' ' :: val) = some (natToStr i, val) := by
  have h1 : (natToStr i ++ ' ' :: val).takeWhile Char.isDigit = natToStr i := by
    rw [takeWhile_append_all _ _ (natToStr_all_digits i),
      takeWhile_cons_false _ (by decide), List.append_nil]
  have h2 : (natToStr i ++ ' ' :: val).dropWhile Char.isDigit = ' ' :: val := by
    rw [dropWhile_append_all _ _ (natToStr_all_digits i),
      dropWhile_cons_false _ (by decide)]
  have h3 : (' ' :: val).takeWhile pyIsSpace = ' ' :: val.takeWhile pyIsSpace :=
    List.takeWhile_cons_of_pos rfl
  have h4 : (' ' :: val).dropWhile pyIsSpace = val := by
    rw [List.dropWhile_cons_of_pos rfl]
    cases val with
    | nil => rfl
    | cons c r => exact dropWhile_cons_false r (hv c rfl)
  show (if (natToStr i ++ ' ' :: val).takeWhile Char.isDigit = [] then none
    else
      if ((natToStr i ++ ' ' :: val).dropWhile Char.isDigit).takeWhile pyIsSpace = [] then
        none
      else some ((natToStr i ++ ' ' :: val).takeWhile Char.isDigit,
        ((natToStr i ++ ' ' :: val).dropWhile Char.isDigit).dropWhile pyIsSpace)) = _
  rw [h1, h2, h3, h4, if_neg (natToStr_ne_nil i), if_neg (List.cons_ne_nil _ _)]

theorem intToStr_ne_nil (k : ℤ) : intToStr k ≠ [] := by
  unfold intToStr
  by_cases h : k < 0
  · rw [if_pos h]; exact List.cons_ne_nil _ _
  · rw [if_neg h]; exact natToStr_ne_nil _

theorem intToStr_head (k : ℤ) :
    ∀ c, (intToStr k).head? = some c → c.isDigit = true ∨ c = '-' := by
  intro c hc
  have hm : c ∈ intToStr k := by
    cases hl : intToStr k with
    | nil => rw [hl] at hc; cases hc
    | cons x r =>
      rw [hl] at hc
      exact (Option.some.inj hc) ▸ List.mem_cons_self x r
  exact intToStr_chars k c hm

theorem intToStr_getLast (k : ℤ) :
    ∀ c, (intToStr k).getLast? = some c → c.isDigit = true := by
  intro c hc
  unfold intToStr at hc
  by_cases h : k < 0
  · rw [if_pos h] at hc
    have h2 : (natToStr k.natAbs).getLast? = some c := by
      rw [← hc]
      cases hl : natToStr k.natAbs with
      | nil => exact absurd hl (natToStr_ne_nil _)
      | cons x r => exact List.getLast?_cons_cons.symm
    exact natToStr_all_digits _ c (getLast?_mem_list h2)
  · rw [if_neg h] at hc
    exact natToStr_all_digits _ c (getLast?_mem_list hc)

theorem intToStr_no_qmark (k : ℤ) : '?' ∉ intToStr k := by
  intro hm
  rcases intToStr_chars k '?' hm with h | h
  · exact absurd h (by decide)
  · exact absurd h (by decide)

theorem parseSparsePart_reduce (a' : ArffFile) (dline : List (Str × PyObj))
    (part ds val val2 : Str)
    (hmi : matchIndexValue (pystrip part) = some (ds, val))
    (hunq : (match val.head?, val.getLast? with
      | some h, some t2 =>
        if h = t2 ∧ isQuoteChar h = true then (val.drop 1).dropLast else val
      | _, _ => val) = val2) :
    parseSparsePart a' dline part =
      (getOrIndexError (a'.attributes.get? (parseNatAcc 0 ds)) >>= fun name =>
       getOrKeyError (dlookup a'.attribute_types name) >>= fun t =>
       (if val2 = MISSING then
          (Except.ok (mkString (.str val2) false) >>= fun v =>
            Except.ok (dset dline name (.val v)))
        else
          (typeToClass t (.str val2) false >>= fun v =>
            Except.ok (dset dline name (.val v))))) := by
  unfold parseSparsePart
  rw [hmi]
  show (let value := (match val.head?, val.getLast? with
      | some h, some t2 =>
        if h = t2 ∧ isQuoteChar h = true then (val.drop 1).dropLast else val
      | _, _ => val);
    getOrIndexError (a'.attributes.get? (parseNatAcc 0 ds)) >>= fun name =>
    getOrKeyError (dlookup a'.attribute_types name) >>= fun t =>
    (if value = MISSING then
      (Except.ok (mkString (.str value) false) >>= fun v =>
        Except.ok (dset dline name (.val v)))
     else
      (typeToClass t (.str value) false >>= fun v =>
        Except.ok (dset dline name (.val v))))) = _
  rw [hunq]

theorem parseSparsePart_c1 (a' : ArffFile) (dline : List (Str × PyObj)) (i : ℕ)
    (n : Str) (v : PyObj) (t : AType)
    (hidx : a'.attributes.get? i = some n)
    (ht : dlookup a'.attribute_types n = some t)
    (hcell : GoodCell t v) :
    parseSparsePart a' dline (natToStr i ++ ' ' :: c1CellStr v) =
      Except.ok (dset dline n v) := by
  cases t with
  | integer =>
    obtain ⟨k, hv⟩ := hcell
    subst hv
    have hcell2 : c1CellStr (.val ⟨.integer, .int k, false⟩) = intToStr k := rfl
    rw [hcell2]
    have hstrip : pystrip (natToStr i ++ ' ' :: intToStr k) =
        natToStr i ++ ' ' :: intToStr k := by
      apply pystrip_nosp
      · intro c hc
        apply digit_not_space
        apply natToStr_all_digits i
        cases hl : natToStr i with
        | nil => exact absurd hl (natToStr_ne_nil _)
        | cons x r =>
          rw [hl] at hc
          exact (Option.some.inj hc) ▸ List.mem_cons_self x r
      · intro c hc
        rw [getLast?_append_right _ _ (List.cons_ne_nil _ _),
          show (' ' :: intToStr k) = [' '] ++ intToStr k from rfl,
          getLast?_append_right _ _ (intToStr_ne_nil k)] at hc
        exact digit_not_space c (intToStr_getLast k c hc)
    have hmi : matchIndexValue (natToStr i ++ ' ' :: intToStr k) =
        some (natToStr i, intToStr k) := by
      apply matchIndexValue_tok
      intro c hc
      rcases intToStr_head k c hc with h | h
      · exact digit_not_space c h
      · rw [h]; rfl
    have hnq : ∀ c, (intToStr k).head? = some c → isQuoteChar c = false := by
      intro c hc
      rcases intToStr_head k c hc with h | h
      · by_contra hx
        rw [Bool.not_eq_false] at hx
        unfold isQuoteChar at hx
        rcases Bool.or_eq_true_iff.mp hx with h2 | h2 <;>
          rw [decide_eq_true_eq] at h2 <;> subst h2 <;> cases h
      · rw [h]; rfl
    have hval : (match (intToStr k).head?, (intToStr k).getLast? with
        | some h, some t2 =>
          if h = t2 ∧ isQuoteChar h = true then ((intToStr k).drop 1).dropLast
          else intToStr k
        | _, _ => intToStr k) = intToStr k := by
      cases hh : (intToStr k).head? with
      | none => rfl
      | some c =>
        cases hl : (intToStr k).getLast? with
        | none => rfl
        | some c2 =>
          show (if c = c2 ∧ isQuoteChar c = true then _ else intToStr k) = intToStr k
          rw [if_neg (fun hx => by rw [hnq c hh] at hx; exact Bool.false_ne_true hx.2)]
    have hnm : intToStr k ≠ MISSING :=
      fun hx => intToStr_no_qmark k (hx ▸ List.mem_singleton.mpr rfl)
    rw [parseSparsePart_reduce a' dline _ (natToStr i) (intToStr k) (intToStr k)
      (by rw [hstrip]; exact hmi) hval,
      parseNatAcc_natToStr i, hidx]
    show (getOrKeyError (dlookup a'.attribute_types n) >>= fun t =>
      (if intToStr k = MISSING then
        (Except.ok (mkString (.str (intToStr k)) false) >>= fun v =>
          Except.ok (dset dline n (.val v)))
       else
        (typeToClass t (.str (intToStr k)) false >>= fun v =>
          Except.ok (dset dline n (.val v))))) = _
    rw [ht]
    show (if intToStr k = MISSING then
        (Except.ok (mkString (.str (intToStr k)) false) >>= fun v =>
          Except.ok (dset dline n (.val v)))
       else
        (mkInteger (.str (intToStr k)) false >>= fun v =>
          Except.ok (dset dline n (.val v)))) = _
    rw [if_neg hnm]
    have hmk : mkInteger (.str (intToStr k)) false =
        Except.ok ⟨.integer, .int k, false⟩ := by
      unfold mkInteger
      have hmiss : PyVal.isMissing (.str (intToStr k)) = false := by
        show decide (intToStr k = MISSING) = false
        exact decide_eq_false hnm
      rw [hmiss]
      show (parseIntPy (intToStr k)).map _ = _
      rw [parseIntPy_intToStr k]
      rfl
    rw [hmk, exceptBind_ok]
  | string =>
    obtain ⟨sv, hv, hc1, hc2, hc3⟩ := hcell
    subst hv
    have hcell2 : c1CellStr (.val ⟨.string, .str sv, false⟩) = ('"' :: sv) ++ ['"'] := rfl
    rw [hcell2]
    have hstrip : pystrip (natToStr i ++ ' ' :: (('"' :: sv) ++ ['"'])) =
        natToStr i ++ ' ' :: (('"' :: sv) ++ ['"']) := by
      apply pystrip_nosp
      · intro c hc
        apply digit_not_space
        apply natToStr_all_digits i
        cases hl : natToStr i with
        | nil => exact absurd hl (natToStr_ne_nil _)
        | cons x r =>
          rw [hl] at hc
          exact (Option.some.inj hc) ▸ List.mem_cons_self x r
      · intro c hc
        rw [getLast?_append_right _ _ (List.cons_ne_nil _ _),
          show (' ' :: (('"' :: sv) ++ ['"'])) = [' '] ++ (('"' :: sv) ++ ['"']) from rfl,
          getLast?_append_right _ _ (by simp), List.getLast?_concat] at hc
        rw [(Option.some.inj hc).symm]
        rfl
    have hmi : matchIndexValue (natToStr i ++ ' ' :: (('"' :: sv) ++ ['"'])) =
        some (natToStr i, ('"' :: sv) ++ ['"']) := by
      apply matchIndexValue_tok
      intro c hc
      rw [show (('"' :: sv) ++ ['"']) = '"' :: (sv ++ ['"']) from rfl] at hc
      rw [(Option.some.inj hc).symm]
      rfl
    have hval : (match (('"' :: sv) ++ ['"']).head?, (('"' :: sv) ++ ['"']).getLast? with
        | some h, some t2 =>
          if h = t2 ∧ isQuoteChar h = true then ((('"' :: sv) ++ ['"']).drop 1).dropLast
          else ('"' :: sv) ++ ['"']
        | _, _ => ('"' :: sv) ++ ['"']) = sv := by
      rw [show ((('"' :: sv) ++ ['"']).head?) = some '"' from rfl, List.getLast?_concat]
      show (if ('"' : Char) = '"' ∧ isQuoteChar '"' = true then
        ((('"' :: sv) ++ ['"']).drop 1).dropLast else ('"' :: sv) ++ ['"']) = sv
      rw [if_pos ⟨rfl, rfl⟩]
      show (sv ++ ['"']).dropLast = sv
      exact List.dropLast_concat
    rw [parseSparsePart_reduce a' dline _ (natToStr i) (('"' :: sv) ++ ['"']) sv
      (by rw [hstrip]; exact hmi) hval,
      parseNatAcc_natToStr i, hidx]
    show (getOrKeyError (dlookup a'.attribute_types n) >>= fun t =>
      (if sv = MISSING then
        (Except.ok (mkString (.str sv) false) >>= fun v =>
          Except.ok (dset dline n (.val v)))
       else
        (typeToClass t (.str sv) false >>= fun v =>
          Except.ok (dset dline n (.val v))))) = _
    rw [ht]
    show (if sv = MISSING then
        (Except.ok (mkString (.str sv) false) >>= fun v =>
          Except.ok (dset dline n (.val v)))
       else
        (Except.ok (mkString (.str sv) false) >>= fun v =>
          Except.ok (dset dline n (.val v)))) = _
    rw [ite_self, exceptBind_ok]
    rfl
  | numeric => cases hcell
  | real => cases hcell
  | nominal => cases hcell
  | date => cases hcell

theorem pyStartswith_nil : ∀ (l : Str), pyStartswith l [] = true := by
  intro l
  cases l <;> rfl

theorem foldParts_spaced (a' : ArffFile) : ∀ (l : List Str) (dl : List (Str × PyObj)),
    (l.map (fun tk => ' ' :: tk)).foldlM (parseSparsePart a') dl =
      l.foldlM (parseSparsePart a') dl := by
  intro l
  induction l with
  | nil => intro dl; rfl
  | cons t rest ih =>
    intro dl
    show (parseSparsePart a' dl (' ' :: t) >>= fun dl2 =>
        (rest.map (fun tk => ' ' :: tk)).foldlM (parseSparsePart a') dl2) =
      (parseSparsePart a' dl t >>= fun dl2 => rest.foldlM (parseSparsePart a') dl2)
    rw [parseSparsePart_strip]
    cases hres : parseSparsePart a' dl t with
    | error e => rfl
    | ok dl2 =>
      rw [exceptBind_ok, exceptBind_ok]
      exact ih dl2

theorem partsFold_plain (a' : ArffFile) :
    ∀ (entries : List (Str × PyObj)) (i : ℕ) (dline : List (Str × PyObj)),
      (∀ (m : ℕ) (e : Str × PyObj), entries.get? m = some e →
        a'.attributes.get? (i + m) = some e.1) →
      (∀ e ∈ entries, ∃ t, dlookup a'.attribute_types e.1 = some t ∧ GoodCell t e.2) →
      (∀ e ∈ entries, dlookup dline e.1 = none) →
      (entries.map Prod.fst).Nodup →
      (c1Toks i entries).foldlM (parseSparsePart a') dline =
        Except.ok (dline ++ entries) := by
  intro entries
  induction entries with
  | nil =>
    intro i dline _ _ _ _
    show Except.ok dline = _
    rw [List.append_nil]
  | cons e rest ih =>
    intro i dline hal hg hfresh hnod
    obtain ⟨t, ht, hcell⟩ := hg e (List.mem_cons_self e rest)
    have hidx : a'.attributes.get? i = some e.1 := by
      have h0 := hal 0 e rfl
      rwa [Nat.add_zero] at h0
    show (parseSparsePart a' dline (natToStr i ++ ' ' :: c1CellStr e.2) >>= fun dl2 =>
      (c1Toks (i + 1) rest).foldlM (parseSparsePart a') dl2) = _
    rw [parseSparsePart_c1 a' dline i e.1 e.2 t hidx ht hcell,
      dset_append dline e.1 e.2 (hfresh e (List.mem_cons_self e rest)), exceptBind_ok]
    rw [List.map_cons, List.nodup_cons] at hnod
    have hal2 : ∀ (m : ℕ) (e2 : Str × PyObj), rest.get? m = some e2 →
        a'.attributes.get? (i + 1 + m) = some e2.1 := by
      intro m e2 hm
      have h2 := hal (m + 1) e2 hm
      have he : i + (m + 1) = i + 1 + m := by omega
      rwa [he] at h2
    have hfresh2 : ∀ e2 ∈ rest, dlookup (dline ++ [(e.1, e.2)]) e2.1 = none := by
      intro e2 he2
      rw [dlookup_append_none dline _ _ (hfresh e2 (List.mem_cons_of_mem e he2))]
      have hne : e.1 ≠ e2.1 := by
        intro hx
        exact hnod.1 (hx ▸ List.mem_map.mpr ⟨e2, he2, rfl⟩)
      show (if e.1 = e2.1 then some e.2 else dlookup [] e2.1) = none
      rw [if_neg hne]
      rfl
    rw [ih (i + 1) (dline ++ [(e.1, e.2)]) hal2
      (fun e2 he2 => hg e2 (List.mem_cons_of_mem e he2)) hfresh2 hnod.2,
      List.append_assoc]
    rfl

theorem c1Toks_sep_safe :
    ∀ (entries : List (Str × PyObj)) (i : ℕ),
      (∀ e ∈ entries, ∃ t, GoodCell t e.2) →
      ∀ tok ∈ c1Toks i entries, ',' ∉ tok ∧ tok.getLast? ≠ some '\\' ∧ tok ≠ [] := by
  intro entries
  induction entries with
  | nil => intro i _ tok htok; cases htok
  | cons e rest ih =>
    intro i hg tok htok
    rcases List.mem_cons.mp htok with h | h
    · subst h
      obtain ⟨t, hcell⟩ := hg e (List.mem_cons_self e rest)
      have hcellne : c1CellStr e.2 ≠ [] ∧ (∀ c, (c1CellStr e.2).getLast? = some c → c ≠ '\\') ∧
          ',' ∉ c1CellStr e.2 := by
        cases t with
        | integer =>
          obtain ⟨k, hv⟩ := hcell
          rw [hv]
          refine ⟨intToStr_ne_nil k, ?_, ?_⟩
          · intro c hc hx
            subst hx
            have := intToStr_getLast k _ hc
            cases this
          · intro hm
            rcases intToStr_chars k ',' hm with hd | hd
            · exact absurd hd (by decide)
            · exact absurd hd (by decide)
        | string =>
          obtain ⟨sv, hv, hs1, _, _⟩ := hcell
          rw [hv]
          refine ⟨by simp [c1CellStr], ?_, ?_⟩
          · intro c hc hx
            show False
            rw [show c1CellStr (.val ⟨.string, .str sv, false⟩) = ('"' :: sv) ++ ['"']
              from rfl, List.getLast?_concat] at hc
            have hcc : c = '"' := (Option.some.inj hc).symm
            rw [hcc] at hx
            exact absurd hx (by decide)
          · intro hm
            rw [show c1CellStr (.val ⟨.string, .str sv, false⟩) = ('"' :: sv) ++ ['"']
              from rfl] at hm
            rcases List.mem_append.mp hm with h4 | h4
            · rcases List.mem_cons.mp h4 with h5 | h5
              · exact absurd h5 (by decide)
              · exact hs1 h5
            · rcases List.mem_singleton.mp h4 with h5
              exact absurd h5 (by decide)
        | numeric => cases hcell
        | real => cases hcell
        | nominal => cases hcell
        | date => cases hcell
      refine ⟨?_, ?_, ?_⟩
      · intro hm
        rcases List.mem_append.mp hm with h1 | h1
        · exact absurd (natToStr_all_digits i ',' h1) (by decide)
        · rcases List.mem_cons.mp h1 with h2 | h2
          · exact absurd h2 (by decide)
          · exact hcellne.2.2 h2
      · intro hx
        rw [getLast?_append_right _ _ (List.cons_ne_nil _ _),
          show (' ' :: c1CellStr e.2) = [' '] ++ c1CellStr e.2 from rfl,
          getLast?_append_right _ _ hcellne.1] at hx
        exact hcellne.2.1 '\\' hx rfl
      · simp
    · exact ih (i + 1) (fun e2 he2 => hg e2 (List.mem_cons_of_mem e he2)) tok h

theorem parse_data_c1 (a' : ArffFile) (d : List (Str × PyObj))
    (hfout : a'.fout = false)
    (hne : d ≠ [])
    (hmap : d.map Prod.fst = a'.attributes)
    (hnod : (d.map Prod.fst).Nodup)
    (hg : ∀ e ∈ d, ∃ t, dlookup a'.attribute_types e.1 = some t ∧ GoodCell t e.2) :
    parse_data a' (.text (c1RowLine (.dct d))) =
      Except.ok { a' with data := a'.data ++ [Row.dct d] } := by
  cases d with
  | nil => exact absurd rfl hne
  | cons e0 rest =>
  have hgc : ∀ e ∈ (e0 :: rest), ∃ t, GoodCell t e.2 :=
    fun e he => (hg e he).elim (fun t ht => ⟨t, ht.2⟩)
  have hsafe := c1Toks_sep_safe (e0 :: rest) 0 hgc
  have htk : c1Toks 0 (e0 :: rest) =
      (natToStr 0 ++ ' ' :: c1CellStr e0.2) :: c1Toks 1 rest := rfl
  have hstrip : pystrip (('{' :: List.intercalate (", ".toList) (c1Toks 0 (e0 :: rest)))
      ++ ['}']) = ('{' :: List.intercalate (", ".toList) (c1Toks 0 (e0 :: rest))) ++ ['}'] := by
    apply pystrip_nosp
    · intro c hc
      have : c = '{' := (Option.some.inj hc).symm
      rw [this]
      rfl
    · intro c hc
      rw [List.getLast?_concat] at hc
      rw [(Option.some.inj hc).symm]
      rfl
  have hsw : pyStartswith (('{' :: List.intercalate (", ".toList)
      (c1Toks 0 (e0 :: rest))) ++ ['}']) ['{'] = true := by
    show (decide ('{' = '{') &&
      pyStartswith (List.intercalate (", ".toList) (c1Toks 0 (e0 :: rest)) ++ ['}']) []) = true
    rw [pyStartswith_nil]
    rfl
  have hew : pyEndswith (('{' :: List.intercalate (", ".toList)
      (c1Toks 0 (e0 :: rest))) ++ ['}']) ['}'] = true := by
    unfold pyEndswith
    rw [List.reverse_append]
    show (decide ('}' = '}') &&
      pyStartswith (('{' :: List.intercalate (", ".toList) (c1Toks 0 (e0 :: rest))).reverse)
        []) = true
    rw [pyStartswith_nil]
    rfl
  have hdrop : (((('{' :: List.intercalate (", ".toList) (c1Toks 0 (e0 :: rest)))
      ++ ['}']).drop 1)).dropLast = List.intercalate (", ".toList) (c1Toks 0 (e0 :: rest)) := by
    show (List.intercalate (", ".toList) (c1Toks 0 (e0 :: rest)) ++ ['}']).dropLast = _
    exact List.dropLast_concat
  obtain ⟨hcm0, hlast0, hne0⟩ :=
    hsafe (natToStr 0 ++ ' ' :: c1CellStr e0.2) (htk ▸ List.mem_cons_self _ _)
  have hsplit : splitEscComma (List.intercalate (", ".toList) (c1Toks 0 (e0 :: rest))) =
      (natToStr 0 ++ ' ' :: c1CellStr e0.2) :: (c1Toks 1 rest).map (fun tk => ' ' :: tk) := by
    rw [htk]
    unfold splitEscComma
    rw [splitEscCommaAux_int (c1Toks 1 rest) (natToStr 0 ++ ' ' :: c1CellStr e0.2) []
      hcm0
      (by rw [List.append_nil, List.head?_reverse]; exact hlast0)
      (fun tk htk2 => hsafe tk (htk ▸ List.mem_cons_of_mem _ htk2))]
    rfl
  have halign : ∀ (m : ℕ) (e : Str × PyObj), (e0 :: rest).get? m = some e →
      a'.attributes.get? (0 + m) = some e.1 := by
    intro m e hm
    rw [Nat.zero_add, ← hmap, List.get?_map, hm]
    rfl
  have hfold : ((natToStr 0 ++ ' ' :: c1CellStr e0.2) ::
      (c1Toks 1 rest).map (fun tk => ' ' :: tk)).foldlM (parseSparsePart a') [] =
      Except.ok ([] ++ (e0 :: rest)) := by
    show (parseSparsePart a' [] (natToStr 0 ++ ' ' :: c1CellStr e0.2) >>= fun dl2 =>
      ((c1Toks 1 rest).map (fun tk => ' ' :: tk)).foldlM (parseSparsePart a') dl2) = _
    have hcontinue : (fun dl2 => ((c1Toks 1 rest).map (fun tk => ' ' :: tk)).foldlM
        (parseSparsePart a') dl2) =
        fun dl2 => (c1Toks 1 rest).foldlM (parseSparsePart a') dl2 :=
      funext (fun dl2 => foldParts_spaced a' (c1Toks 1 rest) dl2)
    rw [hcontinue]
    show (c1Toks 0 (e0 :: rest)).foldlM (parseSparsePart a') [] = _
    exact partsFold_plain a' (e0 :: rest) 0 [] halign hg (fun e _ => rfl) hnod
  simp only [parse_data]
  show (if pyStartswith (pystrip (c1RowLine (.dct (e0 :: rest)))) ['{'] = true then
      if ¬ pyEndswith (pystrip (c1RowLine (.dct (e0 :: rest)))) ['}'] = true then
        Except.error ("AssertionError: Malformed sparse data line".toList)
      else if a'.fout = true then
        Except.error ("AssertionError: sparse parse while streaming is NotImplemented".toList)
      else
        ((splitEscComma (((pystrip (c1RowLine (.dct (e0 :: rest)))).drop 1).dropLast)).foldlM
          (parseSparsePart a') [] >>= fun dline =>
          Except.ok { a' with data := a'.data ++ [Row.dct dline] })
    else
      finishDense a' (((pySplitChar ','
        (pystrip (c1RowLine (.dct (e0 :: rest))))).map pystrip).map
          (fun s => PyObj.raw (.str s)))) = _
  rw [show c1RowLine (.dct (e0 :: rest)) =
    ('{' :: List.intercalate (", ".toList) (c1Toks 0 (e0 :: rest))) ++ ['}'] from rfl]
  rw [hstrip, hsw, hew, hfout, hdrop, hsplit, hfold]
  rfl

theorem parseLoop_rows :
    ∀ (rows : List Row) (cur : ArffFile),
      cur.state = .data → cur.fout = false → cur.attributes.Nodup →
      (∀ row ∈ rows, GoodRow cur row) →
      parseLoop false cur (rows.map c1RowLine) =
        Except.ok { cur with data := cur.data ++ rows, lineno := cur.lineno + rows.length } := by
  intro rows
  induction rows with
  | nil =>
    intro cur _ _ _ _
    show Except.ok cur = _
    rw [List.append_nil]
    rfl
  | cons row rest ih =>
    intro cur hst hfout hnodA hg
    obtain ⟨d, hrow, hned, hmapd, hcells⟩ := hg row (List.mem_cons_self row rest)
    rw [List.map_cons, parseLoop_cons, hrow]
    have hhead : (c1RowLine (.dct d)).head? ≠ some '%' := by
      show (('{' :: List.intercalate (", ".toList) (c1Toks 0 d)) ++ ['}']).head? ≠ some '%'
      intro hx
      have h2 : ('{' : Char) = '%' := Option.some.inj hx
      cases h2
    have hlne : c1RowLine (.dct d) ≠ [] := by
      show ('{' :: List.intercalate (", ".toList) (c1Toks 0 d)) ++ ['}'] ≠ []
      simp
    rw [parseline_data_state cur (c1RowLine (.dct d)) hst hlne hhead,
      parse_data_c1 cur d hfout hned hmapd (hmapd ▸ hnodA) hcells, exceptBind_ok]
    show parseLoop false { cur with data := cur.data ++ [Row.dct d], lineno := cur.lineno + 1 } (rest.map c1RowLine) = _
    rw [ih { cur with data := cur.data ++ [Row.dct d], lineno := cur.lineno + 1 } hst hfout
      hnodA (fun r hr => hg r (List.mem_cons_of_mem row hr))]
    show Except.ok { cur with data := (cur.data ++ [Row.dct d]) ++ rest, lineno := cur.lineno + 1 + rest.length } = Except.ok { cur with data := cur.data ++ Row.dct d :: rest, lineno := cur.lineno + (rest.length + 1) }
    rw [List.append_assoc, show cur.lineno + 1 + rest.length = cur.lineno +
      (rest.length + 1) from by omega]
    rfl

/-- One attribute line advances the header state by a `define_attribute` plus
the line counter. -/
def c1AttrStep (st : ArffFile) (p : Str × AType) : ArffFile :=
  { c1DefAttr st p.1 p.2 with lineno := (c1DefAttr st p.1 p.2).lineno + 1 }

def c1DefAttrs (cur : ArffFile) (S : List (Str × AType)) : ArffFile :=
  S.foldl c1AttrStep cur

theorem parseLoop_attrs :
    ∀ (S : List (Str × AType)) (cur : ArffFile) (restLines : List Str),
      cur.state = .in_header →
      (∀ p ∈ S, p.1 ≠ [] ∧ '\'' ∉ p.1 ∧ (p.2 = .integer ∨ p.2 = .string)) →
      parseLoop false cur ((S.map (fun p => c1AttrLine p.1 p.2)) ++ restLines) =
        parseLoop false (c1DefAttrs cur S) restLines := by
  intro S
  induction S with
  | nil => intro cur restLines _ _; rfl
  | cons p S ih =>
    intro cur restLines hst hg
    obtain ⟨hne, hq, ht⟩ := hg p (List.mem_cons_self p S)
    rw [List.map_cons, List.cons_append, parseLoop_cons,
      parseline_in_header cur _ hst, headerStep_attr cur p.1 p.2 hne hq ht,
      exceptBind_ok]
    show parseLoop false (c1AttrStep cur p) ((S.map (fun p => c1AttrLine p.1 p.2)) ++ restLines) = _
    exact ih (c1AttrStep cur p) restLines hst
      (fun q hq2 => hg q (List.mem_cons_of_mem p hq2))

theorem c1DefAttrs_fields : ∀ (S : List (Str × AType)) (cur : ArffFile),
    (c1DefAttrs cur S).relation = cur.relation ∧
    (c1DefAttrs cur S).data = cur.data ∧
    (c1DefAttrs cur S).fout = cur.fout ∧
    (c1DefAttrs cur S).state = cur.state ∧
    (c1DefAttrs cur S).attributes = cur.attributes ++ S.map Prod.fst ∧
    (c1DefAttrs cur S).attribute_types =
      S.foldl (fun T p => dset T p.1 p.2) cur.attribute_types := by
  intro S
  induction S with
  | nil =>
    intro cur
    refine ⟨rfl, rfl, rfl, rfl, ?_, rfl⟩
    show cur.attributes = cur.attributes ++ List.map Prod.fst []
    rw [List.map_nil, List.append_nil]
  | cons p S ih =>
    intro cur
    obtain ⟨h1, h2, h3, h4, h5, h6⟩ := ih (c1AttrStep cur p)
    refine ⟨h1, h2, h3, h4, ?_, h6⟩
    show (c1DefAttrs (c1AttrStep cur p) S).attributes = _
    rw [h5]
    show (cur.attributes ++ [p.1]) ++ S.map Prod.fst = _
    rw [List.append_assoc]
    rfl

theorem foldl_dset_fresh :
    ∀ (S T : List (Str × AType)), (∀ p ∈ S, dlookup T p.1 = none) →
      (S.map Prod.fst).Nodup →
      S.foldl (fun T p => dset T p.1 p.2) T = T ++ S := by
  intro S
  induction S with
  | nil =>
    intro T _ _
    show T = T ++ []
    rw [List.append_nil]
  | cons p S ih =>
    intro T hfresh hnod
    rw [List.map_cons, List.nodup_cons] at hnod
    show S.foldl (fun T p => dset T p.1 p.2) (dset T p.1 p.2) = _
    rw [dset_append T p.1 p.2 (hfresh p (List.mem_cons_self p S))]
    have hfresh2 : ∀ q ∈ S, dlookup (T ++ [(p.1, p.2)]) q.1 = none := by
      intro q hq
      rw [dlookup_append_none T _ _ (hfresh q (List.mem_cons_of_mem p hq))]
      have hne : p.1 ≠ q.1 := by
        intro hx
        exact hnod.1 (hx ▸ List.mem_map.mpr ⟨q, hq, rfl⟩)
      show (if p.1 = q.1 then some p.2 else dlookup [] q.1) = none
      rw [if_neg hne]
      rfl
    rw [ih (T ++ [(p.1, p.2)]) hfresh2 hnod.2, List.append_assoc]
    rfl

theorem c1Toks_no_break :
    ∀ (entries : List (Str × PyObj)) (i : ℕ),
      (∀ e ∈ entries, ∃ t, GoodCell t e.2) →
      ∀ tok ∈ c1Toks i entries, ∀ c ∈ tok, isLineBreak c = false := by
  intro entries
  induction entries with
  | nil => intro i _ tok htok; cases htok
  | cons e rest ih =>
    intro i hg tok htok
    rcases List.mem_cons.mp htok with h | h
    · subst h
      intro c hmem
      rcases List.mem_append.mp hmem with h1 | h1
      · exact isLineBreak_digit c (natToStr_all_digits i c h1)
      · rcases List.mem_cons.mp h1 with h2 | h2
        · subst h2
          decide
        · obtain ⟨t, hcell⟩ := hg e (List.mem_cons_self e rest)
          cases t with
          | integer =>
            obtain ⟨k, hv⟩ := hcell
            rw [hv] at h2
            rcases intToStr_chars k c h2 with hd | hd
            · exact isLineBreak_digit c hd
            · subst hd
              decide
          | string =>
            obtain ⟨sv, hv, _, hn2, _⟩ := hcell
            rw [hv] at h2
            have h3 : c ∈ ('"' :: sv) ++ ['"'] := h2
            rcases List.mem_append.mp h3 with h4 | h4
            · rcases List.mem_cons.mp h4 with h5 | h5
              · subst h5
                decide
              · exact hn2 c h5
            · rcases List.mem_singleton.mp h4 with h5
              subst h5
              decide
          | numeric => cases hcell
          | real => cases hcell
          | nominal => cases hcell
          | date => cases hcell
    · exact ih (i + 1) (fun e2 he2 => hg e2 (List.mem_cons_of_mem e he2)) tok h

theorem intercalate_not_mem (c : Char) (hc1 : c ≠ ',') (hc2 : c ≠ ' ') :
    ∀ (toks : List Str), (∀ tk ∈ toks, c ∉ tk) →
      c ∉ List.intercalate (", ".toList) toks := by
  intro toks
  induction toks with
  | nil => intro _ hm; cases hm
  | cons t0 rest ih =>
    intro hg
    cases rest with
    | nil =>
      have he : List.intercalate (", ".toList) [t0] = t0 := by
        show t0 ++ [] = t0
        rw [List.append_nil]
      rw [he]
      exact hg t0 (List.mem_cons_self t0 [])
    | cons t1 rest2 =>
      rw [intercalate_cons2]
      intro hm
      rcases List.mem_append.mp hm with h1 | h1
      · exact hg t0 (List.mem_cons_self t0 _) h1
      · rcases List.mem_cons.mp h1 with h2 | h2
        · exact hc1 h2
        · rcases List.mem_cons.mp h2 with h3 | h3
          · exact hc2 h3
          · exact ih (fun tk htk => hg tk (List.mem_cons_of_mem t0 htk)) h3

theorem intercalate_break_free :
    ∀ (toks : List Str), (∀ tk ∈ toks, ∀ c ∈ tk, isLineBreak c = false) →
      ∀ c ∈ List.intercalate (", ".toList) toks, isLineBreak c = false := by
  intro toks
  induction toks with
  | nil => intro _ c hm; cases hm
  | cons t0 rest ih =>
    intro hg c
    cases rest with
    | nil =>
      have he : List.intercalate (", ".toList) [t0] = t0 := by
        show t0 ++ [] = t0
        rw [List.append_nil]
      rw [he]
      exact hg t0 (List.mem_cons_self t0 []) c
    | cons t1 rest2 =>
      rw [intercalate_cons2]
      intro hm
      rcases List.mem_append.mp hm with h1 | h1
      · exact hg t0 (List.mem_cons_self t0 _) c h1
      · rcases List.mem_cons.mp h1 with h2 | h2
        · subst h2
          decide
        · rcases List.mem_cons.mp h2 with h3 | h3
          · subst h3
            decide
          · exact ih (fun tk htk => hg tk (List.mem_cons_of_mem t0 htk)) c h3

theorem c1RowLine_break_free (a : ArffFile) (row : Row) (hrow : GoodRow a row) :
    ∀ c ∈ c1RowLine row, isLineBreak c = false := by
  obtain ⟨d, hr, _, _, hcells⟩ := hrow
  subst hr
  intro c hm
  have hm2 : c ∈ ('{' :: List.intercalate (", ".toList) (c1Toks 0 d)) ++ ['}'] := hm
  rcases List.mem_append.mp hm2 with h1 | h1
  · rcases List.mem_cons.mp h1 with h2 | h2
    · subst h2
      decide
    · exact intercalate_break_free (c1Toks 0 d)
        (c1Toks_no_break d 0 (fun e he => (hcells e he).elim (fun t ht => ⟨t, ht.2⟩)))
        c h2
  · rcases List.mem_singleton.mp h1 with h2
    subst h2
    decide

theorem c1AttrLine_break_free (n : Str) (t : AType)
    (hn : ∀ c ∈ n, isLineBreak c = false) :
    ∀ c ∈ c1AttrLine n t, isLineBreak c = false := by
  intro c hm
  unfold c1AttrLine at hm
  rcases List.mem_append.mp hm with h1 | h1
  · rcases List.mem_append.mp h1 with h2 | h2
    · have hx : ∀ c2 ∈ ("@attribute ".toList : Str), isLineBreak c2 = false := by decide
      exact hx c h2
    · rcases List.mem_append.mp h2 with h3 | h3
      · rcases List.mem_cons.mp h3 with h4 | h4
        · subst h4
          decide
        · exact hn c h4
      · rcases List.mem_singleton.mp h3 with h4
        subst h4
        decide
  · rcases List.mem_cons.mp h1 with h2 | h2
    · subst h2
      decide
    · cases t with
      | integer =>
        have hx : ∀ c2 ∈ (c1TypeWord .integer : Str), isLineBreak c2 = false := by decide
        exact hx c h2
      | numeric =>
        have hx : ∀ c2 ∈ (c1TypeWord .numeric : Str), isLineBreak c2 = false := by decide
        exact hx c h2
      | real =>
        have hx : ∀ c2 ∈ (c1TypeWord .real : Str), isLineBreak c2 = false := by decide
        exact hx c h2
      | string =>
        have hx : ∀ c2 ∈ (c1TypeWord .string : Str), isLineBreak c2 = false := by decide
        exact hx c h2
      | nominal =>
        have hx : ∀ c2 ∈ (c1TypeWord .nominal : Str), isLineBreak c2 = false := by decide
        exact hx c h2
      | date =>
        have hx : ∀ c2 ∈ (c1TypeWord .date : Str), isLineBreak c2 = false := by decide
        exact hx c h2

/-- The header state reached after the comment and relation lines. -/
def c1ST2 (a : ArffFile) : ArffFile :=
  { ArffFile.empty with relation := a.relation, comment := .strg [], state := .in_header, lineno := 3 }

/-- The state reached after the whole header (attributes and `@data`). -/
def c1CUR (a : ArffFile) : ArffFile :=
  { c1DefAttrs (c1ST2 a) a.attribute_types with state := .data, lineno := (c1DefAttrs (c1ST2 a) a.attribute_types).lineno + 1 }

/-- The state `parse` reaches on the written text. -/
def c1Final (a : ArffFile) : ArffFile :=
  { c1CUR a with data := (c1CUR a).data ++ a.data, lineno := (c1CUR a).lineno + a.data.length }

/-- **C1, amended.**  On the integer/string fragment — quote-free,
line-break-free, nonempty attribute names, whitespace-free and
line-break-free nonempty relation, benign class-flag-free rows keyed exactly
by the schema (`GoodRow`), empty comment — writing the dataset in the default
sparse format and parsing the text back reproduces the relation, the
attribute order, the attribute types and the rows exactly.  The original
claim over *all* Nominal/Date-free datasets is false: a row whose only value
is missing is dropped by the sparse writer (see the all-missing-row
counterexample). -/
theorem roundtrip_integer_string (a : ArffFile)
    (hrel1 : a.relation ≠ []) (hrel2 : ∀ c ∈ a.relation, pyIsSpace c = false)
    (hrel3 : ∀ c ∈ a.relation, isLineBreak c = false)
    (hattrs : a.attributes = a.attribute_types.map Prod.fst)
    (hnodup : a.attributes.Nodup)
    (hnames : ∀ p ∈ a.attribute_types, p.1 ≠ [] ∧ '\'' ∉ p.1 ∧
      (∀ c ∈ p.1, isLineBreak c = false) ∧
      (p.2 = .integer ∨ p.2 = .string))
    (hcom : a.comment = .lst [])
    (hrows : ∀ row ∈ a.data, GoodRow a row) :
    ∃ txt a2, write a .sparse false false = Except.ok txt ∧
      parse txt false = Except.ok a2 ∧
      a2.relation = a.relation ∧ a2.attributes = a.attributes ∧
      a2.attribute_types = a.attribute_types ∧ a2.data = a.data := by
  have hTnod : (a.attribute_types.map Prod.fst).Nodup := hattrs ▸ hnodup
  have hlook : ∀ p ∈ a.attribute_types, dlookup a.attribute_types p.1 = some p.2 :=
    dlookup_self_of_nodup a.attribute_types hTnod
  have hWA : ∀ n ∈ a.attributes, n ≠ [] ∧ '\'' ∉ n ∧
      (dlookup a.attribute_types n = some .integer ∨
       dlookup a.attribute_types n = some .string) := by
    intro n hn
    rw [hattrs] at hn
    obtain ⟨p, hp, rfl⟩ := List.mem_map.mp hn
    obtain ⟨h1, h2, _, h4⟩ := hnames p hp
    refine ⟨h1, h2, ?_⟩
    rcases h4 with h | h
    · left; rw [hlook p hp, h]
    · right; rw [hlook p hp, h]
  have hW := write_c1 a hcom hWA hnodup hrows
  have hAL : a.attributes.map (fun n =>
      c1AttrLine n ((dlookup a.attribute_types n).getD .integer)) =
      a.attribute_types.map (fun p => c1AttrLine p.1 p.2) := by
    rw [hattrs, List.map_map]
    apply List.map_congr_left
    intro p hp
    show c1AttrLine p.1 ((dlookup a.attribute_types p.1).getD .integer) = _
    rw [hlook p hp]
    rfl
  rw [hAL] at hW
  have hS : ∀ p ∈ a.attribute_types, p.1 ≠ [] ∧ '\'' ∉ p.1 ∧
      (p.2 = .integer ∨ p.2 = .string) :=
    fun p hp => ⟨(hnames p hp).1, (hnames p hp).2.1, (hnames p hp).2.2.2⟩
  have hnl : ∀ l ∈ (("% ".toList) :: ("@relation ".toList ++ a.relation) ::
      (a.attribute_types.map (fun p => c1AttrLine p.1 p.2) ++
        ("@data".toList :: a.data.map c1RowLine))),
      ∀ c ∈ l, isLineBreak c = false := by
    intro l hl
    rcases List.mem_cons.mp hl with h | h
    · subst h
      decide
    rcases List.mem_cons.mp h with h | h
    · subst h
      intro c hm
      rcases List.mem_append.mp hm with h1 | h1
      · have hx : ∀ c2 ∈ ("@relation ".toList : Str), isLineBreak c2 = false := by decide
        exact hx c h1
      · exact hrel3 c h1
    rcases List.mem_append.mp h with h | h
    · obtain ⟨p, hp, rfl⟩ := List.mem_map.mp h
      exact c1AttrLine_break_free p.1 p.2 (hnames p hp).2.2.1
    rcases List.mem_cons.mp h with h | h
    · subst h
      decide
    · obtain ⟨row, hrw, rfl⟩ := List.mem_map.mp h
      exact c1RowLine_break_free a row (hrows row hrw)
  have hsplitl : splitlines (unlines (("% ".toList) ::
      ("@relation ".toList ++ a.relation) ::
      (a.attribute_types.map (fun p => c1AttrLine p.1 p.2) ++
        ("@data".toList :: a.data.map c1RowLine)))) =
      (("% ".toList) :: ("@relation ".toList ++ a.relation) ::
      (a.attribute_types.map (fun p => c1AttrLine p.1 p.2) ++
        ("@data".toList :: a.data.map c1RowLine))) :=
    splitlines_unlines _ (List.cons_ne_nil _ _) hnl
  have hstH : (c1DefAttrs (c1ST2 a) a.attribute_types).state = .in_header := by
    rw [(c1DefAttrs_fields a.attribute_types (c1ST2 a)).2.2.2.1]
    rfl
  have hfoutC : (c1CUR a).fout = false := by
    show (c1DefAttrs (c1ST2 a) a.attribute_types).fout = false
    rw [(c1DefAttrs_fields a.attribute_types (c1ST2 a)).2.2.1]
    rfl
  have hCA : (c1CUR a).attributes = a.attributes := by
    show (c1DefAttrs (c1ST2 a) a.attribute_types).attributes = a.attributes
    rw [(c1DefAttrs_fields a.attribute_types (c1ST2 a)).2.2.2.2.1]
    show ([] : List Str) ++ a.attribute_types.map Prod.fst = a.attributes
    rw [List.nil_append]
    exact hattrs.symm
  have hCT : (c1CUR a).attribute_types = a.attribute_types := by
    show (c1DefAttrs (c1ST2 a) a.attribute_types).attribute_types = a.attribute_types
    rw [(c1DefAttrs_fields a.attribute_types (c1ST2 a)).2.2.2.2.2]
    show a.attribute_types.foldl (fun T p => dset T p.1 p.2) [] = a.attribute_types
    rw [foldl_dset_fresh a.attribute_types [] (fun p _ => rfl) hTnod, List.nil_append]
  have hnodC : (c1CUR a).attributes.Nodup := by
    rw [hCA]
    exact hnodup
  have hgC : ∀ row ∈ a.data, GoodRow (c1CUR a) row := by
    intro row hr
    obtain ⟨d, h1, h2, h3, h4⟩ := hrows row hr
    refine ⟨d, h1, h2, ?_, ?_⟩
    · rw [hCA]
      exact h3
    · intro e he
      rw [hCT]
      exact h4 e he
  have hhd : ("@relation ".toList ++ a.relation).head? ≠ some '%' := by
    intro hx
    exact absurd (Option.some.inj hx) (by decide)
  have hline2 : parseline { ArffFile.empty with state := .comment, comment := .lst [[]], lineno := 2 } ("@relation ".toList ++ a.relation) = Except.ok { { ArffFile.empty with state := .comment, comment := .lst [[]], lineno := 2 } with comment := .strg (joinComment (CommentSt.lst [[]])), state := .in_header, relation := a.relation } := by
    rw [parseline_comment_off _ _ rfl hhd, headerStep_rel _ a.relation hrel1 hrel2]
  have hfull : parse (unlines (("% ".toList) ::
      ("@relation ".toList ++ a.relation) ::
      (a.attribute_types.map (fun p => c1AttrLine p.1 p.2) ++
        ("@data".toList :: a.data.map c1RowLine)))) false =
      Except.ok (c1Final a) := by
    unfold parse
    rw [hsplitl, parseLoop_cons,
      show parseline { ArffFile.empty with state := .comment, lineno := 1 } ("% ".toList) = Except.ok { ArffFile.empty with state := .comment, lineno := 1, comment := .lst [[]] } from rfl,
      exceptBind_ok]
    show parseLoop false { ArffFile.empty with state := .comment, comment := .lst [[]], lineno := 2 } (("@relation ".toList ++ a.relation) :: (a.attribute_types.map (fun p => c1AttrLine p.1 p.2) ++ ("@data".toList :: a.data.map c1RowLine))) = _
    rw [parseLoop_cons, hline2, exceptBind_ok]
    show parseLoop false (c1ST2 a) (a.attribute_types.map (fun p => c1AttrLine p.1 p.2) ++ ("@data".toList :: a.data.map c1RowLine)) = _
    rw [parseLoop_attrs a.attribute_types (c1ST2 a) _ rfl hS, parseLoop_cons,
      parseline_in_header _ _ hstH, headerStep_data _, exceptBind_ok]
    show parseLoop false (c1CUR a) (a.data.map c1RowLine) = _
    rw [parseLoop_rows a.data (c1CUR a) rfl hfoutC hnodC hgC]
    rfl
  refine ⟨_, c1Final a, hW, hfull, ?_, ?_, ?_, ?_⟩
  · show (c1DefAttrs (c1ST2 a) a.attribute_types).relation = a.relation
    rw [(c1DefAttrs_fields a.attribute_types (c1ST2 a)).1]
    rfl
  · exact hCA
  · exact hCT
  · show (c1DefAttrs (c1ST2 a) a.attribute_types).data ++ a.data = a.data
    rw [(c1DefAttrs_fields a.attribute_types (c1ST2 a)).2.1]
    show ([] : List Row) ++ a.data = a.data
    rw [List.nil_append]

/-- Dataset for the C1 witness: an integer and a string attribute, one benign
row. -/
def c1wit : ArffFile :=
  { relation := "rel".toList,
    attributes := ["i1".toList, "s1".toList],
    attribute_types := [("i1".toList, .integer), ("s1".toList, .string)],
    attribute_data := [("i1".toList, .pynone), ("s1".toList, .pynone)],
    comment := .lst [],
    data := [Row.dct [("i1".toList, .val ⟨.integer, .int 7, false⟩),
      ("s1".toList, .val ⟨.string, .str ("ab".toList), false⟩)]] }

theorem roundtrip_integer_string_witness :
    ∃ txt a2, write c1wit .sparse false false = Except.ok txt ∧
      parse txt false = Except.ok a2 ∧
      a2.relation = c1wit.relation ∧ a2.attributes = c1wit.attributes ∧
      a2.attribute_types = c1wit.attribute_types ∧ a2.data = c1wit.data :=
  roundtrip_integer_string c1wit (by decide) (by decide) (by decide) rfl (by decide)
    (by decide) rfl
    (by
      intro row hr
      rcases List.mem_singleton.mp hr with rfl
      refine ⟨_, rfl, by decide, rfl, fun e he => ?_⟩
      rcases List.mem_cons.mp he with h | h
      · rw [h]
        exact ⟨.integer, rfl, ⟨7, rfl⟩⟩
      · rcases List.mem_singleton.mp h with h
        rw [h]
        exact ⟨.string, rfl, ⟨"ab".toList, rfl, by decide, by decide, by decide⟩⟩)

/-- Dataset for the C1 counterexample: one integer attribute, one row whose
single value is missing. -/
def c1state : ArffFile :=
  { relation := "r".toList,
    attributes := ["a".toList],
    attribute_types := [("a".toList, .integer)],
    attribute_data := [("a".toList, .pynone)],
    comment := .lst [],
    data := [Row.dct [("a".toList, .val ⟨.integer, .str MISSING, false⟩)]] }

/-- **C1, counterexample.**  The schema has no Nominal or Date attribute, yet
`parse(write(dataset))` is not the original dataset: the sparse writer drops a
row whose only token carries the missing marker (`len(line) == 1 and MISSING
in line[-1]`), so the round trip loses the row. -/
theorem roundtrip_drops_all_missing_row :
    ((write c1state .sparse false false).bind (fun txt => parse txt false)).map
        (fun a => (a.relation, a.attributes, a.attribute_types, a.data)) =
      Except.ok (c1state.relation, c1state.attributes, c1state.attribute_types, []) ∧
    c1state.data ≠ [] ∧
    (∀ p ∈ c1state.attribute_types, p.2 ≠ .nominal ∧ p.2 ≠ .date) := by
  refine ⟨rfl, by decide, by decide⟩

end PyWeka
